import Mathlib

/-!
Verification of the Graph Consistency & Active-Path Derivation Engine of
KnotenWerk (src/app.js), as a shallow embedding in Lean 4.

JS strings are Lean `String`s; JS `Array`s are Lean `List`s; JS objects used
as string-keyed maps are association lists (insertion order preserved, as in
JS); `null`/absent values are `Option`.  The recursive path walk is embedded
with an explicit fuel parameter (the source recursion is bounded by the
ancestor set, which grows strictly inside the node-id set; fuel
`nodes.length + 1` is always sufficient, and fuel-independence is proved
where a claim speaks about termination).
-/

namespace KnotenWerk

/-- JS whitespace for `String.prototype.trim` (the common ASCII cases). -/
def isJsWS (c : Char) : Bool :=
  c = ' ' ∨ c = '\t' ∨ c = '\n' ∨ c = '\r' ∨ c = '\x0b' ∨ c = '\x0c'

/-- Model of JS `String.prototype.trim`: strip leading and trailing whitespace. -/
def jsTrim (s : String) : String :=
  ⟨((s.data.dropWhile isJsWS).reverse.dropWhile isJsWS).reverse⟩

/-- Model of JS `String.prototype.toLowerCase` (ASCII case folding). -/
def jsToLower (s : String) : String :=
  ⟨s.data.map Char.toLower⟩

/-- A model of the JSON-shaped JS values `normalizeGraph` consumes. -/
inductive JsVal where
  | vNull : JsVal
  | vUndef : JsVal
  | vBool : Bool → JsVal
  | vNum : Int → JsVal
  | vStr : String → JsVal
  | vArr : List JsVal → JsVal
  | vObj : List (String × JsVal) → JsVal

namespace JsVal

/-- JS property access `v.key`: defined on objects, `undefined` elsewhere
(the source never reads array-special properties such as `length`). -/
def get : JsVal → String → JsVal
  | vObj fields, key =>
    match fields.find? (fun f => f.1 = key) with
    | some f => f.2
    | none => vUndef
  | _, _ => vUndef

/-- JS truthiness. -/
def truthy : JsVal → Bool
  | vNull => false
  | vUndef => false
  | vBool b => b
  | vNum n => n ≠ 0
  | vStr s => s ≠ ""
  | vArr _ => true
  | vObj _ => true

/-- `typeof v === 'object' && v` — objects and arrays pass, `null` fails. -/
def isObjLike : JsVal → Bool
  | vArr _ => true
  | vObj _ => true
  | _ => false

/-- `typeof v === 'string'`. -/
def isStr : JsVal → Bool
  | vStr _ => true
  | _ => false

/-- `Array.isArray(v)`. -/
def isArr : JsVal → Bool
  | vArr _ => true
  | _ => false

mutual

/-- JS `String(v)` coercion (array elements that are `null`/`undefined`
render as the empty string inside the comma join). -/
def toStr : JsVal → String
  | vNull => "null"
  | vUndef => "undefined"
  | vBool b => if b then "true" else "false"
  | vNum n => toString n
  | vStr s => s
  | vArr l => String.intercalate "," (toStrElems l)
  | vObj _ => "[object Object]"

/-- Stringify the elements of an array for the comma join. -/
def toStrElems : List JsVal → List String
  | [] => []
  | vNull :: rest => "" :: toStrElems rest
  | vUndef :: rest => "" :: toStrElems rest
  | v :: rest => toStr v :: toStrElems rest

end

end JsVal

open JsVal

/-- `String(value || '')`: the string coercion applied by `normalizeNodeType`. -/
def jsCoerceOrEmpty (v : JsVal) : String :=
  if v.truthy then v.toStr else ""

/-- src/app.js `normalizeNodeType`:
`String(value || '').trim().toLowerCase() === 'or' ? 'or' : 'xor'`. -/
def normalizeNodeType (v : JsVal) : String :=
  if jsToLower (jsTrim (jsCoerceOrEmpty v)) = "or" then "or" else "xor"

/-- The string-typed entry point used on already-normalized node records. -/
def normalizeNodeTypeStr (s : String) : String :=
  normalizeNodeType (vStr s)

/-- Lowercase hex digit as used by the color regexes. -/
def isHexLower (c : Char) : Bool :=
  ('0' ≤ c ∧ c ≤ '9') ∨ ('a' ≤ c ∧ c ≤ 'f')

/-- `/^#[0-9a-f]{6}$/` on an already lowercased, trimmed string. -/
def matchesHex6 (cs : List Char) : Bool :=
  match cs with
  | '#' :: rest => rest.length = 6 ∧ rest.all isHexLower
  | _ => false

/-- `/^#[0-9a-f]{3}$/` on an already lowercased, trimmed string. -/
def matchesHex3 (cs : List Char) : Bool :=
  match cs with
  | '#' :: rest => rest.length = 3 ∧ rest.all isHexLower
  | _ => false

/-- src/app.js `normalizeHexColor`: non-strings map to `null`; strings are
trimmed and lowercased, then matched against `#rrggbb` (kept) or `#rgb`
(expanded), anything else maps to `null`. -/
def normalizeHexColor (v : JsVal) : Option String :=
  match v with
  | vStr s =>
    let raw := jsToLower (jsTrim s)
    if raw = "" then none
    else if matchesHex6 raw.data then some raw
    else
      match raw.data with
      | ['#', a, b, c] =>
        if isHexLower a ∧ isHexLower b ∧ isHexLower c then
          some ⟨['#', a, a, b, b, c, c]⟩
        else none
      | _ => none
  | _ => none

/-- The `Option String`-typed entry point used on normalized node records
(`color` is a string or `null` after normalization). -/
def normalizeHexColorOpt (c : Option String) : Option String :=
  normalizeHexColor (match c with | some s => vStr s | none => vNull)

/-- A choice button, mirroring an outgoing edge of its owning node. -/
structure Button where
  id : String
  text : String
  /-- JS field `to` (renamed: `to` is a reserved token). -/
  toId : Option String
deriving Repr, DecidableEq, Inhabited

/-- A graph node.  `type` stays a raw string as in the source (the enforcer
re-normalizes it on every pass). -/
structure Node where
  id : String
  x : Int
  y : Int
  text : String
  type : String
  color : Option String
  buttons : List Button
deriving Repr, DecidableEq

/-- A directed edge; `to = none` is a dangling edge. -/
structure Edge where
  id : String
  /-- JS field `from` (renamed: `from` is a keyword). -/
  fromId : String
  /-- JS field `to` (renamed: `to` is a reserved token). -/
  toId : Option String
  buttonId : String
  pendingX : Option Int
  pendingY : Option Int
deriving Repr, DecidableEq

/-- `ui.activeSelections`: a JS object mapping node id to a list of edge ids,
modelled as an association list in insertion order. -/
abbrev Selections : Type := List (String × List String)

/-- The presentation sub-state carried on the graph. -/
structure UIState where
  selectedNodeId : Option String
  activePath : List String
  activeSelections : Selections
deriving Repr, DecidableEq

/-- The graph aggregate. -/
structure Graph where
  id : String
  name : String
  version : Int
  createdAt : String
  updatedAt : String
  nodes : List Node
  edges : List Edge
  ui : UIState
deriving Repr, DecidableEq

/-- JS object read `selections[nodeId]` (keys are unique in a real JS object;
first match). -/
def lookupSel (s : Selections) (k : String) : Option (List String) :=
  match (List.find? (fun e => e.1 = k) s : Option (String × List String)) with
  | some e => some e.2
  | none => none

/-- JS object write `selections[nodeId] = v`: update in place if the key
exists (keeping its position, as JS does), else append. -/
def setSel (s : Selections) (k : String) (v : List String) : Selections :=
  match s with
  | [] => [(k, v)]
  | e :: rest => if e.1 = k then (k, v) :: rest else e :: setSel rest k v

/-- JS `delete selections[nodeId]`. -/
def delSel (s : Selections) (k : String) : Selections :=
  List.filter (fun e => ¬ e.1 = k) s

/-- `new Map(graph.nodes.map(n => [n.id, n]))`: a JS `Map` built from a list
keeps the **last** binding for a duplicated key. -/
def lookupNode (nodes : List Node) (nid : String) : Option Node :=
  match (List.find? (fun n => n.id = nid) nodes.reverse : Option Node) with
  | some n => some n
  | none => none

/-- `new Map(graph.edges.map(e => [e.id, e]))` (last binding wins). -/
def lookupEdge (edges : List Edge) (eid : String) : Option Edge :=
  match (List.find? (fun e => e.id = eid) edges.reverse : Option Edge) with
  | some e => some e
  | none => none

/-- `nodeIdSet.has nid` for the set of node ids. -/
def hasNodeId (nodes : List Node) (nid : String) : Bool :=
  nodes.any (fun n => n.id = nid)

/-- `edgeIdSet.has eid` for the set of edge ids. -/
def hasEdgeId (edges : List Edge) (eid : String) : Bool :=
  edges.any (fun e => e.id = eid)

/-- The per-edge body of step 1 of `enforceGraphConsistency`
(src/app.js:874-890): drop an edge with unknown `from`; trim a non-blank
`to` and require it to resolve, clearing pending coordinates; coerce
everything else to a dangling edge. -/
def sanitizeEdge (nodes : List Node) (e : Edge) : Option Edge :=
  if hasNodeId nodes e.fromId then
    match e.toId with
    | some s =>
      if jsTrim s ≠ "" then
        if hasNodeId nodes (jsTrim s) then
          some { e with toId := some (jsTrim s), pendingX := none, pendingY := none }
        else none
      else some { e with toId := none }
    | none => some { e with toId := none }
  else none

/-- Step 1 of `enforceGraphConsistency`: the surviving, coerced edges. -/
def sanitizeEdges (nodes : List Node) (edges : List Edge) : List Edge :=
  edges.filterMap (sanitizeEdge nodes)

/-- Update the **last** button carrying the given id (the `Map` built from
`node.buttons` keeps the last binding for a duplicated key, and mutating the
mapped object edits that occurrence in place); `none` when no button has the
id. -/
def updateLastButton (bid : String) (upd : Button → Button) :
    List Button → Option (List Button)
  | [] => none
  | b :: rest =>
    match updateLastButton bid upd rest with
    | some rest2 => some (b :: rest2)
    | none => if b.id = bid then some (upd b :: rest) else none

/-- The `button.to`/`button.text` mutation applied to a mirrored button
(src/app.js:913-916). -/
def mirrorUpd (newTo : Option String) (b : Button) : Button :=
  { b with toId := newTo, text := if b.text = "" then "Choice" else b.text }

/-- `typeof edge.to === 'string' && edge.to ? edge.to : null`. -/
def mirrorTo (e : Edge) : Option String :=
  match e.toId with
  | some s => if s ≠ "" then some s else none
  | none => none

/-- One iteration of the button-mirroring loop (src/app.js:906-917): find the
edge's button (synthesizing a missing one), force its `to` to the edge's
current target and default a blank text. -/
def mirrorStep (buttons : List Button) (e : Edge) : List Button :=
  match updateLastButton e.buttonId (mirrorUpd (mirrorTo e)) buttons with
  | some bs => bs
  | none => buttons ++ [{ id := e.buttonId, text := "Choice", toId := mirrorTo e }]

/-- The per-node body of the button-mirroring pass (src/app.js:899-921):
normalize type and color, mirror every outgoing edge, then drop buttons
without a backing outgoing edge. -/
def mirrorNode (edges : List Edge) (n : Node) : Node :=
  let outgoing := edges.filter (fun e => e.fromId = n.id)
  let mirrored := outgoing.foldl mirrorStep n.buttons
  { n with
    type := normalizeNodeTypeStr n.type,
    color := normalizeHexColorOpt n.color,
    buttons := mirrored.filter (fun b => outgoing.any (fun e => e.buttonId = b.id)) }

/-- JS `Array.from(new Set(...))` style dedup keeping first occurrences, and
the push-if-absent loops of the source. -/
def dedupAppend (l : List String) : List String :=
  l.foldl (fun acc x => if x ∈ acc then acc else acc ++ [x]) []

/-- The recursive `walk` of `rebuildActivePathFromSelections`
(src/app.js:805-832), with explicit fuel.  Appends the node id; stops at a
cycle through the ancestor `stack`; otherwise follows every selected edge
(first one only for an XOR node) whose `from` matches and whose target
resolves, appending the edge id and recursing with the extended stack. -/
def walk (nodes : List Node) (edges : List Edge) (sels : Selections) :
    Nat → String → List String → List String
  | 0, _, _ => []
  | fuel + 1, nid, stack =>
    match lookupNode nodes nid with
    | none => []
    | some node =>
      if nid ∈ stack then [nid]
      else
        let rawSelected := (lookupSel sels nid).getD []
        let selectedEdgeIds := if node.type = "xor" then rawSelected.take 1 else rawSelected
        nid :: selectedEdgeIds.flatMap fun eid =>
          match lookupEdge edges eid with
          | some e =>
            match e.toId with
            | some t =>
              if e.fromId = nid ∧ hasNodeId nodes t then
                e.id :: walk nodes edges sels fuel t (nid :: stack)
              else []
            | none => []
          | none => []

/-- One pruned selection entry (src/app.js:856-861): the edge ids of the
entry that are traversed path entries, deduplicated. -/
def pruneEntry (path : List String) (nodes : List Node) (edges : List Edge)
    (v : List String) : List String :=
  v.foldl (fun facc eid =>
    if (eid ∈ path ∧ ¬ hasNodeId nodes eid ∧ hasEdgeId edges eid) ∧ eid ∉ facc
    then facc ++ [eid] else facc) []

/-- One iteration of the pruning loop (src/app.js:851-866). -/
def pruneStep (path : List String) (nodes : List Node) (edges : List Edge)
    (acc : Selections) (kv : String × List String) : Selections :=
  if kv.1 ∈ path ∧ hasNodeId nodes kv.1 then
    let filtered := pruneEntry path nodes edges kv.2
    if filtered ≠ [] then setSel acc kv.1 filtered else acc
  else acc

/-- The body of `rebuildActivePathFromSelections` (src/app.js:792-869):
derive the path by walking from the first node, then prune the selection map
to path-visited nodes and traversed edges.  Returns (activePath,
activeSelections). -/
def rebuildActivePath (nodes : List Node) (edges : List Edge)
    (sels : Selections) : List String × Selections :=
  match nodes.head? with
  | none => ([], [])
  | some root =>
    let path := walk nodes edges sels (nodes.length + 1) root.id []
    (path, sels.foldl (pruneStep path nodes edges) [])

/-- Graph-level `rebuildActivePathFromSelections`: store the derived path and
the pruned selection map on `ui` (with no nodes, both are cleared). -/
def rebuildActivePathFromSelections (g : Graph) : Graph :=
  let pr := rebuildActivePath g.nodes g.edges g.ui.activeSelections
  { g with ui := { g.ui with activePath := pr.1, activeSelections := pr.2 } }

/-- src/app.js:937-956: when no explicit selection entry exists, read a
selection basis off the previous `activePath`, keyed by each path edge's
`from` node. -/
def deriveSelectionsFromPath (edges : List Edge) (path : List String) : Selections :=
  path.foldl (fun acc entry =>
    if hasEdgeId edges entry then
      match lookupEdge edges entry with
      | some e =>
        let cur := (lookupSel acc e.fromId).getD []
        if e.id ∈ cur then acc else setSel acc e.fromId (cur ++ [e.id])
      | none => acc
    else acc) []

/-- src/app.js:961-988, per node: filter the selection basis to outgoing
edges with a resolving target, dedupe, and truncate an XOR node's selection
to its first entry.  (`n` is a node of the already-mirrored node list, so its
`type` is normalized.) -/
def normalizeNodeSelection (nodes : List Node) (edges : List Edge)
    (srcSel : Selections) (n : Node) : List String :=
  let outgoing := edges.filter (fun e => e.fromId = n.id)
  let validEdgeIds := (outgoing.filter (fun e =>
      match e.toId with
      | some t => t ≠ "" ∧ hasNodeId nodes t
      | none => false)).map (fun e => e.id)
  let rawSelection := (lookupSel srcSel n.id).getD []
  let unique := rawSelection.foldl (fun acc eid =>
    if eid ∈ validEdgeIds ∧ eid ∉ acc then acc ++ [eid] else acc) []
  if n.type = "xor" ∧ unique.length > 1 then unique.take 1 else unique

/-- One iteration of the selection-map rebuild loop (src/app.js:961-988). -/
def normalizeSelStep (nodes : List Node) (edges : List Edge)
    (srcSel : Selections) (acc : Selections) (n : Node) : Selections :=
  let u := normalizeNodeSelection nodes edges srcSel n
  if u ≠ [] then setSel acc n.id u else acc

/-- The whole selection-map rebuild loop of `enforceGraphConsistency`:
entries are written in node order, skipping empty results. -/
def normalizeSelections (nodes : List Node) (edges : List Edge)
    (srcSel : Selections) : Selections :=
  nodes.foldl (normalizeSelStep nodes edges srcSel) []

/-- src/app.js:871-1000 `enforceGraphConsistency`, as a pure function on the
graph (the trailing `state.selectedEdgeId` / `state.pendingChoice` cleanup
touches editor state outside the graph and is not part of the graph value).
Steps: edge sanitation, button mirroring (with type/color normalization),
stale `selectedNodeId` cleanup, selection-map rebuild (explicit entries or a
basis derived from the previous path), path re-derivation and selection
pruning. -/
def enforceGraphConsistency (g : Graph) : Graph :=
  let ns := g.nodes
  let es := sanitizeEdges ns g.edges
  let ns' := ns.map (mirrorNode es)
  let selNode := (match g.ui.selectedNodeId with
    | some s => if hasNodeId ns s then some s else none
    | none => none : Option String)
  let current := g.ui.activeSelections
  let srcSel := if ¬ current.isEmpty then current
                else deriveSelectionsFromPath es g.ui.activePath
  let sNorm := normalizeSelections ns' es srcSel
  let pr := rebuildActivePath ns' es sNorm
  { g with
    nodes := ns',
    edges := es,
    ui := { selectedNodeId := selNode, activePath := pr.1,
            activeSelections := pr.2 } }

/-- The result record of `applyTypedEdgeSelection`. -/
structure SelectionResult where
  edge : Edge
  sourceNodeType : String
  edgeIsSelected : Bool
deriving Repr, DecidableEq

/-- src/app.js `findNode` (first match in creation order). -/
def findNode (g : Graph) (nid : String) : Option Node :=
  g.nodes.find? (fun n => n.id = nid)

/-- src/app.js `findEdge` (first match). -/
def findEdge (g : Graph) (eid : String) : Option Edge :=
  g.edges.find? (fun e => e.id = eid)

/-- src/app.js `edgeHasTarget`: `to` is a string whose trim is non-empty. -/
def edgeHasTarget (e : Edge) : Bool :=
  match e.toId with
  | some s => jsTrim s ≠ ""
  | none => false

/-- src/app.js:2500-2575 `applyTypedEdgeSelection` on the current graph:
reject unknown or target-less edges and unknown source nodes without
mutation; otherwise toggle under OR/XOR semantics and rebuild the active
path.  Returns the selection result (or `none`) with the updated graph. -/
def applyTypedEdgeSelection (g : Graph) (edgeId : String) :
    Option SelectionResult × Graph :=
  match findEdge g edgeId with
  | none => (none, g)
  | some edge =>
    if ¬ edgeHasTarget edge then (none, g)
    else
      match findNode g edge.fromId with
      | none => (none, g)
      | some sourceNode =>
        let sourceNodeType := normalizeNodeTypeStr sourceNode.type
        let selections := g.ui.activeSelections
        let currentSelection := dedupAppend
          (((lookupSel selections sourceNode.id).getD []).filter (fun id => id ≠ ""))
        let step : Selections × Bool :=
          if sourceNodeType = "or" then
            if edge.id ∈ currentSelection then
              let next := currentSelection.filter (fun id => id ≠ edge.id)
              (if next ≠ [] then setSel selections sourceNode.id next
               else delSel selections sourceNode.id, false)
            else (setSel selections sourceNode.id (currentSelection ++ [edge.id]), true)
          else
            if currentSelection = [edge.id] then
              (delSel selections sourceNode.id, false)
            else (setSel selections sourceNode.id [edge.id], true)
        let g' := rebuildActivePathFromSelections
          { g with ui := { g.ui with activeSelections := step.1 } }
        (some { edge := edge, sourceNodeType := sourceNodeType,
                edgeIsSelected := step.2 }, g')

/-- src/app.js:24 `const GRAPH_VERSION = 1`. -/
def GRAPH_VERSION : Int := 1

/-- src/app.js:28 `const DEFAULT_NODE_TYPE = 'xor'`. -/
def DEFAULT_NODE_TYPE : String := "xor"

/-- Deterministic model of `uid(prefix)`: the source draws a random UUID; the
model draws from a counter-indexed supply (injective in the counter). -/
def genId (pre : String) (k : Nat) : String :=
  pre ++ "_gen" ++ toString k

/-- A candidate id plus the `while (set.has(id)) id = uid(...)` retry loop.
The supply is injective, so among `used.length + 1` candidates one is always
fresh and the fallback branch is dead. -/
def uidFresh (pre : String) (c : Nat) (used : List String)
    (base : String) : String × Nat :=
  if base ∉ used then (base, c)
  else
    match (List.range (used.length + 1)).findSome? (fun k =>
      let cand := genId pre (c + k)
      if cand ∈ used then none else some (cand, c + k + 1)) with
    | some r => r
    | none => (genId pre c, c + used.length + 1)

/-- Normalize one raw button record (src/app.js:670-696); `none` drops it. -/
def normalizeRawButton (buttonIds : List String) (c : Nat) (raw : JsVal) :
    Option (Button × Nat) :=
  if ¬ raw.isObjLike then none
  else
    let base := (match raw.get "id" with
      | vStr s => if jsTrim s ≠ "" then jsTrim s else genId "b" c
      | _ => genId "b" c : String)
    let c1 := (match raw.get "id" with
      | vStr s => if jsTrim s ≠ "" then c else c + 1
      | _ => c + 1 : Nat)
    let fr := uidFresh "b" c1 buttonIds base
    some ({ id := fr.1,
            text := (match raw.get "text" with
              | vStr s => if jsTrim s ≠ "" then jsTrim s else "Choice"
              | _ => "Choice" : String),
            toId := (match raw.get "to" with
              | vStr s => if jsTrim s ≠ "" then some (jsTrim s) else none
              | _ => none : Option String) }, fr.2)

/-- Normalize one raw node record (src/app.js:654-711); `none` drops it. -/
def normalizeRawNode (nodeIds : List String) (c : Nat) (index : Nat)
    (raw : JsVal) : Option (Node × Nat) :=
  if ¬ raw.isObjLike then none
  else
    let base := (match raw.get "id" with
      | vStr s => if jsTrim s ≠ "" then jsTrim s else genId "n" c
      | _ => genId "n" c : String)
    let c1 := (match raw.get "id" with
      | vStr s => if jsTrim s ≠ "" then c else c + 1
      | _ => c + 1 : Nat)
    let fr := uidFresh "n" c1 nodeIds base
    let btns := (match raw.get "buttons" with
      | vArr l =>
        l.foldl (fun (acc : List Button × Nat) rb =>
          match normalizeRawButton (acc.1.map Button.id) acc.2 rb with
          | some (b, c') => (acc.1 ++ [b], c')
          | none => acc) ([], fr.2)
      | _ => ([], fr.2) : List Button × Nat)
    some ({ id := fr.1,
            x := (match raw.get "x" with
              | vNum n => n
              | _ => 140 + (index : Int) * 30 : Int),
            y := (match raw.get "y" with
              | vNum n => n
              | _ => 100 + (index : Int) * 30 : Int),
            text := (match raw.get "text" with
              | vStr s => if jsTrim s ≠ "" then jsTrim s
                          else "Node " ++ toString (index + 1)
              | _ => "Node " ++ toString (index + 1) : String),
            type := normalizeNodeType (raw.get "type"),
            color := normalizeHexColor (raw.get "color"),
            buttons := btns.1 }, btns.2)

/-- Normalize one raw edge record (src/app.js:727-770); `none` drops it
silently (unknown `from`, unresolved non-blank `to`, non-object records). -/
def normalizeRawEdge (nodeIds : List String) (edgeIds : List String)
    (c : Nat) (raw : JsVal) : Option (Edge × Nat) :=
  if ¬ raw.isObjLike then none
  else
    match raw.get "from" with
    | vStr fromRaw => (
      let fromId := jsTrim fromRaw
      let toId := (match raw.get "to" with
        | vStr s => if jsTrim s ≠ "" then some (jsTrim s) else none
        | _ => none : Option String)
      if fromId = "" then none
      else if fromId ∉ nodeIds then none
      else if (match toId with
        | some t => t ∉ nodeIds
        | none => false : Bool) then none
      else
        let base := (match raw.get "id" with
          | vStr s => if jsTrim s ≠ "" then jsTrim s else genId "e" c
          | _ => genId "e" c : String)
        let c1 := (match raw.get "id" with
          | vStr s => if jsTrim s ≠ "" then c else c + 1
          | _ => c + 1 : Nat)
        let fr := uidFresh "e" c1 edgeIds base
        let bid := (match raw.get "buttonId" with
          | vStr s => if jsTrim s ≠ "" then (jsTrim s, fr.2) else (genId "b" fr.2, fr.2 + 1)
          | _ => (genId "b" fr.2, fr.2 + 1) : String × Nat)
        some ({ id := fr.1,
                fromId := fromId,
                toId := toId,
                buttonId := bid.1,
                pendingX := (match raw.get "pendingX" with
                  | vNum n => some n
                  | _ => none : Option Int),
                pendingY := (match raw.get "pendingY" with
                  | vNum n => some n
                  | _ => none : Option Int) }, bid.2))
    | _ => none

/-- Convert `input.ui.activeSelections` into the typed selection map: array
values keep their string elements; non-array values never contribute (every
later read of such an entry is guarded by `Array.isArray` in the source). -/
def selectionsOfJs (v : JsVal) : Selections :=
  match v with
  | vObj fields =>
    fields.foldl (fun acc f =>
      match f.2 with
      | vArr l => acc ++ [(f.1, l.filterMap (fun x =>
          match x with
          | vStr s => some s
          | _ => none))]
      | _ => acc) []
  | _ => []

/-- src/app.js:612-774 `normalizeGraph`.  `now` models `nowISO()` and `c` the
random-id supply.  Throws (here: `Except.error`) only for a non-object root,
a numeric `version` above `GRAPH_VERSION`, or non-array `nodes`/`edges`;
every surviving record is normalized, a fallback root is synthesized for an
empty node list, and the result passes once through the enforcer. -/
def normalizeGraph (input : JsVal) (sourceLabel : String) (now : String)
    (c : Nat) : Except String Graph :=
  if ¬ input.isObjLike then
    Except.error (sourceLabel ++ ": root must be an object.")
  else if (match input.get "version" with
    | vNum n => n > GRAPH_VERSION
    | _ => false : Bool) then
    Except.error (sourceLabel ++ ": unsupported graph version.")
  else if ¬ (input.get "nodes").isArr then
    Except.error (sourceLabel ++ ": nodes must be an array.")
  else if ¬ (input.get "edges").isArr then
    Except.error (sourceLabel ++ ": edges must be an array.")
  else
    let idc := (match input.get "id" with
      | vStr s => if s ≠ "" then (s, c) else (genId "g" c, c + 1)
      | _ => (genId "g" c, c + 1) : String × Nat)
    let rawNodes := (match input.get "nodes" with
      | vArr l => l
      | _ => [] : List JsVal)
    let rawEdges := (match input.get "edges" with
      | vArr l => l
      | _ => [] : List JsVal)
    let nacc := rawNodes.foldl (fun (acc : List Node × Nat × Nat) rn =>
      match normalizeRawNode (acc.1.map Node.id) acc.2.1 acc.2.2 rn with
      | some (n, c') => (acc.1 ++ [n], c', acc.2.2 + 1)
      | none => (acc.1, acc.2.1, acc.2.2 + 1)) ([], idc.2, 0)
    let nodes1 := nacc.1
    let c2 := nacc.2.1
    let withRoot := (if nodes1.isEmpty then
        ([{ id := genId "n" c2, x := 220, y := 120, text := "Start",
            type := DEFAULT_NODE_TYPE, color := none,
            buttons := [] : Node }], c2 + 1)
      else (nodes1, c2) : List Node × Nat)
    let eacc := rawEdges.foldl (fun (acc : List Edge × Nat) re =>
      match normalizeRawEdge (withRoot.1.map Node.id) (acc.1.map Edge.id)
          acc.2 re with
      | some (e, c') => (acc.1 ++ [e], c')
      | none => acc) ([], withRoot.2)
    let g : Graph :=
      { id := idc.1,
        name := (match input.get "name" with
          | vStr s => if jsTrim s ≠ "" then jsTrim s else "Untitled Graph"
          | _ => "Untitled Graph" : String),
        version := GRAPH_VERSION,
        createdAt := (match input.get "createdAt" with
          | vStr s => s
          | _ => now : String),
        updatedAt := (match input.get "updatedAt" with
          | vStr s => s
          | _ => now : String),
        nodes := withRoot.1,
        edges := eacc.1,
        ui := { selectedNodeId := (match (input.get "ui").get "selectedNodeId" with
                  | vStr s => some s
                  | _ => none : Option String),
                activePath := (match (input.get "ui").get "activePath" with
                  | vArr l => l.filterMap (fun x =>
                      match x with
                      | vStr s => some s
                      | _ => none)
                  | _ => [] : List String),
                activeSelections := selectionsOfJs
                  ((input.get "ui").get "activeSelections") } }
    Except.ok (enforceGraphConsistency g)

/-! ## Basic lemmas about the enforcer's node pass -/

theorem mirrorNode_id (es : List Edge) (n : Node) : (mirrorNode es n).id = n.id := rfl

theorem mirrorNode_x (es : List Edge) (n : Node) : (mirrorNode es n).x = n.x := rfl

theorem mirrorNode_y (es : List Edge) (n : Node) : (mirrorNode es n).y = n.y := rfl

theorem mirrorNode_text (es : List Edge) (n : Node) :
    (mirrorNode es n).text = n.text := rfl

theorem hasNodeId_map_mirror (ns : List Node) (es : List Edge) (s : String) :
    hasNodeId (ns.map (mirrorNode es)) s = hasNodeId ns s := by
  simp only [hasNodeId, List.any_map]
  congr 1

/-- **C10.** Implicit enforcement frame: `enforceGraphConsistency` never adds,
removes or reorders nodes; per node it preserves `id`, `x`, `y` and `text`;
and it preserves the graph's `id`, `name`, `version`, `createdAt` and
`updatedAt` — repairs touch only edges, buttons (with node `type`/`color`
normalization) and the `ui` sub-state. -/
theorem enforce_frame (g : Graph) :
    (enforceGraphConsistency g).id = g.id ∧
    (enforceGraphConsistency g).name = g.name ∧
    (enforceGraphConsistency g).version = g.version ∧
    (enforceGraphConsistency g).createdAt = g.createdAt ∧
    (enforceGraphConsistency g).updatedAt = g.updatedAt ∧
    (enforceGraphConsistency g).nodes.length = g.nodes.length ∧
    (enforceGraphConsistency g).nodes.map Node.id = g.nodes.map Node.id ∧
    (enforceGraphConsistency g).nodes.map Node.x = g.nodes.map Node.x ∧
    (enforceGraphConsistency g).nodes.map Node.y = g.nodes.map Node.y ∧
    (enforceGraphConsistency g).nodes.map Node.text = g.nodes.map Node.text := by
  refine ⟨rfl, rfl, rfl, rfl, rfl, ?_, ?_, ?_, ?_, ?_⟩ <;>
    simp [enforceGraphConsistency, List.map_map, Function.comp, mirrorNode]

/-- **C9.** Implicit selected-node invariant: after every
`enforceGraphConsistency` pass, `ui.selectedNodeId` is `null` or the id of an
existing node (a stale reference is cleared to `null`). -/
theorem enforce_selectedNodeId_valid (g : Graph) :
    ((enforceGraphConsistency g).ui.selectedNodeId).all
      (fun s => hasNodeId (enforceGraphConsistency g).nodes s) = true := by
  show (match g.ui.selectedNodeId with
    | some s => if hasNodeId g.nodes s then some s else none
    | none => none : Option String).all
      (fun s => hasNodeId ((sanitizeEdges g.nodes g.edges |>
        fun es => g.nodes.map (mirrorNode es))) s) = true
  cases h : g.ui.selectedNodeId with
  | none => rfl
  | some s =>
    by_cases hs : hasNodeId g.nodes s = true
    · simp [hs, hasNodeId_map_mirror]
    · simp [hs]

/-! ## C8 — branch-type normalization -/

/-- The claim's reading of "case-insensitive exact match on `"or"`". -/
def ciExactOr (v : JsVal) : Prop :=
  ∃ s, v = vStr s ∧ jsToLower s = "or"

/-- **C8, counterexample.**  The claim says the normalized type is OR exactly
for a case-insensitive exact match on `"or"`; but `normalizeNodeType` trims
first, so the string `" or"` — not an exact match — still normalizes to OR. -/
theorem normalizeNodeType_claim_cx :
    normalizeNodeType (vStr " or") = "or" ∧ ¬ ciExactOr (vStr " or") := by
  refine ⟨by decide, ?_⟩
  rintro ⟨s, hs, hl⟩
  cases hs
  exact absurd hl (by decide)

/-- **C8, amended.**  For every raw value, the normalized node type is OR
exactly when the value is truthy and its JS string coercion, after trimming
and lowercasing, equals `"or"`; it is XOR in every other case (missing,
blank, any other string, and falsy non-strings included). -/
theorem normalizeNodeType_or_iff (v : JsVal) :
    (normalizeNodeType v = "or" ↔
      (v.truthy = true ∧ jsToLower (jsTrim v.toStr) = "or")) ∧
    (normalizeNodeType v = "or" ∨ normalizeNodeType v = "xor") := by
  constructor
  · unfold normalizeNodeType jsCoerceOrEmpty
    by_cases ht : v.truthy = true
    · rw [if_pos ht]
      by_cases hc : jsToLower (jsTrim v.toStr) = "or"
      · rw [if_pos hc]
        exact iff_of_true rfl ⟨ht, hc⟩
      · rw [if_neg hc]
        constructor
        · intro h
          exact absurd h (by decide)
        · rintro ⟨-, h⟩
          exact absurd h hc
    · rw [if_neg ht]
      have hz : ¬ (jsToLower (jsTrim "") = "or") := by decide
      rw [if_neg hz]
      constructor
      · intro h
        exact absurd h (by decide)
      · rintro ⟨h, -⟩
        exact absurd h ht
  · unfold normalizeNodeType
    split
    · exact Or.inl rfl
    · exact Or.inr rfl

/-! ## C7 — normalization failure conditions -/

/-- The claim's rejection condition for `normalizeGraph`: non-object root, a
(numeric) `version` above the supported constant, or non-array
`nodes`/`edges`. -/
def normalizeRejects (input : JsVal) : Prop :=
  ¬ input.isObjLike = true ∨
  (∃ n : Int, input.get "version" = vNum n ∧ n > GRAPH_VERSION) ∨
  ¬ (input.get "nodes").isArr = true ∨
  ¬ (input.get "edges").isArr = true

/-- **C7.**  `normalizeGraph` fails exactly when the root is not an object,
the (numeric) `version` exceeds `GRAPH_VERSION`, or `nodes`/`edges` are not
arrays; in every other case it returns a graph.  ("version (when present)
exceeds the supported constant" is read numerically: the source only
compares `version` when `typeof version === 'number'`.) -/
theorem normalizeGraph_error_iff (input : JsVal) (lbl now : String) (c : Nat) :
    (∃ msg, normalizeGraph input lbl now c = Except.error msg) ↔
      normalizeRejects input := by
  have hv : ((match input.get "version" with
      | vNum n => n > GRAPH_VERSION
      | _ => false : Bool) = true) ↔
      (∃ n : Int, input.get "version" = vNum n ∧ n > GRAPH_VERSION) := by
    cases hg : input.get "version" <;> simp [hg]
  unfold normalizeGraph normalizeRejects
  by_cases h1 : input.isObjLike = true
  · by_cases h2 : (match input.get "version" with
      | vNum n => n > GRAPH_VERSION
      | _ => false : Bool) = true
    · simp [h1, h2, hv.mp h2]
    · by_cases h3 : (input.get "nodes").isArr = true
      · by_cases h4 : (input.get "edges").isArr = true
        · simp [h1, h2, h3, h4]
          intro x hx
          by_contra hgt
          exact h2 (hv.mpr ⟨x, hx, by omega⟩)
        · simp [h1, h2, h3, h4]
      · simp [h1, h2, h3]
  · simp [h1]

/-! ## C4 — selection toggle rejection -/

/-- The claim's rejection condition for `applyTypedEdgeSelection`: the id
names no edge, or the edge has no (non-blank) target, or its source node
does not exist. -/
def toggleRejects (g : Graph) (eid : String) : Prop :=
  match findEdge g eid with
  | none => True
  | some e => ¬ edgeHasTarget e = true ∨ findNode g e.fromId = none

/-- The reported `edgeIsSelected` flag: an OR toggle selects unless the edge
was already selected; an XOR toggle selects unless the edge was the sole
selection. -/
def toggleSelectedFlag (g : Graph) (e : Edge) (n : Node) : Bool :=
  let cur := dedupAppend
    (((lookupSel g.ui.activeSelections n.id).getD []).filter fun i => i ≠ "")
  if normalizeNodeTypeStr n.type = "or" then decide (e.id ∉ cur)
  else decide (cur ≠ [e.id])

/-- **C4.**  `applyTypedEdgeSelection` returns `null` and leaves the graph
untouched exactly on the rejection condition (unknown edge, target-less
edge, or missing source node); otherwise it returns a `SelectionResult`
carrying the edge, the source node's normalized branch type, and whether the
edge ended up selected. -/
theorem applyTypedEdgeSelection_spec (g : Graph) (eid : String) :
    (applyTypedEdgeSelection g eid = (none, g) ↔ toggleRejects g eid) ∧
    (¬ toggleRejects g eid →
      ∃ e n, findEdge g eid = some e ∧ findNode g e.fromId = some n ∧
        (applyTypedEdgeSelection g eid).1 = some
          { edge := e,
            sourceNodeType := normalizeNodeTypeStr n.type,
            edgeIsSelected := toggleSelectedFlag g e n }) := by
  cases he : findEdge g eid with
  | none =>
    simp [applyTypedEdgeSelection, toggleRejects, he]
  | some e =>
    by_cases hh : edgeHasTarget e = true
    · cases hn : findNode g e.fromId with
      | none =>
        simp [applyTypedEdgeSelection, toggleRejects, he, hh, hn]
      | some n =>
        constructor
        · constructor
          · intro habs
            have : (applyTypedEdgeSelection g eid).1 = none := by
              rw [habs]
            rw [show (applyTypedEdgeSelection g eid).1 =
              some { edge := e, sourceNodeType := normalizeNodeTypeStr n.type,
                     edgeIsSelected := toggleSelectedFlag g e n } from ?_] at this
            · cases this
            · simp only [applyTypedEdgeSelection, he, hh, not_true_eq_false,
                if_false, hn, toggleSelectedFlag]
              by_cases hor : normalizeNodeTypeStr n.type = "or"
              · simp only [hor, if_true]
                split <;> simp_all
              · simp only [hor, if_false]
                split <;> simp_all
          · intro hrej
            rw [toggleRejects, he] at hrej
            rcases hrej with h | h
            · exact absurd hh h
            · rw [hn] at h
              cases h
        · intro hrej
          refine ⟨e, n, rfl, hn, ?_⟩
          simp only [applyTypedEdgeSelection, he, hh, not_true_eq_false,
            if_false, hn, toggleSelectedFlag]
          by_cases hor : normalizeNodeTypeStr n.type = "or"
          · simp only [hor, if_true]
            split <;> simp_all
          · simp only [hor, if_false]
            split <;> simp_all
    · have hrw : applyTypedEdgeSelection g eid = (none, g) := by
        simp [applyTypedEdgeSelection, he, hh]
      constructor
      · rw [hrw, toggleRejects, he]
        simp [hh]
      · intro hrej
        rw [toggleRejects, he] at hrej
        exact absurd (Or.inl hh) hrej

/-! ## Concrete graphs used as counterexamples -/

/-- C1 counterexample graph: the edge `"x"` shares its id with the node
`"x"`, so the prune step of the rebuild classifies the traversed edge as a
node and silently drops the selection backing it. -/
def cxShadowGraph : Graph :=
  { id := "g", name := "g", version := 1, createdAt := "t", updatedAt := "t",
    nodes := [{ id := "r", x := 0, y := 0, text := "r", type := "or",
                color := none, buttons := [] },
              { id := "a", x := 0, y := 0, text := "a", type := "or",
                color := none, buttons := [] },
              { id := "x", x := 0, y := 0, text := "x", type := "or",
                color := none, buttons := [] }],
    edges := [{ id := "x", fromId := "r", toId := some "a", buttonId := "b1",
                pendingX := none, pendingY := none },
              { id := "e2", fromId := "a", toId := some "x", buttonId := "b2",
                pendingX := none, pendingY := none }],
    ui := { selectedNodeId := none, activePath := [],
            activeSelections := [("r", ["x"]), ("a", ["e2"])] } }

/-- C2 counterexample graph: the minimal two-node cycle A→B→A with both
cycle edges selected. -/
def cxCycleGraph : Graph :=
  { id := "g", name := "g", version := 1, createdAt := "t", updatedAt := "t",
    nodes := [{ id := "A", x := 0, y := 0, text := "A", type := "xor",
                color := none, buttons := [] },
              { id := "B", x := 0, y := 0, text := "B", type := "xor",
                color := none, buttons := [] }],
    edges := [{ id := "e1", fromId := "A", toId := some "B", buttonId := "b1",
                pendingX := none, pendingY := none },
              { id := "e2", fromId := "B", toId := some "A", buttonId := "b2",
                pendingX := none, pendingY := none }],
    ui := { selectedNodeId := none, activePath := [],
            activeSelections := [("A", ["e1"]), ("B", ["e2"])] } }

/-- C3 counterexample graph: XOR root `"S"` with edges `e1 → A`, `e2 → B`
and prior selection `[e2]` at `"S"`. -/
def cxXorGraph : Graph :=
  { id := "g", name := "g", version := 1, createdAt := "t", updatedAt := "t",
    nodes := [{ id := "S", x := 0, y := 0, text := "S", type := "xor",
                color := none, buttons := [] },
              { id := "A", x := 0, y := 0, text := "A", type := "xor",
                color := none, buttons := [] },
              { id := "B", x := 0, y := 0, text := "B", type := "xor",
                color := none, buttons := [] }],
    edges := [{ id := "e1", fromId := "S", toId := some "A", buttonId := "b1",
                pendingX := none, pendingY := none },
              { id := "e2", fromId := "S", toId := some "B", buttonId := "b2",
                pendingX := none, pendingY := none }],
    ui := { selectedNodeId := none, activePath := [],
            activeSelections := [("S", ["e2"])] } }

/-- C5 counterexample graph: node `"n"` carries two buttons with the same id
`"b"`, backing a single outgoing edge with that `buttonId`. -/
def cxDupButtonGraph : Graph :=
  { id := "g", name := "g", version := 1, createdAt := "t", updatedAt := "t",
    nodes := [{ id := "n", x := 0, y := 0, text := "n", type := "xor",
                color := none,
                buttons := [{ id := "b", text := "t1", toId := some "m" },
                            { id := "b", text := "t2", toId := none }] },
              { id := "m", x := 0, y := 0, text := "m", type := "xor",
                color := none, buttons := [] }],
    edges := [{ id := "e", fromId := "n", toId := some "m", buttonId := "b",
                pendingX := none, pendingY := none }],
    ui := { selectedNodeId := none, activePath := [], activeSelections := [] } }

/-- C6 counterexample graph: two nodes share the id `"z"` (first XOR, second
OR); the selection entry for `"z"` is computed with the **last** node's OR
type protecting two entries, while the first node is XOR. -/
def cxDupNodeGraph : Graph :=
  { id := "g", name := "g", version := 1, createdAt := "t", updatedAt := "t",
    nodes := [{ id := "z", x := 0, y := 0, text := "z1", type := "xor",
                color := none, buttons := [] },
              { id := "z", x := 0, y := 0, text := "z2", type := "or",
                color := none, buttons := [] },
              { id := "t", x := 0, y := 0, text := "t", type := "xor",
                color := none, buttons := [] }],
    edges := [{ id := "f1", fromId := "z", toId := some "t", buttonId := "c1",
                pendingX := none, pendingY := none },
              { id := "f2", fromId := "z", toId := some "t", buttonId := "c2",
                pendingX := none, pendingY := none }],
    ui := { selectedNodeId := none, activePath := [],
            activeSelections := [("z", ["f1", "f2"])] } }

/-- **C1, counterexample.**  `enforceGraphConsistency` is *not* idempotent on
every graph: on `cxShadowGraph` the first pass keeps the selection entry
`("a", ["e2"])` and the path `[r, x, a, e2, x]`, while the second pass prunes
both away (the traversed edge `"x"` is classified as a node by the prune
step because a node shares its id). -/
theorem enforce_not_idempotent_cx :
    enforceGraphConsistency (enforceGraphConsistency cxShadowGraph) ≠
      enforceGraphConsistency cxShadowGraph := by decide

/-- **C2, counterexample.**  On the minimal two-node cycle the derived
`ui.activePath` is `[A, e1, B, e2, A]` — five entries — which exceeds
`2 × node count = 4`. -/
theorem cycle_path_bound_cx :
    (rebuildActivePathFromSelections cxCycleGraph).ui.activePath =
      ["A", "e1", "B", "e2", "A"] ∧
    ¬ ((rebuildActivePathFromSelections cxCycleGraph).ui.activePath.length ≤
        2 * cxCycleGraph.nodes.length) := by decide

/-- **C3, counterexample.**  Toggling `e1` twice on the XOR node `"S"` does
*not* restore the prior selection `[e2]`: the first toggle replaces it with
`[e1]`, the second deselects, leaving the selection empty. -/
theorem xor_toggle_not_involutive_cx :
    normalizeNodeTypeStr "xor" = "xor" ∧
    (lookupSel ((applyTypedEdgeSelection
        (applyTypedEdgeSelection cxXorGraph "e1").2 "e1").2.ui.activeSelections)
        "S").getD [] = [] ∧
    (lookupSel cxXorGraph.ui.activeSelections "S").getD [] = ["e2"] := by decide

/-- **C5, counterexample.**  After enforcement, node `"n"` of
`cxDupButtonGraph` still carries **two** buttons with id `"b"` and target
`"m"` for its single outgoing edge (`buttonId = "b"`, target `"m"`), so "N
contains exactly one such button" fails. -/
theorem button_mirror_cx :
    (enforceGraphConsistency cxDupButtonGraph).edges =
      [{ id := "e", fromId := "n", toId := some "m", buttonId := "b",
         pendingX := none, pendingY := none }] ∧
    ((enforceGraphConsistency cxDupButtonGraph).nodes.head?.map
      (fun n => (n.buttons.filter
        (fun b => b.id = "b" ∧ b.toId = some "m")).length)) = some 2 := by decide

/-- **C6, counterexample.**  After enforcement of `cxDupNodeGraph` the first
node has id `"z"` and (normalized) type XOR, yet the selection entry for
`"z"` holds two edge ids. -/
theorem xor_cap_cx :
    ((enforceGraphConsistency cxDupNodeGraph).nodes.head?.map Node.id =
      some "z") ∧
    ((enforceGraphConsistency cxDupNodeGraph).nodes.head?.map Node.type =
      some "xor") ∧
    (lookupSel (enforceGraphConsistency cxDupNodeGraph).ui.activeSelections
      "z").getD [] = ["f1", "f2"] := by decide

/-! ## Infrastructure: push-if folds and selection-map lemmas -/

/-- The source's `forEach`/`push` accumulation loops all have the shape
`if C acc x then acc ++ [x] else acc`; their output extends the accumulator
by a sublist of the input. -/
theorem foldl_keep_sublist {α : Type} (C : List α → α → Prop)
    [inst : ∀ a x, Decidable (C a x)] :
    ∀ (l acc : List α), ∃ l', List.Sublist l' l ∧
      l.foldl (fun a x => if C a x then a ++ [x] else a) acc = acc ++ l'
  | [], acc => ⟨[], List.Sublist.refl [], by simp⟩
  | x :: xs, acc => by
    simp only [List.foldl_cons]
    by_cases hc : C acc x
    · rw [if_pos hc]
      obtain ⟨l', hsub, heq⟩ := foldl_keep_sublist C xs (acc ++ [x])
      exact ⟨x :: l', List.Sublist.cons₂ x hsub, by simp [heq]⟩
    · rw [if_neg hc]
      obtain ⟨l', hsub, heq⟩ := foldl_keep_sublist C xs acc
      exact ⟨l', hsub.cons x, heq⟩

theorem lookupSel_nil (k : String) : lookupSel [] k = none := rfl

theorem lookupSel_cons (e : String × List String) (rest : Selections)
    (k : String) :
    lookupSel (e :: rest) k = if e.1 = k then some e.2 else lookupSel rest k := by
  rw [lookupSel]
  simp only [List.find?]
  by_cases h : e.1 = k
  · simp [h]
  · simp [h, lookupSel]

theorem lookupSel_setSel (s : Selections) (k : String) (v : List String)
    (k' : String) :
    lookupSel (setSel s k v) k' = if k' = k then some v else lookupSel s k' := by
  induction s with
  | nil =>
    rw [setSel, lookupSel_cons, lookupSel_nil]
    by_cases h : k' = k
    · simp [h]
    · simp [h, Ne.symm h]
  | cons e rest ih =>
    rw [setSel]
    by_cases he : e.1 = k
    · rw [if_pos he, lookupSel_cons, lookupSel_cons, he]
      by_cases h : k' = k
      · simp [h]
      · simp [h, Ne.symm h]
    · rw [if_neg he, lookupSel_cons, lookupSel_cons, ih]
      by_cases hek : e.1 = k'
      · have h : ¬ k' = k := fun hh => he (hek.trans hh)
        simp [hek, h]
      · simp [hek]

theorem lookupSel_delSel (s : Selections) (k k' : String) :
    lookupSel (delSel s k) k' = if k' = k then none else lookupSel s k' := by
  induction s with
  | nil =>
    rw [delSel, List.filter_nil, lookupSel_nil]
    by_cases h : k' = k <;> simp [h]
  | cons e rest ih =>
    rw [delSel, List.filter_cons]
    by_cases he : e.1 = k
    · have h2 : (decide ¬ e.1 = k) = false := by simp [he]
      rw [h2]
      simp only [Bool.false_eq_true, if_false]
      rw [← delSel, ih]
      by_cases h : k' = k
      · simp [h]
      · rw [if_neg h, if_neg h, lookupSel_cons]
        have h3 : ¬ e.1 = k' := fun hh => h ((hh.symm.trans he : k' = k))
        simp [h3]
    · have h2 : (decide ¬ e.1 = k) = true := by simp [he]
      rw [h2]
      simp only [if_true]
      rw [lookupSel_cons, lookupSel_cons, ← delSel, ih]
      by_cases hek : e.1 = k'
      · have h : ¬ k' = k := fun hh => he (hek.trans hh)
        simp [hek, h]
      · simp [hek]

theorem map_id_mirror (ns : List Node) (es : List Edge) :
    (ns.map (mirrorNode es)).map Node.id = ns.map Node.id := by
  simp only [List.map_map]
  congr 1

theorem pruneEntry_sublist (path : List String) (nodes : List Node)
    (edges : List Edge) (v : List String) :
    List.Sublist (pruneEntry path nodes edges v) v := by
  obtain ⟨l', hsub, heq⟩ := foldl_keep_sublist
    (fun facc eid =>
      (eid ∈ path ∧ ¬ hasNodeId nodes eid = true ∧ hasEdgeId edges eid = true) ∧
        eid ∉ facc) v []
  have h2 : pruneEntry path nodes edges v = [] ++ l' := heq
  rw [h2]
  simpa using hsub

theorem mem_setSel (s : Selections) (k : String) (v : List String)
    (kv : String × List String) (h : kv ∈ setSel s k v) :
    kv ∈ s ∨ kv = (k, v) := by
  induction s with
  | nil =>
    rw [setSel] at h
    rcases List.mem_singleton.mp h with h
    exact Or.inr h
  | cons e rest ih =>
    rw [setSel] at h
    by_cases he : e.1 = k
    · rw [if_pos he] at h
      rcases List.mem_cons.mp h with h | h
      · exact Or.inr h
      · exact Or.inl (List.mem_cons_of_mem e h)
    · rw [if_neg he] at h
      rcases List.mem_cons.mp h with h | h
      · exact Or.inl (h ▸ List.mem_cons_self e rest)
      · rcases ih h with h | h
        · exact Or.inl (List.mem_cons_of_mem e h)
        · exact Or.inr h

theorem lookupSel_pruneFold (path : List String) (nodes : List Node)
    (edges : List Edge) :
    ∀ (sels acc : Selections) (k : String) (l : List String),
      lookupSel (sels.foldl (pruneStep path nodes edges) acc) k = some l →
      lookupSel acc k = some l ∨
        ∃ kv ∈ sels, kv.1 = k ∧ l = pruneEntry path nodes edges kv.2
  | [], _, _, _, h => Or.inl h
  | kv :: rest, acc, k, l, h => by
    rw [List.foldl_cons] at h
    rcases lookupSel_pruneFold path nodes edges rest
        (pruneStep path nodes edges acc kv) k l h with h1 | h2
    · rw [pruneStep] at h1
      split at h1
      · by_cases hf : pruneEntry path nodes edges kv.2 ≠ []
        · rw [if_pos hf, lookupSel_setSel] at h1
          by_cases hk : k = kv.1
          · refine Or.inr ⟨kv, List.mem_cons_self kv rest, hk.symm, ?_⟩
            rw [if_pos hk] at h1
            exact (Option.some.injEq _ _ ▸ h1).symm
          · rw [if_neg hk] at h1
            exact Or.inl h1
        · rw [if_neg hf] at h1
          exact Or.inl h1
      · exact Or.inl h1
    · obtain ⟨kv', hm, hk, hv⟩ := h2
      exact Or.inr ⟨kv', List.mem_cons_of_mem kv hm, hk, hv⟩

theorem mem_normFold (nodes : List Node) (edges : List Edge)
    (src : Selections) :
    ∀ (ns : List Node) (acc : Selections) (kv : String × List String),
      kv ∈ ns.foldl (normalizeSelStep nodes edges src) acc →
      kv ∈ acc ∨ ∃ n ∈ ns, n.id = kv.1 ∧
        kv.2 = normalizeNodeSelection nodes edges src n
  | [], _, _, h => Or.inl h
  | n :: rest, acc, kv, h => by
    rw [List.foldl_cons] at h
    rcases mem_normFold nodes edges src rest
        (normalizeSelStep nodes edges src acc n) kv h with h1 | h2
    · rw [normalizeSelStep] at h1
      split at h1
      · rcases mem_setSel _ _ _ _ h1 with h | h
        · exact Or.inl h
        · refine Or.inr ⟨n, List.mem_cons_self n rest, ?_, ?_⟩
          · rw [h]
          · rw [h]
      · exact Or.inl h1
    · obtain ⟨n', hm, hid, hv⟩ := h2
      exact Or.inr ⟨n', List.mem_cons_of_mem n hm, hid, hv⟩

theorem normalizeNodeSelection_xor_len (nodes : List Node) (edges : List Edge)
    (src : Selections) (n : Node) (h : n.type = "xor") :
    (normalizeNodeSelection nodes edges src n).length ≤ 1 := by
  have key : ∀ u : List String,
      (if n.type = "xor" ∧ u.length > 1 then u.take 1 else u).length ≤ 1 := by
    intro u
    by_cases hgt : u.length > 1
    · rw [if_pos ⟨h, hgt⟩]
      simp
    · rw [if_neg (fun hh => hgt hh.2)]
      omega
  rw [normalizeNodeSelection]
  exact key _

/-- **C6, amended.**  XOR cap for graphs with pairwise-distinct node ids:
after every `enforceGraphConsistency` pass, the selection entry of every XOR
node, when present, holds at most one edge id.  (With duplicated node ids the
entry is computed against the *last* node carrying the id, and an OR twin
defeats the cap — see the counterexample.) -/
theorem enforce_xor_cap (g : Graph) (hnd : (g.nodes.map Node.id).Nodup) :
    ∀ n ∈ (enforceGraphConsistency g).nodes, n.type = "xor" →
      ∀ l, lookupSel (enforceGraphConsistency g).ui.activeSelections n.id =
        some l → l.length ≤ 1 := by
  intro n hn htype l hl
  rw [enforceGraphConsistency] at hn hl
  simp only at hn hl
  revert hl
  rw [rebuildActivePath]
  cases hh : (g.nodes.map (mirrorNode (sanitizeEdges g.nodes g.edges))).head? with
  | none =>
    intro hl
    simp [lookupSel_nil] at hl
  | some root =>
    intro hl
    simp only at hl
    rcases lookupSel_pruneFold _ _ _ _ _ _ _ hl with h1 | h2
    · rw [lookupSel_nil] at h1
      cases h1
    · obtain ⟨kv, hkv, hk, hv⟩ := h2
      rcases mem_normFold _ _ _ _ _ _ hkv with h3 | h4
      · cases h3
      · obtain ⟨n', hn', hid, hval⟩ := h4
        have hne : n' = n := by
          have hmapnd : ((g.nodes.map
              (mirrorNode (sanitizeEdges g.nodes g.edges))).map Node.id).Nodup := by
            rw [map_id_mirror]
            exact hnd
          exact List.inj_on_of_nodup_map hmapnd hn' hn (hid.trans hk)
        have hlen : kv.2.length ≤ 1 := by
          rw [hval, hne]
          exact normalizeNodeSelection_xor_len _ _ _ _ htype
        rw [hv]
        exact le_trans (List.Sublist.length_le (pruneEntry_sublist _ _ _ kv.2))
          hlen

/-! ## C5 — button mirroring -/

theorem updateLastButton_none_iff (bid : String) (upd : Button → Button) :
    ∀ B : List Button,
      updateLastButton bid upd B = none ↔ ∀ b ∈ B, ¬ b.id = bid
  | [] => by simp [updateLastButton]
  | b :: rest => by
    rw [updateLastButton]
    cases hr : updateLastButton bid upd rest with
    | some rest2 =>
      simp only
      constructor
      · intro h
        cases h
      · intro h
        have : ∀ b ∈ rest, ¬ b.id = bid := fun x hx => h x (List.mem_cons_of_mem b hx)
        rw [(updateLastButton_none_iff bid upd rest).mpr this] at hr
        cases hr
    | none =>
      simp only
      by_cases hb : b.id = bid
      · rw [if_pos hb]
        constructor
        · intro h
          cases h
        · intro h
          exact absurd hb (h b (List.mem_cons_self b rest))
      · rw [if_neg hb]
        constructor
        · intro _ x hx
          rcases List.mem_cons.mp hx with h | h
          · rw [h]
            exact hb
          · exact (updateLastButton_none_iff bid upd rest).mp hr x h
        · intro _
          rfl

theorem updateLastButton_map_id (bid : String) (upd : Button → Button)
    (hupd : ∀ b, (upd b).id = b.id) :
    ∀ B B' : List Button, updateLastButton bid upd B = some B' →
      B'.map Button.id = B.map Button.id
  | [], _, h => by cases h
  | b :: rest, B', h => by
    rw [updateLastButton] at h
    cases hr : updateLastButton bid upd rest with
    | some rest2 =>
      rw [hr] at h
      cases h
      simp only [List.map_cons]
      rw [updateLastButton_map_id bid upd hupd rest rest2 hr]
    | none =>
      rw [hr] at h
      by_cases hb : b.id = bid
      · rw [if_pos hb] at h
        cases h
        simp [hupd]
      · rw [if_neg hb] at h
        cases h

theorem updateLastButton_filter_frame (bid : String) (upd : Button → Button)
    (p : Button → Bool)
    (hfalse : ∀ b : Button, b.id = bid → p b = false ∧ p (upd b) = false) :
    ∀ B B' : List Button, updateLastButton bid upd B = some B' →
      B'.filter p = B.filter p
  | [], _, h => by cases h
  | b :: rest, B', h => by
    rw [updateLastButton] at h
    cases hr : updateLastButton bid upd rest with
    | some rest2 =>
      rw [hr] at h
      cases h
      rw [List.filter_cons, List.filter_cons,
        updateLastButton_filter_frame bid upd p hfalse rest rest2 hr]
    | none =>
      rw [hr] at h
      by_cases hb : b.id = bid
      · rw [if_pos hb] at h
        cases h
        rw [List.filter_cons, List.filter_cons, (hfalse b hb).1, (hfalse b hb).2]
        simp
      · rw [if_neg hb] at h
        cases h

theorem updateLastButton_filter_target (bid : String) (upd : Button → Button)
    (hupd : ∀ b, (upd b).id = b.id) :
    ∀ B B' : List Button, (B.map Button.id).Nodup →
      updateLastButton bid upd B = some B' →
      ∃ b₀ ∈ B, b₀.id = bid ∧
        B'.filter (fun x => x.id = bid) = [upd b₀]
  | [], _, _, h => by cases h
  | b :: rest, B', hnd, h => by
    rw [updateLastButton] at h
    rw [List.map_cons, List.nodup_cons] at hnd
    cases hr : updateLastButton bid upd rest with
    | some rest2 =>
      rw [hr] at h
      cases h
      obtain ⟨b₀, hmem, hid, hfil⟩ :=
        updateLastButton_filter_target bid upd hupd rest rest2 hnd.2 hr
      have hbneq : ¬ b.id = bid := by
        intro hb
        exact hnd.1 (hb ▸ hid ▸ List.mem_map_of_mem Button.id hmem)
      refine ⟨b₀, List.mem_cons_of_mem b hmem, hid, ?_⟩
      rw [List.filter_cons]
      simp only [hbneq, decide_False, Bool.false_eq_true, if_false]
      exact hfil
    | none =>
      rw [hr] at h
      by_cases hb : b.id = bid
      · rw [if_pos hb] at h
        cases h
        refine ⟨b, List.mem_cons_self b rest, hb, ?_⟩
        rw [List.filter_cons]
        have h1 : (upd b).id = bid := (hupd b).trans hb
        simp only [h1, decide_True, if_true]
        have h2 : rest.filter (fun x => decide (x.id = bid)) = [] := by
          rw [List.filter_eq_nil]
          intro x hx
          simp [(updateLastButton_none_iff bid upd rest).mp hr x hx]
        rw [h2]
      · rw [if_neg hb] at h
        cases h

theorem mirrorUpd_id (newTo : Option String) (b : Button) :
    (mirrorUpd newTo b).id = b.id := rfl

theorem mirrorUpd_toId (newTo : Option String) (b : Button) :
    (mirrorUpd newTo b).toId = newTo := rfl

theorem mirrorStep_nodup (B : List Button) (e : Edge)
    (hnd : (B.map Button.id).Nodup) :
    ((mirrorStep B e).map Button.id).Nodup := by
  rw [mirrorStep]
  cases h : updateLastButton e.buttonId (mirrorUpd (mirrorTo e)) B with
  | some B' =>
    rw [updateLastButton_map_id _ _ (mirrorUpd_id _) B B' h]
    exact hnd
  | none =>
    simp only [List.map_append, List.map_cons, List.map_nil]
    rw [List.nodup_append]
    refine ⟨hnd, List.nodup_singleton _, ?_⟩
    intro x hx hmem
    obtain ⟨b, hb, hbid⟩ := List.mem_map.mp hx
    rcases List.mem_singleton.mp hmem with h1
    exact (updateLastButton_none_iff _ _ B).mp h b hb (hbid.trans h1)

theorem mirrorStep_filter_target (B : List Button) (e : Edge)
    (hnd : (B.map Button.id).Nodup) :
    ∃ b, (mirrorStep B e).filter (fun x => x.id = e.buttonId) = [b] ∧
      b.id = e.buttonId ∧ b.toId = mirrorTo e := by
  rw [mirrorStep]
  cases h : updateLastButton e.buttonId (mirrorUpd (mirrorTo e)) B with
  | some B' =>
    obtain ⟨b₀, _, hid, hfil⟩ :=
      updateLastButton_filter_target _ _ (mirrorUpd_id _) B B' hnd h
    exact ⟨mirrorUpd (mirrorTo e) b₀, hfil,
      (mirrorUpd_id _ b₀).trans hid, mirrorUpd_toId _ b₀⟩
  | none =>
    refine ⟨{ id := e.buttonId, text := "Choice", toId := mirrorTo e }, ?_, rfl, rfl⟩
    rw [List.filter_append]
    have h2 : B.filter (fun x => decide (x.id = e.buttonId)) = [] := by
      rw [List.filter_eq_nil]
      intro x hx
      simp [(updateLastButton_none_iff _ _ B).mp h x hx]
    rw [h2]
    simp

theorem mirrorStep_filter_frame (B : List Button) (e : Edge)
    (p : Button → Bool)
    (hfalse : ∀ b : Button, b.id = e.buttonId → p b = false ∧
      p (mirrorUpd (mirrorTo e) b) = false) :
    (mirrorStep B e).filter p = B.filter p := by
  rw [mirrorStep]
  cases h : updateLastButton e.buttonId (mirrorUpd (mirrorTo e)) B with
  | some B' =>
    exact updateLastButton_filter_frame _ _ p hfalse B B' h
  | none =>
    rw [List.filter_append]
    have h1 : (p { id := e.buttonId, text := "Choice", toId := mirrorTo e }) =
        false := (hfalse _ rfl).1
    simp [h1]

theorem filter_filter_of_imp {α : Type} (p q : α → Bool)
    (h : ∀ a, q a = true → p a = true) :
    ∀ l : List α, (l.filter p).filter q = l.filter q
  | [] => rfl
  | a :: l => by
    by_cases hp : p a = true
    · by_cases hq : q a = true <;>
        simp [List.filter_cons, hp, hq, filter_filter_of_imp p q h l]
    · have hq : ¬ q a = true := fun hqa => hp (h a hqa)
      simp [List.filter_cons, hp, hq, filter_filter_of_imp p q h l]

theorem sanitizeEdge_mirrorTo (ns : List Node) (e₀ e : Edge)
    (h : sanitizeEdge ns e₀ = some e) : mirrorTo e = e.toId := by
  rw [sanitizeEdge] at h
  split at h
  · split at h
    · split at h
      · split at h
        · cases h
          rename_i s hs _
          simp [mirrorTo, hs]
        · cases h
      · cases h
        rfl
    · cases h
      rfl
  · cases h

theorem mem_sanitize_mirrorTo (ns : List Node) (es₀ : List Edge) :
    ∀ e ∈ sanitizeEdges ns es₀, mirrorTo e = e.toId := by
  intro e he
  rw [sanitizeEdges] at he
  obtain ⟨e₀, -, heq⟩ := List.mem_filterMap.mp he
  exact sanitizeEdge_mirrorTo ns e₀ e heq

/-- The button-mirroring fold: with duplicate-free button ids and
duplicate-free outgoing `buttonId`s, every processed edge ends with exactly
one button carrying its `buttonId`, updated to its target; buttons whose id
backs no processed edge are untouched. -/
theorem mirrorFold_spec :
    ∀ (out : List Edge) (B : List Button),
      (B.map Button.id).Nodup → (out.map Edge.buttonId).Nodup →
      (((out.foldl mirrorStep B).map Button.id).Nodup) ∧
      (∀ e ∈ out, ∃ b, (out.foldl mirrorStep B).filter
          (fun x => x.id = e.buttonId) = [b] ∧
          b.id = e.buttonId ∧ b.toId = mirrorTo e) ∧
      (∀ p : Button → Bool,
        (∀ e ∈ out, ∀ b : Button, p b = true → ¬ b.id = e.buttonId) →
        (out.foldl mirrorStep B).filter p = B.filter p)
  | [], B, hndB, _ => ⟨hndB, by simp, fun _ _ => rfl⟩
  | e :: rest, B, hndB, hndE => by
    rw [List.foldl_cons]
    have hndB1 := mirrorStep_nodup B e hndB
    rw [List.map_cons, List.nodup_cons] at hndE
    obtain ⟨IH1, IH2, IH3⟩ := mirrorFold_spec rest (mirrorStep B e) hndB1 hndE.2
    refine ⟨IH1, ?_, ?_⟩
    · intro e' he'
      rcases List.mem_cons.mp he' with h | h
      · subst h
        obtain ⟨b, hb1, hb2, hb3⟩ := mirrorStep_filter_target B e' hndB
        refine ⟨b, ?_, hb2, hb3⟩
        rw [IH3 (fun x => decide (x.id = e'.buttonId)) ?_, hb1]
        intro e2 he2 b' hpb' hbid
        have hne : e'.buttonId ≠ e2.buttonId := fun hh =>
          hndE.1 (hh ▸ List.mem_map_of_mem Edge.buttonId he2)
        exact hne ((of_decide_eq_true hpb').symm.trans hbid)
      · exact IH2 e' h
    · intro p hp
      rw [IH3 p (fun e2 he2 => hp e2 (List.mem_cons_of_mem e he2))]
      refine mirrorStep_filter_frame B e p (fun b hbid => ⟨?_, ?_⟩)
      · cases hpb : p b with
        | true => exact absurd hbid (hp e (List.mem_cons_self e rest) b hpb)
        | false => rfl
      · cases hpb : p (mirrorUpd (mirrorTo e) b) with
        | true =>
          exact absurd ((mirrorUpd_id (mirrorTo e) b).trans hbid)
            (hp e (List.mem_cons_self e rest) _ hpb)
        | false => rfl

theorem enforce_edges (g : Graph) :
    (enforceGraphConsistency g).edges = sanitizeEdges g.nodes g.edges := rfl

theorem enforce_nodes (g : Graph) :
    (enforceGraphConsistency g).nodes =
      g.nodes.map (mirrorNode (sanitizeEdges g.nodes g.edges)) := rfl

theorem mirrorNode_buttons (es : List Edge) (n : Node) :
    (mirrorNode es n).buttons =
      ((es.filter (fun e => e.fromId = n.id)).foldl mirrorStep n.buttons).filter
        (fun b => (es.filter (fun e => e.fromId = n.id)).any
          (fun e => e.buttonId = b.id)) := rfl

/-- **C5, amended.**  Button mirror invariant for nodes whose buttons carry
pairwise-distinct ids and whose surviving outgoing edges carry
pairwise-distinct `buttonId`s: after the pass, such a node holds exactly one
button with the `buttonId` and target of each of its outgoing edges, and no
button lacking a backing outgoing edge.  (With duplicate button ids or
duplicate outgoing `buttonId`s the "exactly one" part fails — see the
counterexample.) -/
theorem enforce_button_mirror (g : Graph) (n₀ : Node) (hm : n₀ ∈ g.nodes)
    (hb : (n₀.buttons.map Button.id).Nodup)
    (he : (((sanitizeEdges g.nodes g.edges).filter
        (fun e => e.fromId = n₀.id)).map Edge.buttonId).Nodup) :
    mirrorNode (sanitizeEdges g.nodes g.edges) n₀ ∈
      (enforceGraphConsistency g).nodes ∧
    (∀ e ∈ (enforceGraphConsistency g).edges, e.fromId = n₀.id →
      ((mirrorNode (sanitizeEdges g.nodes g.edges) n₀).buttons.filter
        (fun b => b.id = e.buttonId ∧ b.toId = e.toId)).length = 1) ∧
    (∀ b ∈ (mirrorNode (sanitizeEdges g.nodes g.edges) n₀).buttons,
      ∃ e ∈ (enforceGraphConsistency g).edges,
        e.fromId = n₀.id ∧ e.buttonId = b.id) := by
  refine ⟨by rw [enforce_nodes]; exact List.mem_map_of_mem _ hm, ?_, ?_⟩
  · intro E hE hfrom
    rw [enforce_edges] at hE
    have hEout : E ∈ (sanitizeEdges g.nodes g.edges).filter
        (fun e => e.fromId = n₀.id) :=
      List.mem_filter.mpr ⟨hE, by simp [hfrom]⟩
    obtain ⟨-, IH2, -⟩ := mirrorFold_spec
      ((sanitizeEdges g.nodes g.edges).filter (fun e => e.fromId = n₀.id))
      n₀.buttons hb he
    obtain ⟨bst, hfil, hbid, hto⟩ := IH2 E hEout
    rw [mirrorNode_buttons]
    have hA : ((((sanitizeEdges g.nodes g.edges).filter
          (fun e => e.fromId = n₀.id)).foldl mirrorStep n₀.buttons).filter
        (fun b => ((sanitizeEdges g.nodes g.edges).filter
          (fun e => e.fromId = n₀.id)).any (fun e => e.buttonId = b.id))).filter
        (fun b => decide (b.id = E.buttonId ∧ b.toId = E.toId)) =
        (((sanitizeEdges g.nodes g.edges).filter
          (fun e => e.fromId = n₀.id)).foldl mirrorStep n₀.buttons).filter
        (fun b => decide (b.id = E.buttonId ∧ b.toId = E.toId)) := by
      apply filter_filter_of_imp
      intro b hq
      have hq2 := of_decide_eq_true hq
      exact List.any_eq_true.mpr ⟨E, hEout, by simp [hq2.1]⟩
    rw [hA]
    have hB : ((((sanitizeEdges g.nodes g.edges).filter
          (fun e => e.fromId = n₀.id)).foldl mirrorStep n₀.buttons).filter
        (fun x => decide (x.id = E.buttonId))).filter
        (fun b => decide (b.id = E.buttonId ∧ b.toId = E.toId)) =
        (((sanitizeEdges g.nodes g.edges).filter
          (fun e => e.fromId = n₀.id)).foldl mirrorStep n₀.buttons).filter
        (fun b => decide (b.id = E.buttonId ∧ b.toId = E.toId)) := by
      apply filter_filter_of_imp
      intro b hq
      exact decide_eq_true (of_decide_eq_true hq).1
    rw [← hB, hfil]
    have hq : (decide (bst.id = E.buttonId ∧ bst.toId = E.toId)) = true := by
      refine decide_eq_true ⟨hbid, ?_⟩
      rw [hto]
      exact mem_sanitize_mirrorTo g.nodes g.edges E hE
    simp [List.filter_cons, hq, of_decide_eq_true hq]
  · intro b hbmem
    rw [mirrorNode_buttons] at hbmem
    have h2 := (List.mem_filter.mp hbmem).2
    obtain ⟨e, hemem, hP⟩ := List.any_eq_true.mp h2
    have h3 := List.mem_filter.mp hemem
    exact ⟨e, by rw [enforce_edges]; exact h3.1,
      of_decide_eq_true h3.2, of_decide_eq_true hP⟩

/-! ## Witness graphs and walk-step lemmas -/

/-- A two-node graph with one selected edge, used to witness the amended
invariant theorems on a concrete input. -/
def wSelGraph : Graph :=
  { id := "g", name := "g", version := 1, createdAt := "t", updatedAt := "t",
    nodes := [{ id := "S", x := 0, y := 0, text := "S", type := "xor",
                color := none,
                buttons := [{ id := "b1", text := "Choice", toId := some "A" }] },
              { id := "A", x := 0, y := 0, text := "A", type := "xor",
                color := none, buttons := [] }],
    edges := [{ id := "e1", fromId := "S", toId := some "A", buttonId := "b1",
                pendingX := none, pendingY := none }],
    ui := { selectedNodeId := none, activePath := [],
            activeSelections := [("S", ["e1"])] } }

/-- Witness for the amended C6 theorem at `wSelGraph`. -/
theorem enforce_xor_cap_witness :
    ({ id := "S", x := 0, y := 0, text := "S", type := "xor", color := none,
       buttons := [{ id := "b1", text := "Choice", toId := some "A" }] } :
        Node).type = "xor" ∧
    lookupSel (enforceGraphConsistency wSelGraph).ui.activeSelections "S" =
      some ["e1"] ∧
    (["e1"] : List String).length ≤ 1 := by
  refine ⟨rfl, by decide, ?_⟩
  exact enforce_xor_cap wSelGraph (by decide)
    { id := "S", x := 0, y := 0, text := "S", type := "xor", color := none,
      buttons := [{ id := "b1", text := "Choice", toId := some "A" }] }
    (by decide) rfl ["e1"] (by decide)

/-- Witness for the amended C5 theorem at `wSelGraph`. -/
theorem enforce_button_mirror_witness :
    ((mirrorNode (sanitizeEdges wSelGraph.nodes wSelGraph.edges)
        { id := "S", x := 0, y := 0, text := "S", type := "xor", color := none,
          buttons := [{ id := "b1", text := "Choice", toId := some "A" }] }).buttons.filter
      (fun b => b.id = "b1" ∧ b.toId = some "A")).length = 1 := by
  have h := (enforce_button_mirror wSelGraph
    { id := "S", x := 0, y := 0, text := "S", type := "xor", color := none,
      buttons := [{ id := "b1", text := "Choice", toId := some "A" }] }
    (by decide) (by decide) (by decide)).2.1
    { id := "e1", fromId := "S", toId := some "A", buttonId := "b1",
      pendingX := none, pendingY := none } (by decide) rfl
  exact h

theorem lookupNode_id (ns : List Node) (k : String) (n : Node)
    (h : lookupNode ns k = some n) : n.id = k := by
  rw [lookupNode] at h
  cases hf : List.find? (fun n => n.id = k) ns.reverse with
  | none => rw [hf] at h; cases h
  | some m =>
    rw [hf] at h
    cases h
    have hp := List.find?_some hf
    exact of_decide_eq_true hp

theorem lookupEdge_id (es : List Edge) (k : String) (e : Edge)
    (h : lookupEdge es k = some e) : e.id = k := by
  rw [lookupEdge] at h
  cases hf : List.find? (fun e => e.id = k) es.reverse with
  | none => rw [hf] at h; cases h
  | some m =>
    rw [hf] at h
    cases h
    have hp := List.find?_some hf
    exact of_decide_eq_true hp

theorem lookupNode_of_hasNodeId (ns : List Node) (k : String)
    (h : hasNodeId ns k = true) : ∃ n, lookupNode ns k = some n ∧ n.id = k := by
  rw [hasNodeId] at h
  obtain ⟨n, hmem, hid⟩ := List.any_eq_true.mp h
  have hsome : (List.find? (fun n : Node => decide (n.id = k)) ns.reverse).isSome := by
    rw [List.find?_isSome]
    exact ⟨n, List.mem_reverse.mpr hmem, hid⟩
  obtain ⟨m, hfind⟩ := Option.isSome_iff_exists.mp hsome
  have hp := List.find?_some hfind
  exact ⟨m, by rw [lookupNode, hfind], of_decide_eq_true hp⟩

/-- One unfolding step of the walk. -/
theorem walk_succ (ns : List Node) (es : List Edge) (S : Selections)
    (fuel : Nat) (nid : String) (stack : List String) :
    walk ns es S (fuel + 1) nid stack =
      match lookupNode ns nid with
      | none => []
      | some node =>
        if nid ∈ stack then [nid]
        else
          nid :: ((if node.type = "xor"
              then ((lookupSel S nid).getD []).take 1
              else (lookupSel S nid).getD []).flatMap fun eid =>
            match lookupEdge es eid with
            | some e =>
              match e.toId with
              | some t =>
                if e.fromId = nid ∧ hasNodeId ns t then
                  e.id :: walk ns es S fuel t (nid :: stack)
                else []
              | none => []
            | none => []) := rfl

/-- Expanding a node whose selection is a single valid edge. -/
theorem walk_single_sel (ns : List Node) (es : List Edge) (S : Selections)
    (fuel : Nat) (nid : String) (stack : List String) (node : Node) (eid : String)
    (E : Edge) (t : String)
    (hn : lookupNode ns nid = some node)
    (hstack : nid ∉ stack)
    (hsel : lookupSel S nid = some [eid])
    (he : lookupEdge es eid = some E)
    (hfrom : E.fromId = nid) (hto : E.toId = some t)
    (hht : hasNodeId ns t = true) :
    walk ns es S (fuel + 1) nid stack =
      nid :: eid :: walk ns es S fuel t (nid :: stack) := by
  rw [walk_succ, hn]
  dsimp only
  rw [if_neg hstack]
  have hgd : (lookupSel S nid).getD [] = [eid] := by rw [hsel]; rfl
  have hflat : ∀ cond : Bool,
      ((if cond = true then ([eid] : List String).take 1 else [eid]).flatMap
        fun eid2 =>
          match lookupEdge es eid2 with
          | some e =>
            match e.toId with
            | some t2 =>
              if e.fromId = nid ∧ hasNodeId ns t2 then
                e.id :: walk ns es S fuel t2 (nid :: stack)
              else []
            | none => []
          | none => []) = eid :: walk ns es S fuel t (nid :: stack) := by
    intro cond
    have hone : (if cond = true then ([eid] : List String).take 1 else [eid]) =
        [eid] := by
      cases cond <;> rfl
    rw [hone]
    have hid := lookupEdge_id es eid E he
    simp only [List.flatMap_cons, List.flatMap_nil, List.append_nil, he, hto,
      hfrom, hht, and_self, if_true, hid]
  by_cases htp : node.type = "xor"
  · rw [hgd, if_pos htp]
    simpa using hflat true
  · rw [hgd, if_neg htp]
    simpa using hflat false

/-- A node already on the ancestor stack is recorded once, without descent. -/
theorem walk_stack_hit (ns : List Node) (es : List Edge) (S : Selections)
    (fuel : Nat) (nid : String) (stack : List String) (node : Node)
    (hn : lookupNode ns nid = some node) (hstack : nid ∈ stack) :
    walk ns es S (fuel + 1) nid stack = [nid] := by
  rw [walk_succ, hn]
  dsimp only
  rw [if_pos hstack]

theorem lookupNode_mem (ns : List Node) (k : String) (n : Node)
    (h : lookupNode ns k = some n) : n ∈ ns := by
  rw [lookupNode] at h
  cases hf : List.find? (fun n => n.id = k) ns.reverse with
  | none => rw [hf] at h; cases h
  | some m =>
    rw [hf] at h
    cases h
    exact List.mem_reverse.mp (List.mem_of_find?_eq_some hf)

/-- **C2, amended.**  Cycle safety with the corrected bound: when the
selections contain a cycle A→B→A (root A, `e1 : A→B` selected at A,
`e2 : B→A` selected at B), the derivation walk terminates with the same
result under every sufficient fuel, and the derived `ui.activePath` is
exactly `[A, e1, B, e2, A]` — `2 × node count + 1` entries at the two-node
minimum, and never more than `2 × node count + 1`.  (The claim's bound
`2 × node count` fails at the minimum — see the counterexample.) -/
theorem cycle_path_amended (g : Graph) (A B e1 e2 : String)
    (hroot : g.nodes.head?.map Node.id = some A)
    (hAB : ¬ A = B)
    (E1 E2 : Edge)
    (hE1 : lookupEdge g.edges e1 = some E1) (hE1f : E1.fromId = A)
    (hE1t : E1.toId = some B)
    (hE2 : lookupEdge g.edges e2 = some E2) (hE2f : E2.fromId = B)
    (hE2t : E2.toId = some A)
    (hNA : hasNodeId g.nodes A = true) (hNB : hasNodeId g.nodes B = true)
    (hSelA : lookupSel g.ui.activeSelections A = some [e1])
    (hSelB : lookupSel g.ui.activeSelections B = some [e2]) :
    (∀ f : Nat, walk g.nodes g.edges g.ui.activeSelections (f + 3) A [] =
      [A, e1, B, e2, A]) ∧
    (rebuildActivePathFromSelections g).ui.activePath = [A, e1, B, e2, A] ∧
    (rebuildActivePathFromSelections g).ui.activePath.length ≤
      2 * g.nodes.length + 1 := by
  obtain ⟨nA, hnA, hidA⟩ := lookupNode_of_hasNodeId g.nodes A hNA
  obtain ⟨nB, hnB, hidB⟩ := lookupNode_of_hasNodeId g.nodes B hNB
  have hwalk : ∀ f : Nat, walk g.nodes g.edges g.ui.activeSelections (f + 3)
      A [] = [A, e1, B, e2, A] := by
    intro f
    have h3 : f + 3 = (f + 2) + 1 := rfl
    rw [h3, walk_single_sel g.nodes g.edges g.ui.activeSelections (f + 2) A []
      nA e1 E1 B hnA (by simp) hSelA hE1 hE1f hE1t hNB]
    have h2 : f + 2 = (f + 1) + 1 := rfl
    rw [h2, walk_single_sel g.nodes g.edges g.ui.activeSelections (f + 1) B [A]
      nB e2 E2 A hnB ?hBstack hSelB hE2 hE2f hE2t hNA]
    case hBstack =>
      simp only [List.mem_singleton]
      exact fun hh => hAB hh.symm
    rw [walk_stack_hit g.nodes g.edges g.ui.activeSelections f A [B, A] nA hnA
      (by simp)]
  have hlen2 : 2 ≤ g.nodes.length := by
    have hmemA := lookupNode_mem g.nodes A nA hnA
    have hmemB := lookupNode_mem g.nodes B nB hnB
    cases hns : g.nodes with
    | nil =>
      rw [hns] at hmemA
      cases hmemA
    | cons a tail =>
      cases htail : tail with
      | nil =>
        rw [hns, htail] at hmemA hmemB
        have hA2 : nA = a := List.mem_singleton.mp hmemA
        have hB2 : nB = a := List.mem_singleton.mp hmemB
        exact absurd ((hidA.symm.trans (hA2 ▸ hB2 ▸ hidB : nA.id = B)))
          hAB
      | cons b tail2 =>
        simp only [List.length_cons]
        omega
  have hpath : (rebuildActivePathFromSelections g).ui.activePath =
      [A, e1, B, e2, A] := by
    cases hns : g.nodes with
    | nil =>
      rw [hns] at hroot
      cases hroot
    | cons root tail =>
      have hrid : root.id = A := by
        rw [hns] at hroot
        simpa using hroot
      have hform : tail.length + 1 + 1 = (tail.length - 1) + 3 := by
        have : 1 ≤ tail.length := by
          rw [hns] at hlen2
          simp only [List.length_cons] at hlen2
          omega
        omega
      rw [rebuildActivePathFromSelections]
      simp only [rebuildActivePath, hns, List.head?_cons]
      show walk (root :: tail) g.edges g.ui.activeSelections
        ((root :: tail).length + 1) root.id [] = [A, e1, B, e2, A]
      rw [List.length_cons, hrid, hform]
      have hwalk2 := hwalk (tail.length - 1)
      rw [hns] at hwalk2
      exact hwalk2
  refine ⟨hwalk, hpath, ?_⟩
  rw [hpath]
  simp only [List.length_cons, List.length_nil]
  omega

/-- A three-node graph whose selections form the cycle A→B→A. -/
def wCycleGraph : Graph :=
  { id := "g", name := "g", version := 1, createdAt := "t", updatedAt := "t",
    nodes := [{ id := "A", x := 0, y := 0, text := "A", type := "xor",
                color := none, buttons := [] },
              { id := "B", x := 0, y := 0, text := "B", type := "xor",
                color := none, buttons := [] },
              { id := "C", x := 0, y := 0, text := "C", type := "xor",
                color := none, buttons := [] }],
    edges := [{ id := "e1", fromId := "A", toId := some "B", buttonId := "b1",
                pendingX := none, pendingY := none },
              { id := "e2", fromId := "B", toId := some "A", buttonId := "b2",
                pendingX := none, pendingY := none }],
    ui := { selectedNodeId := none, activePath := [],
            activeSelections := [("A", ["e1"]), ("B", ["e2"])] } }

/-- Witness for the amended C2 theorem at `wCycleGraph`. -/
theorem cycle_path_amended_witness :
    (rebuildActivePathFromSelections wCycleGraph).ui.activePath =
      ["A", "e1", "B", "e2", "A"] ∧
    (rebuildActivePathFromSelections wCycleGraph).ui.activePath.length ≤
      2 * wCycleGraph.nodes.length + 1 := by
  have h := cycle_path_amended wCycleGraph "A" "B" "e1" "e2" (by decide)
    (by decide)
    { id := "e1", fromId := "A", toId := some "B", buttonId := "b1",
      pendingX := none, pendingY := none }
    { id := "e2", fromId := "B", toId := some "A", buttonId := "b2",
      pendingX := none, pendingY := none }
    (by decide) rfl rfl (by decide) rfl rfl (by decide) (by decide)
    (by decide) (by decide)
  exact ⟨h.2.1, h.2.2⟩

/-- Witness for the C4 theorem: toggling an unknown edge id is rejected
without mutation. -/
theorem applyTypedEdgeSelection_spec_witness :
    applyTypedEdgeSelection wSelGraph "nope" = (none, wSelGraph) := by
  refine (applyTypedEdgeSelection_spec wSelGraph "nope").1.mpr ?_
  rw [toggleRejects]
  simp only [show findEdge wSelGraph "nope" = none from by decide]

/-- Witness for the C7 theorem: a `null` root document is rejected. -/
theorem normalizeGraph_error_iff_witness :
    ∃ msg, normalizeGraph vNull "doc" "now" 0 = Except.error msg :=
  (normalizeGraph_error_iff vNull "doc" "now" 0).mpr (Or.inl (by decide))

/-- Witness for the amended C8 theorem: `"OR"` normalizes to OR. -/
theorem normalizeNodeType_or_iff_witness :
    normalizeNodeType (vStr "OR") = "or" :=
  (normalizeNodeType_or_iff (vStr "OR")).1.mpr ⟨by decide, by decide⟩

/-! ## Derived views of the walk (used for the selection-pruning claims) -/

/-- The walk's per-edge guard (src/app.js:824-827): the id resolves to an
edge leaving `nid` whose target is a known node. -/
def validEdgeAt (ns : List Node) (es : List Edge) (nid : String)
    (eid : String) : Bool :=
  match lookupEdge es eid with
  | some e =>
    match e.toId with
    | some t => e.fromId = nid ∧ hasNodeId ns t
    | none => false
  | none => false

/-- The target the walk descends into for a valid edge id. -/
def edgeTarget (es : List Edge) (eid : String) : String :=
  match lookupEdge es eid with
  | some e => e.toId.getD ""
  | none => ""

/-- The selection list the walk iterates at a node (XOR slice applied). -/
def selSlice (node : Node) (S : Selections) (nid : String) : List String :=
  if node.type = "xor" then ((lookupSel S nid).getD []).take 1
  else (lookupSel S nid).getD []

/-- The edge ids the walk actually traverses out of a node. -/
def effSelList (ns : List Node) (es : List Edge) (S : Selections)
    (nid : String) : List String :=
  match lookupNode ns nid with
  | none => []
  | some node => (selSlice node S nid).filter (validEdgeAt ns es nid)

theorem walk_item_eq (ns : List Node) (es : List Edge) (S : Selections)
    (fuel : Nat) (nid : String) (stack : List String) (eid : String) :
    (match lookupEdge es eid with
      | some e =>
        match e.toId with
        | some t =>
          if e.fromId = nid ∧ hasNodeId ns t then
            e.id :: walk ns es S fuel t (nid :: stack)
          else []
        | none => []
      | none => []) =
    (if validEdgeAt ns es nid eid = true then
      eid :: walk ns es S fuel (edgeTarget es eid) (nid :: stack)
    else []) := by
  rw [validEdgeAt, edgeTarget]
  cases he : lookupEdge es eid with
  | none => simp
  | some e =>
    dsimp only
    cases ht : e.toId with
    | none => simp
    | some t =>
      dsimp only
      have hid := lookupEdge_id es eid e he
      by_cases hv : e.fromId = nid ∧ hasNodeId ns t = true
      · rw [if_pos hv, if_pos (by simp [hv.1, hv.2]), hid]
        rfl
      · rw [if_neg hv,
          if_neg (by simpa [Bool.and_eq_true, decide_eq_true_eq] using hv)]

/-- Walk unfolding at an expanded node, phrased through `selSlice` and
`validEdgeAt`. -/
theorem walk_expand (ns : List Node) (es : List Edge) (S : Selections)
    (fuel : Nat) (nid : String) (stack : List String) (node : Node)
    (hn : lookupNode ns nid = some node) (hst : nid ∉ stack) :
    walk ns es S (fuel + 1) nid stack =
      nid :: (selSlice node S nid).flatMap (fun eid =>
        if validEdgeAt ns es nid eid = true then
          eid :: walk ns es S fuel (edgeTarget es eid) (nid :: stack)
        else []) := by
  rw [walk_succ, hn]
  dsimp only
  rw [if_neg hst, selSlice]
  congr 1
  congr 1
  funext eid
  exact walk_item_eq ns es S fuel nid stack eid

theorem hasNodeId_of_lookupNode (ns : List Node) (k : String) (n : Node)
    (h : lookupNode ns k = some n) : hasNodeId ns k = true := by
  rw [hasNodeId]
  exact List.any_eq_true.mpr ⟨n, lookupNode_mem ns k n h,
    decide_eq_true (lookupNode_id ns k n h)⟩

theorem effSel_mem_walk (ns : List Node) (es : List Edge) (S : Selections)
    (fuel : Nat) (nid : String) (stack : List String) (node : Node)
    (hn : lookupNode ns nid = some node) (hst : nid ∉ stack) :
    ∀ x ∈ effSelList ns es S nid, x ∈ walk ns es S (fuel + 1) nid stack := by
  intro x hx
  rw [effSelList, hn] at hx
  dsimp only at hx
  obtain ⟨hmem, hvalid⟩ := List.mem_filter.mp hx
  rw [walk_expand ns es S fuel nid stack node hn hst]
  refine List.mem_cons.mpr (Or.inr (List.mem_flatMap.mpr ⟨x, hmem, ?_⟩))
  rw [if_pos hvalid]
  exact List.mem_cons_self x _

theorem effSel_unpack (ns : List Node) (es : List Edge) (S : Selections)
    (nid : String) (node : Node) (hn : lookupNode ns nid = some node)
    (x : String) (hx : x ∈ effSelList ns es S nid) :
    x ∈ selSlice node S nid ∧ validEdgeAt ns es nid x = true := by
  rw [effSelList, hn] at hx
  dsimp only at hx
  exact List.mem_filter.mp hx

/-- Pointwise shrinking of the traversable selections shrinks the set of
path entries: nothing new becomes reachable after pruning. -/
theorem walk_mono (ns : List Node) (es : List Edge) (S S' : Selections)
    (h : ∀ k x, x ∈ effSelList ns es S' k → x ∈ effSelList ns es S k) :
    ∀ fuel nid stack y, y ∈ walk ns es S' fuel nid stack →
      y ∈ walk ns es S fuel nid stack := by
  intro fuel
  induction fuel with
  | zero =>
    intro nid stack y hy
    rw [walk] at hy
    cases hy
  | succ fuel ih =>
    intro nid stack y hy
    cases hn : lookupNode ns nid with
    | none =>
      rw [walk_succ, hn] at hy
      cases hy
    | some node =>
      by_cases hst : nid ∈ stack
      · rw [walk_stack_hit ns es S' fuel nid stack node hn hst] at hy
        rw [walk_stack_hit ns es S fuel nid stack node hn hst]
        exact hy
      · rw [walk_expand ns es S' fuel nid stack node hn hst] at hy
        rcases List.mem_cons.mp hy with hh | hy2
        · rw [walk_expand ns es S fuel nid stack node hn hst, hh]
          exact List.mem_cons_self nid _
        · obtain ⟨eid, heid, hitem⟩ := List.mem_flatMap.mp hy2
          by_cases hval : validEdgeAt ns es nid eid = true
          · rw [if_pos hval] at hitem
            have hxS' : eid ∈ effSelList ns es S' nid := by
              rw [effSelList, hn]
              dsimp only
              exact List.mem_filter.mpr ⟨heid, hval⟩
            have hxS := h nid eid hxS'
            obtain ⟨hmemS, hvalS⟩ := effSel_unpack ns es S nid node hn eid hxS
            rcases List.mem_cons.mp hitem with hh | hysub
            · rw [hh]
              exact effSel_mem_walk ns es S fuel nid stack node hn hst eid hxS
            · have hy3 := ih (edgeTarget es eid) (nid :: stack) y hysub
              rw [walk_expand ns es S fuel nid stack node hn hst]
              refine List.mem_cons.mpr (Or.inr (List.mem_flatMap.mpr
                ⟨eid, hmemS, ?_⟩))
              rw [if_pos hvalS]
              exact List.mem_cons_of_mem eid hy3
          · rw [if_neg hval] at hitem
            cases hitem

/-- Provenance of path entries: every entry is a known node id or an edge id
the walk traversed out of some node. -/
theorem walk_provenance (ns : List Node) (es : List Edge) (S : Selections) :
    ∀ fuel nid stack y, y ∈ walk ns es S fuel nid stack →
      hasNodeId ns y = true ∨ ∃ m, y ∈ effSelList ns es S m := by
  intro fuel
  induction fuel with
  | zero =>
    intro nid stack y hy
    rw [walk] at hy
    cases hy
  | succ fuel ih =>
    intro nid stack y hy
    cases hn : lookupNode ns nid with
    | none =>
      rw [walk_succ, hn] at hy
      cases hy
    | some node =>
      by_cases hst : nid ∈ stack
      · rw [walk_stack_hit ns es S fuel nid stack node hn hst] at hy
        rcases List.mem_singleton.mp hy with hh
        exact Or.inl (hh ▸ hasNodeId_of_lookupNode ns nid node hn)
      · rw [walk_expand ns es S fuel nid stack node hn hst] at hy
        rcases List.mem_cons.mp hy with hh | hy2
        · exact Or.inl (hh ▸ hasNodeId_of_lookupNode ns nid node hn)
        · obtain ⟨eid, heid, hitem⟩ := List.mem_flatMap.mp hy2
          by_cases hval : validEdgeAt ns es nid eid = true
          · rw [if_pos hval] at hitem
            rcases List.mem_cons.mp hitem with hh | hysub
            · refine Or.inr ⟨nid, ?_⟩
              rw [effSelList, hn]
              dsimp only
              rw [hh]
              exact List.mem_filter.mpr ⟨heid, hval⟩
            · exact ih (edgeTarget es eid) (nid :: stack) y hysub
          · rw [if_neg hval] at hitem
            cases hitem

theorem findEdge_id (g : Graph) (eid : String) (e : Edge)
    (h : findEdge g eid = some e) : e.id = eid := by
  rw [findEdge] at h
  have hp := List.find?_some h
  exact of_decide_eq_true hp

theorem findEdge_mem (g : Graph) (eid : String) (e : Edge)
    (h : findEdge g eid = some e) : e ∈ g.edges := by
  rw [findEdge] at h
  exact List.mem_of_find?_eq_some h

theorem findNode_id (g : Graph) (nid : String) (n : Node)
    (h : findNode g nid = some n) : n.id = nid := by
  rw [findNode] at h
  have hp := List.find?_some h
  exact of_decide_eq_true hp

theorem findNode_mem (g : Graph) (nid : String) (n : Node)
    (h : findNode g nid = some n) : n ∈ g.nodes := by
  rw [findNode] at h
  exact List.mem_of_find?_eq_some h

/-- Membership in a push-if fold whose condition is a fixed predicate plus
dedup: every member comes from the accumulator or satisfies the predicate. -/
theorem foldl_keep_mem {α : Type} [DecidableEq α] (P : α → Prop) [DecidablePred P] :
    ∀ (l acc : List α) (x : α),
      x ∈ l.foldl (fun a y => if P y ∧ y ∉ a then a ++ [y] else a) acc →
      x ∈ acc ∨ (x ∈ l ∧ P x)
  | [], _, _, h => Or.inl h
  | y :: l, acc, x, h => by
    rw [List.foldl_cons] at h
    rcases foldl_keep_mem P l (if P y ∧ y ∉ acc then acc ++ [y] else acc) x h
        with h1 | h2
    · by_cases hc : P y ∧ y ∉ acc
      · rw [if_pos hc] at h1
        rcases List.mem_append.mp h1 with h3 | h3
        · exact Or.inl h3
        · rcases List.mem_singleton.mp h3 with h4
          exact Or.inr ⟨h4 ▸ List.mem_cons_self y l, h4 ▸ hc.1⟩
      · rw [if_neg hc] at h1
        exact Or.inl h1
    · exact Or.inr ⟨List.mem_cons_of_mem y h2.1, h2.2⟩

theorem pruneEntry_mem (path : List String) (nodes : List Node)
    (edges : List Edge) (v : List String) (x : String)
    (h : x ∈ pruneEntry path nodes edges v) :
    x ∈ v ∧ x ∈ path ∧ ¬ hasNodeId nodes x = true ∧ hasEdgeId edges x = true := by
  rw [pruneEntry] at h
  rcases foldl_keep_mem
      (fun eid => eid ∈ path ∧ ¬ hasNodeId nodes eid = true ∧
        hasEdgeId edges eid = true) v [] x h with h1 | h2
  · cases h1
  · exact ⟨h2.1, h2.2⟩

theorem pruneEntry_single (path : List String) (nodes : List Node)
    (edges : List Edge) (x : String) :
    pruneEntry path nodes edges [x] =
      if x ∈ path ∧ ¬ hasNodeId nodes x = true ∧ hasEdgeId edges x = true
      then [x] else [] := by
  rw [pruneEntry]
  simp only [List.foldl_cons, List.foldl_nil, List.not_mem_nil,
    not_false_eq_true, and_true, List.nil_append]

theorem keys_setSel (s : Selections) (k : String) (v : List String) :
    (setSel s k v).map Prod.fst =
      if k ∈ s.map Prod.fst then s.map Prod.fst else s.map Prod.fst ++ [k] := by
  induction s with
  | nil => simp [setSel]
  | cons e rest ih =>
    rw [setSel]
    by_cases he : e.1 = k
    · rw [if_pos he]
      simp [he]
    · rw [if_neg he]
      simp only [List.map_cons, ih]
      have hne : ¬ k = e.1 := fun hh => he hh.symm
      by_cases hm : k ∈ rest.map Prod.fst
      · simp [hm, hne]
      · simp [hm, hne]

theorem nodupKeys_setSel (s : Selections) (k : String) (v : List String)
    (h : (s.map Prod.fst).Nodup) : ((setSel s k v).map Prod.fst).Nodup := by
  rw [keys_setSel]
  by_cases hm : k ∈ s.map Prod.fst
  · rw [if_pos hm]
    exact h
  · rw [if_neg hm]
    simp [List.nodup_append, h, hm]

theorem nodupKeys_delSel (s : Selections) (k : String)
    (h : (s.map Prod.fst).Nodup) : ((delSel s k).map Prod.fst).Nodup := by
  rw [delSel]
  exact h.sublist (List.Sublist.map Prod.fst (List.filter_sublist s))

theorem lookupSel_none_of_not_mem_keys (s : Selections) (k : String)
    (h : k ∉ s.map Prod.fst) : lookupSel s k = none := by
  induction s with
  | nil => rfl
  | cons e rest ih =>
    rw [lookupSel_cons]
    simp only [List.map_cons, List.mem_cons] at h
    push_neg at h
    rw [if_neg (fun hh => h.1 hh.symm)]
    exact ih h.2

theorem nodupKeys_pruneFold (path : List String) (nodes : List Node)
    (edges : List Edge) :
    ∀ (sels acc : Selections), ((acc.map Prod.fst).Nodup) →
      (((sels.foldl (pruneStep path nodes edges) acc).map Prod.fst).Nodup)
  | [], _, h => h
  | kv :: rest, acc, h => by
    rw [List.foldl_cons]
    refine nodupKeys_pruneFold path nodes edges rest _ ?_
    rw [pruneStep]
    split
    · dsimp only
      split
      · exact nodupKeys_setSel _ _ _ h
      · exact h
    · exact h

/-- With duplicate-free keys, a lookup into the pruning fold is the pruned
entry of the same key when it is kept, and the accumulator's lookup
otherwise. -/
theorem lookupSel_pruneFold_eq (path : List String) (nodes : List Node)
    (edges : List Edge) :
    ∀ (sels acc : Selections) (k : String), ((sels.map Prod.fst).Nodup) →
      lookupSel (sels.foldl (pruneStep path nodes edges) acc) k =
        match lookupSel sels k with
        | some v =>
          if (k ∈ path ∧ hasNodeId nodes k = true) ∧
              pruneEntry path nodes edges v ≠ []
          then some (pruneEntry path nodes edges v)
          else lookupSel acc k
        | none => lookupSel acc k
  | [], acc, k, _ => by
    rw [List.foldl_nil]
    rfl
  | kv :: rest, acc, k, hnd => by
    rw [List.map_cons, List.nodup_cons] at hnd
    rw [List.foldl_cons,
      lookupSel_pruneFold_eq path nodes edges rest
        (pruneStep path nodes edges acc kv) k hnd.2]
    by_cases hk : k = kv.1
    · have hrest : lookupSel rest k = none :=
        lookupSel_none_of_not_mem_keys rest k (hk ▸ hnd.1)
      have hcons : lookupSel (kv :: rest) k = some kv.2 := by
        rw [lookupSel_cons, if_pos hk.symm]
      rw [hrest, hcons]
      dsimp only
      rw [pruneStep]
      by_cases hact : kv.1 ∈ path ∧ hasNodeId nodes kv.1 = true
      · rw [if_pos hact]
        dsimp only
        by_cases hfil : pruneEntry path nodes edges kv.2 ≠ []
        · rw [if_pos hfil, if_pos ⟨hk ▸ hact, hfil⟩, lookupSel_setSel,
            if_pos hk]
        · rw [if_neg hfil, if_neg (fun hc => hfil hc.2)]
      · rw [if_neg hact, if_neg (fun hc => hact (hk ▸ hc.1))]
    · have hcons : lookupSel (kv :: rest) k = lookupSel rest k := by
        rw [lookupSel_cons, if_neg (fun hh => hk hh.symm)]
      have hstep : lookupSel (pruneStep path nodes edges acc kv) k =
          lookupSel acc k := by
        rw [pruneStep]
        split
        · dsimp only
          split
          · rw [lookupSel_setSel, if_neg hk]
          · rfl
        · rfl
      rw [hcons]
      cases lookupSel rest k with
      | some v =>
        dsimp only
        rw [hstep]
      | none => exact hstep

theorem rebuild_nodes (g : Graph) :
    (rebuildActivePathFromSelections g).nodes = g.nodes := rfl

theorem rebuild_edges (g : Graph) :
    (rebuildActivePathFromSelections g).edges = g.edges := rfl

theorem rebuild_sels (g : Graph) (root : Node)
    (hh : g.nodes.head? = some root) :
    (rebuildActivePathFromSelections g).ui.activeSelections =
      g.ui.activeSelections.foldl
        (pruneStep (walk g.nodes g.edges g.ui.activeSelections
          (g.nodes.length + 1) root.id []) g.nodes g.edges) [] := by
  rw [rebuildActivePathFromSelections]
  simp only [rebuildActivePath, hh]

theorem effSelList_congr (ns : List Node) (es : List Edge)
    (S S' : Selections) (k : String)
    (h : lookupSel S' k = lookupSel S k) :
    effSelList ns es S' k = effSelList ns es S k := by
  rw [effSelList, effSelList]
  cases lookupNode ns k with
  | none => rfl
  | some node =>
    dsimp only
    rw [selSlice, selSlice, h]

theorem effSelList_nil_of_lookup_none (ns : List Node) (es : List Edge)
    (S : Selections) (k : String) (h : lookupSel S k = none) :
    effSelList ns es S k = [] := by
  rw [effSelList]
  cases lookupNode ns k with
  | none => rfl
  | some node =>
    dsimp only
    rw [selSlice, h]
    by_cases hx : node.type = "xor" <;> simp [hx]

theorem validEdgeAt_spec (ns : List Node) (es : List Edge) (nid x : String)
    (h : validEdgeAt ns es nid x = true) :
    ∃ E t, lookupEdge es x = some E ∧ E.fromId = nid ∧ E.toId = some t ∧
      hasNodeId ns t = true := by
  rw [validEdgeAt] at h
  cases he : lookupEdge es x with
  | none =>
    rw [he] at h
    simp at h
  | some E =>
    rw [he] at h
    dsimp only at h
    cases ht : E.toId with
    | none =>
      rw [ht] at h
      simp at h
    | some t =>
      rw [ht] at h
      dsimp only at h
      have h2 := of_decide_eq_true h
      exact ⟨E, t, rfl, h2.1, ht, h2.2⟩

/-- The XOR branch of `applyTypedEdgeSelection`: replace-or-clear the source
node's selection, then rebuild. -/
theorem applyTypedEdgeSelection_xor (g : Graph) (eid : String) (e : Edge)
    (src : Node)
    (he : findEdge g eid = some e) (hht : edgeHasTarget e = true)
    (hsrc : findNode g e.fromId = some src)
    (hxor : normalizeNodeTypeStr src.type = "xor") :
    (applyTypedEdgeSelection g eid).2 =
      rebuildActivePathFromSelections { g with ui := { g.ui with
        activeSelections :=
          if dedupAppend (((lookupSel g.ui.activeSelections src.id).getD
              []).filter (fun i => i ≠ "")) = [e.id]
          then delSel g.ui.activeSelections src.id
          else setSel g.ui.activeSelections src.id [e.id] } } := by
  have hnotor : ¬ normalizeNodeTypeStr src.type = "or" := by
    rw [hxor]
    decide
  simp only [applyTypedEdgeSelection, he, hht, not_true_eq_false, if_false,
    hsrc, hnotor]
  split <;> rfl

/-- Lookup into the rebuilt selection map, for duplicate-free keys: the
pruned entry of the key when the node is on the path and the pruned entry is
non-empty, `none` otherwise. -/
theorem rebuild_lookup (g : Graph) (root : Node)
    (hh : g.nodes.head? = some root)
    (hnd : (g.ui.activeSelections.map Prod.fst).Nodup) (k : String) :
    lookupSel (rebuildActivePathFromSelections g).ui.activeSelections k =
      (match lookupSel g.ui.activeSelections k with
      | some v =>
        if (k ∈ walk g.nodes g.edges g.ui.activeSelections
              (g.nodes.length + 1) root.id [] ∧ hasNodeId g.nodes k = true) ∧
            pruneEntry (walk g.nodes g.edges g.ui.activeSelections
              (g.nodes.length + 1) root.id []) g.nodes g.edges v ≠ []
        then some (pruneEntry (walk g.nodes g.edges g.ui.activeSelections
          (g.nodes.length + 1) root.id []) g.nodes g.edges v)
        else none
      | none => none) := by
  rw [rebuild_sels g root hh,
    lookupSel_pruneFold_eq _ _ _ _ [] k hnd]
  cases lookupSel g.ui.activeSelections k with
  | some v => rfl
  | none => rfl

/-- **C3, amended.**  XOR toggle involution holds when the source node's
prior selection set is empty (the entry absent or an empty/blank list):
toggling the edge twice returns the node's selection set to empty.  The
hypotheses ask for a JS-representable selection object (duplicate-free keys),
a non-blank edge id that is not also a node id, and a resolving target — and
the claim's universal form is refuted by the counterexample, where a prior
selection of a *different* edge is destroyed rather than restored. -/
theorem xor_double_toggle_empty (g : Graph) (eid : String) (e : Edge)
    (src : Node) (t : String)
    (hk : (g.ui.activeSelections.map Prod.fst).Nodup)
    (he : findEdge g eid = some e)
    (hht : edgeHasTarget e = true)
    (hsrc : findNode g e.fromId = some src)
    (hxor : normalizeNodeTypeStr src.type = "xor")
    (hne : ¬ eid = "")
    (hcls : hasNodeId g.nodes eid = false)
    (hto : e.toId = some t) (hres : hasNodeId g.nodes t = true)
    (hprior : (lookupSel g.ui.activeSelections src.id).getD [] = []) :
    (lookupSel ((applyTypedEdgeSelection
        (applyTypedEdgeSelection g eid).2 eid).2).ui.activeSelections
      src.id).getD [] = [] := by
  have hid : e.id = eid := findEdge_id g eid e he
  have hedge : hasEdgeId g.edges e.id = true := by
    rw [hasEdgeId]
    exact List.any_eq_true.mpr ⟨e, findEdge_mem g eid e he, decide_eq_true rfl⟩
  have hsrcid : hasNodeId g.nodes src.id = true := by
    rw [hasNodeId]
    exact List.any_eq_true.mpr ⟨src, findNode_mem g e.fromId src hsrc,
      decide_eq_true rfl⟩
  have hclse : ¬ hasNodeId g.nodes e.id = true := by
    rw [hid, hcls]
    simp
  have hcur1 : dedupAppend (((lookupSel g.ui.activeSelections src.id).getD
      []).filter (fun i => i ≠ "")) = [] := by
    rw [hprior]
    rfl
  have ht1 := applyTypedEdgeSelection_xor g eid e src he hht hsrc hxor
  rw [hcur1, if_neg (by simp : ¬ ([] : List String) = [e.id])] at ht1
  obtain ⟨root, hroot⟩ : ∃ root, g.nodes.head? = some root := by
    cases hns : g.nodes with
    | nil =>
      have hmem := findNode_mem g e.fromId src hsrc
      rw [hns] at hmem
      cases hmem
    | cons a l => exact ⟨a, rfl⟩
  have hndS1 : ((setSel g.ui.activeSelections src.id [e.id]).map
      Prod.fst).Nodup := nodupKeys_setSel _ _ _ hk
  have hlookS1 : lookupSel (setSel g.ui.activeSelections src.id [e.id])
      src.id = some [e.id] := by
    rw [lookupSel_setSel, if_pos rfl]
  -- the selection map after the first toggle
  have hlook1 : lookupSel (applyTypedEdgeSelection g eid).2.ui.activeSelections
      src.id =
      (if (src.id ∈ walk g.nodes g.edges
            (setSel g.ui.activeSelections src.id [e.id])
            (g.nodes.length + 1) root.id [] ∧
          hasNodeId g.nodes src.id = true) ∧
          pruneEntry (walk g.nodes g.edges
            (setSel g.ui.activeSelections src.id [e.id])
            (g.nodes.length + 1) root.id []) g.nodes g.edges [e.id] ≠ []
       then some (pruneEntry (walk g.nodes g.edges
          (setSel g.ui.activeSelections src.id [e.id])
          (g.nodes.length + 1) root.id []) g.nodes g.edges [e.id])
       else none) := by
    rw [ht1]
    have hr := rebuild_lookup
      { g with
        ui := { g.ui with
                activeSelections := setSel g.ui.activeSelections src.id [e.id] } }
      root hroot hndS1 src.id
    rw [hr, hlookS1]
  have hsels1 : (applyTypedEdgeSelection g eid).2.ui.activeSelections =
      (setSel g.ui.activeSelections src.id [e.id]).foldl
        (pruneStep (walk g.nodes g.edges
          (setSel g.ui.activeSelections src.id [e.id])
          (g.nodes.length + 1) root.id []) g.nodes g.edges) [] := by
    rw [ht1]
    exact rebuild_sels _ root hroot
  have hndpr1 : ((applyTypedEdgeSelection g eid).2.ui.activeSelections.map
      Prod.fst).Nodup := by
    rw [hsels1]
    exact nodupKeys_pruneFold _ _ _ _ [] (by simp)
  have hg1n : (applyTypedEdgeSelection g eid).2.nodes = g.nodes := by
    rw [ht1]
    rfl
  have hg1e : (applyTypedEdgeSelection g eid).2.edges = g.edges := by
    rw [ht1]
    rfl
  have he2 : findEdge (applyTypedEdgeSelection g eid).2 eid = some e := by
    rw [ht1] at *
    exact he
  have hsrc2 : findNode (applyTypedEdgeSelection g eid).2 e.fromId =
      some src := by
    rw [ht1] at *
    exact hsrc
  have ht2 := applyTypedEdgeSelection_xor (applyTypedEdgeSelection g eid).2
    eid e src he2 hht hsrc2 hxor
  have hroot2 : (applyTypedEdgeSelection g eid).2.nodes.head? = some root := by
    rw [ht1]
    exact hroot
  by_cases hC : (src.id ∈ walk g.nodes g.edges
        (setSel g.ui.activeSelections src.id [e.id])
        (g.nodes.length + 1) root.id [] ∧
      hasNodeId g.nodes src.id = true) ∧
      pruneEntry (walk g.nodes g.edges
        (setSel g.ui.activeSelections src.id [e.id])
        (g.nodes.length + 1) root.id []) g.nodes g.edges [e.id] ≠ []
  · -- the selection survived the first rebuild: second toggle deletes it
    have hval1 : lookupSel
        (applyTypedEdgeSelection g eid).2.ui.activeSelections src.id =
        some [e.id] := by
      rw [hlook1, if_pos hC]
      congr 1
      rw [pruneEntry_single]
      by_cases hcnd : e.id ∈ walk g.nodes g.edges
          (setSel g.ui.activeSelections src.id [e.id])
          (g.nodes.length + 1) root.id [] ∧
          ¬ hasNodeId g.nodes e.id = true ∧ hasEdgeId g.edges e.id = true
      · rw [if_pos hcnd]
      · exact absurd (by rw [pruneEntry_single, if_neg hcnd]) hC.2
    have hne2 : (decide ¬ e.id = "") = true := by
      rw [hid]
      simpa using hne
    have hcur2 : dedupAppend (((lookupSel
        (applyTypedEdgeSelection g eid).2.ui.activeSelections src.id).getD
        []).filter (fun i => i ≠ "")) = [e.id] := by
      rw [hval1]
      show dedupAppend (List.filter (fun i => decide (i ≠ "")) [e.id]) = [e.id]
      rw [List.filter_cons]
      simp only [hne2, if_true, List.filter_nil]
      rfl
    rw [ht2, hcur2, if_pos rfl]
    have hnd2 : ((delSel
        (applyTypedEdgeSelection g eid).2.ui.activeSelections src.id).map
        Prod.fst).Nodup := nodupKeys_delSel _ _ hndpr1
    have hr2 := rebuild_lookup
      { (applyTypedEdgeSelection g eid).2 with
        ui := { (applyTypedEdgeSelection g eid).2.ui with
                activeSelections := delSel (applyTypedEdgeSelection g eid).2.ui.activeSelections src.id } }
      root hroot2 hnd2 src.id
    rw [hr2, lookupSel_delSel, if_pos rfl]
    rfl
  · -- nothing survived the first rebuild: the second toggle re-selects, and
    -- the rebuild prunes again because the walk can only shrink
    have hval1 : lookupSel
        (applyTypedEdgeSelection g eid).2.ui.activeSelections src.id =
        none := by
      rw [hlook1, if_neg hC]
    have hcur2 : dedupAppend (((lookupSel
        (applyTypedEdgeSelection g eid).2.ui.activeSelections src.id).getD
        []).filter (fun i => i ≠ "")) = [] := by
      rw [hval1]
      rfl
    rw [ht2, hcur2, if_neg (by simp : ¬ ([] : List String) = [e.id])]
    have hndS2 : ((setSel
        (applyTypedEdgeSelection g eid).2.ui.activeSelections src.id
        [e.id]).map Prod.fst).Nodup := nodupKeys_setSel _ _ _ hndpr1
    have hr2 := rebuild_lookup
      { (applyTypedEdgeSelection g eid).2 with
        ui := { (applyTypedEdgeSelection g eid).2.ui with
                activeSelections := setSel (applyTypedEdgeSelection g eid).2.ui.activeSelections src.id [e.id] } }
      root hroot2 hndS2 src.id
    have hlookS2 : lookupSel (setSel
        (applyTypedEdgeSelection g eid).2.ui.activeSelections src.id [e.id])
        src.id = some [e.id] := by
      rw [lookupSel_setSel, if_pos rfl]
    -- pointwise inclusion of traversable selections: S2 below S1
    have hpoint : ∀ k x,
        x ∈ effSelList g.nodes g.edges
          (setSel (applyTypedEdgeSelection g eid).2.ui.activeSelections
            src.id [e.id]) k →
        x ∈ effSelList g.nodes g.edges
          (setSel g.ui.activeSelections src.id [e.id]) k := by
      intro k x hx
      by_cases hks : k = src.id
      · subst hks
        rw [effSelList_congr g.nodes g.edges
          (setSel g.ui.activeSelections src.id [e.id])
          (setSel (applyTypedEdgeSelection g eid).2.ui.activeSelections
            src.id [e.id])
          src.id (by rw [hlookS2, hlookS1])] at hx
        exact hx
      · have hlk2 : lookupSel (setSel
            (applyTypedEdgeSelection g eid).2.ui.activeSelections src.id
            [e.id]) k =
            lookupSel (applyTypedEdgeSelection g eid).2.ui.activeSelections
              k := by
          rw [lookupSel_setSel, if_neg hks]
        have hlk1 := rebuild_lookup
          { g with
            ui := { g.ui with
                    activeSelections := setSel g.ui.activeSelections src.id [e.id] } }
          root hroot hndS1 k
        rw [← ht1] at hlk1
        cases hv : lookupSel (setSel g.ui.activeSelections src.id [e.id])
            k with
        | none =>
          rw [hv] at hlk1
          dsimp only at hlk1
          rw [effSelList_nil_of_lookup_none g.nodes g.edges _ k
            (by rw [hlk2, hlk1])] at hx
          cases hx
        | some v =>
          rw [hv] at hlk1
          dsimp only at hlk1
          by_cases hcnd : (k ∈ walk g.nodes g.edges
              (setSel g.ui.activeSelections src.id [e.id])
              (g.nodes.length + 1) root.id [] ∧
              hasNodeId g.nodes k = true) ∧
              pruneEntry (walk g.nodes g.edges
                (setSel g.ui.activeSelections src.id [e.id])
                (g.nodes.length + 1) root.id []) g.nodes g.edges v ≠ []
          case neg =>
            rw [if_neg hcnd] at hlk1
            rw [effSelList_nil_of_lookup_none g.nodes g.edges _ k
              (by rw [hlk2, hlk1])] at hx
            cases hx
          case pos =>
            rw [if_pos hcnd] at hlk1
            cases hnode : lookupNode g.nodes k with
            | none =>
              rw [effSelList, hnode] at hx
              cases hx
            | some node =>
              obtain ⟨hslice, hvalid⟩ := effSel_unpack g.nodes g.edges _ k
                node hnode x hx
              have hxpe : x ∈ pruneEntry (walk g.nodes g.edges
                  (setSel g.ui.activeSelections src.id [e.id])
                  (g.nodes.length + 1) root.id []) g.nodes g.edges v := by
                rw [selSlice, hlk2, hlk1] at hslice
                by_cases hxorn : node.type = "xor"
                · rw [if_pos hxorn] at hslice
                  exact List.take_subset 1 _ (by simpa using hslice)
                · rw [if_neg hxorn] at hslice
                  simpa using hslice
              obtain ⟨hxv, hxP1, hxnn, hxe⟩ := pruneEntry_mem _ _ _ v x hxpe
              rcases walk_provenance g.nodes g.edges
                  (setSel g.ui.activeSelections src.id [e.id])
                  (g.nodes.length + 1) root.id [] x hxP1 with hcontra | ⟨m, hm⟩
              · exact absurd hcontra hxnn
              · cases hnm : lookupNode g.nodes m with
                | none =>
                  rw [effSelList, hnm] at hm
                  cases hm
                | some nodem =>
                  have hvalidm := (effSel_unpack g.nodes g.edges _ m nodem
                    hnm x hm).2
                  obtain ⟨E1, t1, hle1, hf1, -, -⟩ := validEdgeAt_spec
                    g.nodes g.edges m x hvalidm
                  obtain ⟨E2, t2, hle2, hf2, -, -⟩ := validEdgeAt_spec
                    g.nodes g.edges k x hvalid
                  have hE : E1 = E2 := by
                    rw [hle1] at hle2
                    cases hle2
                    rfl
                  have hmk : m = k := by
                    rw [← hf1, hE, hf2]
                  rw [hmk] at hm
                  exact hm
    have hmono := walk_mono g.nodes g.edges
      (setSel g.ui.activeSelections src.id [e.id])
      (setSel (applyTypedEdgeSelection g eid).2.ui.activeSelections src.id
        [e.id]) hpoint (g.nodes.length + 1) root.id []
    rw [hr2, hlookS2]
    dsimp only
    rw [hg1n, hg1e]
    rw [if_neg ?hC2]
    · rfl
    case hC2 =>
      intro hC2
      have hsrcP2 := hC2.1.1
      have heidP2 : e.id ∈ walk g.nodes g.edges
          (setSel (applyTypedEdgeSelection g eid).2.ui.activeSelections
            src.id [e.id]) (g.nodes.length + 1) root.id [] := by
        by_contra hno
        exact hC2.2 (by rw [pruneEntry_single, if_neg (fun hcc => hno hcc.1)])
      apply hC
      refine ⟨⟨hmono src.id hsrcP2, hsrcid⟩, ?_⟩
      rw [pruneEntry_single,
        if_pos ⟨hmono e.id heidP2, hclse, hedge⟩]
      simp


/-- C3 witness graph: `cxXorGraph` with no prior selection at `"S"`. -/
def wTogGraph : Graph :=
  { id := "g", name := "g", version := 1, createdAt := "t", updatedAt := "t",
    nodes := [{ id := "S", x := 0, y := 0, text := "S", type := "xor",
                color := none, buttons := [] },
              { id := "A", x := 0, y := 0, text := "A", type := "xor",
                color := none, buttons := [] },
              { id := "B", x := 0, y := 0, text := "B", type := "xor",
                color := none, buttons := [] }],
    edges := [{ id := "e1", fromId := "S", toId := some "A", buttonId := "b1",
                pendingX := none, pendingY := none },
              { id := "e2", fromId := "S", toId := some "B", buttonId := "b2",
                pendingX := none, pendingY := none }],
    ui := { selectedNodeId := none, activePath := [],
            activeSelections := [] } }

/-- Witness for the amended C3 theorem at `wTogGraph`: the prior selection of
the XOR node `"S"` is empty, and after toggling `"e1"` twice it is empty
again. -/
theorem xor_double_toggle_empty_witness :
    (lookupSel wTogGraph.ui.activeSelections "S").getD [] = [] ∧
    (lookupSel ((applyTypedEdgeSelection
        (applyTypedEdgeSelection wTogGraph "e1").2 "e1").2.ui.activeSelections)
      "S").getD [] = [] := by
  refine ⟨by decide, ?_⟩
  exact xor_double_toggle_empty wTogGraph "e1"
    { id := "e1", fromId := "S", toId := some "A", buttonId := "b1",
      pendingX := none, pendingY := none }
    { id := "S", x := 0, y := 0, text := "S", type := "xor", color := none,
      buttons := [] } "A"
    (by decide) (by decide) (by decide) (by decide) (by decide)
    (by decide) (by decide) (by decide) (by decide) (by decide)

/-! ## C1 — idempotence of the consistency enforcer.

The shadow counterexample (`cxShadowGraph`) shows the enforcer is not
idempotent when an edge id coincides with a node id: the prune step
classifies the traversed edge as a node on the second pass.  The amended
claim therefore assumes pairwise-distinct node ids and edge ids disjoint
from node ids; under them a second pass fixes every component.  -/

theorem dropWhile_shape {alpha : Type} (p : alpha → Bool) :
    ∀ l : List alpha, l.dropWhile p = [] ∨
      ∃ c t, l.dropWhile p = c :: t ∧ p c = false
  | [] => Or.inl rfl
  | a :: l => by
    by_cases hp : p a = true
    · rw [List.dropWhile_cons_of_pos hp]
      exact dropWhile_shape p l
    · rw [List.dropWhile_cons_of_neg hp]
      exact Or.inr ⟨a, l, rfl, Bool.eq_false_iff.mpr hp⟩

theorem dropWhile_idem {alpha : Type} (p : alpha → Bool) (l : List alpha) :
    (l.dropWhile p).dropWhile p = l.dropWhile p := by
  rcases dropWhile_shape p l with h | ⟨c, t, h, hc⟩
  · rw [h]
    rfl
  · rw [h, List.dropWhile_cons_of_neg (by simp [hc])]

/-- JS `trim` is idempotent. -/
theorem jsTrim_idem (s : String) : jsTrim (jsTrim s) = jsTrim s := by
  rcases dropWhile_shape isJsWS s.data with h1 | ⟨c, t, h1, hc⟩
  · rw [jsTrim, jsTrim, h1]
    rfl
  · rw [jsTrim, jsTrim, h1]
    rw [show (c :: t).reverse = t.reverse ++ [c] by simp]
    rw [List.dropWhile_append]
    have hcc : List.dropWhile isJsWS [c] = [c] :=
      List.dropWhile_cons_of_neg (by simp [hc])
    by_cases hemp : (t.reverse.dropWhile isJsWS).isEmpty = true
    · rw [if_pos hemp, hcc]
      simp [List.dropWhile_cons, hc]
    · rw [if_neg hemp]
      rcases dropWhile_shape isJsWS t.reverse with h2 | ⟨d, u, h2, hd⟩
      · rw [h2] at hemp
        simp at hemp
      · rw [h2]
        have hrev : ((d :: u) ++ [c]).reverse.dropWhile isJsWS =
            ((d :: u) ++ [c]).reverse := by
          rw [show ((d :: u) ++ [c]).reverse = c :: (d :: u).reverse by simp]
          exact List.dropWhile_cons_of_neg (by simp [hc])
        rw [hrev]
        rw [show ((d :: u) ++ [c]).reverse.reverse = (d :: u) ++ [c] by simp]
        rw [List.dropWhile_append]
        rw [List.dropWhile_cons_of_neg (by simp [hd])]
        rfl

theorem normalizeNodeTypeStr_or_xor (s : String) :
    normalizeNodeTypeStr s = "or" ∨ normalizeNodeTypeStr s = "xor" := by
  rw [normalizeNodeTypeStr, normalizeNodeType]
  split
  · exact Or.inl rfl
  · exact Or.inr rfl

/-- Branch-type normalization is idempotent. -/
theorem normalizeNodeTypeStr_idem (s : String) :
    normalizeNodeTypeStr (normalizeNodeTypeStr s) = normalizeNodeTypeStr s := by
  rcases normalizeNodeTypeStr_or_xor s with h | h <;> rw [h] <;> decide

theorem isHexLower_bounds (c : Char) (h : isHexLower c = true) :
    48 ≤ c.toNat ∧ c.toNat ≤ 57 ∨ 97 ≤ c.toNat ∧ c.toNat ≤ 102 := by
  rw [isHexLower] at h
  rcases of_decide_eq_true h with ⟨h1, h2⟩ | ⟨h1, h2⟩
  · exact Or.inl ⟨h1, h2⟩
  · exact Or.inr ⟨h1, h2⟩

theorem isHexLower_not_ws (c : Char) (h : isHexLower c = true) :
    isJsWS c = false := by
  have hb := isHexLower_bounds c h
  rw [isJsWS]
  apply decide_eq_false
  rintro (rfl | rfl | rfl | rfl | rfl | rfl) <;>
    exact absurd hb (by decide)

theorem isHexLower_toLower (c : Char) (h : isHexLower c = true) :
    c.toLower = c := by
  have hb := isHexLower_bounds c h
  rw [Char.toLower]
  rw [if_neg (by omega)]

theorem jsTrim_of_no_ws (s : String) (h : ∀ c ∈ s.data, isJsWS c = false) :
    jsTrim s = s := by
  have hfix : ∀ l : List Char, (∀ c ∈ l, isJsWS c = false) →
      l.dropWhile isJsWS = l := by
    intro l hl
    cases l with
    | nil => rfl
    | cons c t =>
      exact List.dropWhile_cons_of_neg
        (by simp [hl c (List.mem_cons_self c t)])
  rw [jsTrim, hfix s.data h,
    hfix s.data.reverse (fun c hcm => h c (List.mem_reverse.mp hcm))]
  simp

theorem jsToLower_of_fixed (s : String)
    (h : ∀ c ∈ s.data, c.toLower = c) : jsToLower s = s := by
  rw [jsToLower]
  rw [List.map_congr_left h]
  simp

theorem matchesHex6_chars (cs : List Char) (h : matchesHex6 cs = true) :
    ∃ rest, cs = '#' :: rest ∧ rest.length = 6 ∧ rest.all isHexLower = true := by
  unfold matchesHex6 at h
  split at h
  · rename_i rest
    have hp := of_decide_eq_true h
    exact ⟨rest, rfl, hp.1, hp.2⟩
  · cases h

theorem matchesHex6_fixes (s : String) (h : matchesHex6 s.data = true) :
    jsToLower (jsTrim s) = s ∧ s ≠ "" := by
  obtain ⟨rest, hcs, hlen, hall⟩ := matchesHex6_chars s.data h
  have hcm : ∀ c ∈ s.data, isHexLower c = true ∨ c = '#' := by
    intro c hc
    rw [hcs] at hc
    rcases List.mem_cons.mp hc with hh | hh
    · exact Or.inr hh
    · exact Or.inl (List.all_eq_true.mp hall c hh)
  have htrim : jsTrim s = s := by
    refine jsTrim_of_no_ws s (fun c hc => ?_)
    rcases hcm c hc with hh | hh
    · exact isHexLower_not_ws c hh
    · rw [hh]
      decide
  have hlow : jsToLower s = s := by
    refine jsToLower_of_fixed s (fun c hc => ?_)
    rcases hcm c hc with hh | hh
    · exact isHexLower_toLower c hh
    · rw [hh]
      decide
  refine ⟨by rw [htrim, hlow], fun hemp => ?_⟩
  rw [hemp] at hcs
  cases hcs

theorem normalizeHexColor_fix (s : String) (h : matchesHex6 s.data = true) :
    normalizeHexColor (vStr s) = some s := by
  obtain ⟨hfix, hne⟩ := matchesHex6_fixes s h
  rw [normalizeHexColor]
  rw [hfix]
  rw [if_neg hne, if_pos h]

theorem normalizeHexColor_some_matches (v : JsVal) (out : String)
    (h : normalizeHexColor v = some out) : matchesHex6 out.data = true := by
  cases v with
  | vStr s =>
    rw [normalizeHexColor] at h
    split at h
    · cases h
    · split at h
      · cases h
        assumption
      · split at h
        · split at h
          · cases h
            rename_i a b c _ _ _
            rw [matchesHex6]
            apply decide_eq_true
            rename_i hex
            have hx := hex
            refine ⟨rfl, ?_⟩
            apply List.all_eq_true.mpr
            intro x hx2
            simp only [List.mem_cons, List.not_mem_nil, or_false] at hx2
            rcases hx2 with rfl | rfl | rfl | rfl | rfl | rfl <;>
              first
                | exact hx.1
                | exact hx.2.1
                | exact hx.2.2
          · cases h
        · cases h
  | vNull => cases h
  | vUndef => cases h
  | vBool b => cases h
  | vNum n => cases h
  | vArr l => cases h
  | vObj fields => cases h

/-- Hex-color normalization is idempotent. -/
theorem normalizeHexColorOpt_idem (c : Option String) :
    normalizeHexColorOpt (normalizeHexColorOpt c) = normalizeHexColorOpt c := by
  cases hc : normalizeHexColorOpt c with
  | none => rfl
  | some out =>
    have hm : matchesHex6 out.data = true := by
      cases c with
      | none => cases hc
      | some s => exact normalizeHexColor_some_matches (vStr s) out hc
    show normalizeHexColor (vStr out) = some out
    exact normalizeHexColor_fix out hm

theorem sanitizeEdge_congr (ns ns' : List Node) (e : Edge)
    (h : ∀ s, hasNodeId ns' s = hasNodeId ns s) :
    sanitizeEdge ns' e = sanitizeEdge ns e := by
  simp only [sanitizeEdge, h]

theorem sanitizeEdge_fix (ns : List Node) (e e' : Edge)
    (h : sanitizeEdge ns e = some e') : sanitizeEdge ns e' = some e' := by
  rw [sanitizeEdge] at h
  split at h
  · rename_i hfrom
    split at h
    · rename_i s hs
      split at h
      · rename_i hne
        split at h
        · rename_i hres
          cases h
          simp only [sanitizeEdge, jsTrim_idem]
          rw [if_pos hfrom, if_pos hne, if_pos hres]
        · cases h
      · cases h
        simp only [sanitizeEdge]
        rw [if_pos hfrom]
    · cases h
      simp only [sanitizeEdge]
      rw [if_pos hfrom]
  · cases h

theorem filterMap_fix {alpha : Type} (f : alpha → Option alpha)
    (h : ∀ a b, f a = some b → f b = some b) :
    ∀ l : List alpha, (l.filterMap f).filterMap f = l.filterMap f
  | [] => rfl
  | a :: l => by
    cases hfa : f a with
    | none =>
      rw [List.filterMap_cons_none hfa]
      exact filterMap_fix f h l
    | some b =>
      rw [List.filterMap_cons_some hfa,
        List.filterMap_cons_some (h a b hfa),
        filterMap_fix f h l]

theorem filterMap_congr_mem {alpha beta : Type} (f g : alpha → Option beta) :
    ∀ l : List alpha, (∀ a ∈ l, f a = g a) →
      l.filterMap f = l.filterMap g
  | [], _ => rfl
  | a :: l, h => by
    have hrest := filterMap_congr_mem f g l
      (fun x hx => h x (List.mem_cons_of_mem a hx))
    cases hfa : f a with
    | none =>
      rw [List.filterMap_cons_none hfa,
        List.filterMap_cons_none ((h a (List.mem_cons_self a l)).symm.trans hfa),
        hrest]
    | some b =>
      rw [List.filterMap_cons_some hfa,
        List.filterMap_cons_some ((h a (List.mem_cons_self a l)).symm.trans hfa),
        hrest]

/-- A second sanitation pass keeps every surviving edge unchanged. -/
theorem sanitizeEdges_idem (ns : List Node) (es : List Edge) :
    sanitizeEdges ns (sanitizeEdges ns es) = sanitizeEdges ns es := by
  simp only [sanitizeEdges]
  exact filterMap_fix (sanitizeEdge ns) (sanitizeEdge_fix ns) es

theorem sanitizeEdges_congr (ns ns' : List Node) (es : List Edge)
    (h : ∀ s, hasNodeId ns' s = hasNodeId ns s) :
    sanitizeEdges ns' es = sanitizeEdges ns es := by
  simp only [sanitizeEdges]
  exact filterMap_congr_mem _ _ es (fun e _ => sanitizeEdge_congr ns ns' e h)

theorem sanitizeEdge_id (ns : List Node) (e e' : Edge)
    (h : sanitizeEdge ns e = some e') : e'.id = e.id := by
  rw [sanitizeEdge] at h
  split at h
  · split at h
    · split at h
      · split at h
        · cases h
          rfl
        · cases h
      · cases h
        rfl
    · cases h
      rfl
  · cases h

theorem hasEdgeId_sanitize (ns : List Node) (es : List Edge) (x : String)
    (h : hasEdgeId (sanitizeEdges ns es) x = true) : hasEdgeId es x = true := by
  rw [hasEdgeId] at h ⊢
  obtain ⟨e', hm, hid⟩ := List.any_eq_true.mp h
  obtain ⟨e, hme, hse⟩ := List.mem_filterMap.mp hm
  refine List.any_eq_true.mpr ⟨e, hme, ?_⟩
  rw [decide_eq_true_eq] at hid ⊢
  rw [← sanitizeEdge_id ns e e' hse]
  exact hid

/-! ### Decomposing the button-mirroring fold -/

theorem mirrorStep_ids_mono (B : List Button) (e : Edge) (x : String)
    (h : x ∈ B.map Button.id) : x ∈ (mirrorStep B e).map Button.id := by
  rw [mirrorStep]
  cases hu : updateLastButton e.buttonId (mirrorUpd (mirrorTo e)) B with
  | some B' =>
    rw [updateLastButton_map_id _ _ (mirrorUpd_id _) B B' hu]
    exact h
  | none =>
    rw [List.map_append]
    exact List.mem_append_left _ h

theorem mirrorStep_ids_sub (B : List Button) (e : Edge) (x : String)
    (h : x ∈ (mirrorStep B e).map Button.id) :
    x ∈ B.map Button.id ∨ x = e.buttonId := by
  rw [mirrorStep] at h
  cases hu : updateLastButton e.buttonId (mirrorUpd (mirrorTo e)) B with
  | some B' =>
    rw [hu] at h
    rw [updateLastButton_map_id _ _ (mirrorUpd_id _) B B' hu] at h
    exact Or.inl h
  | none =>
    rw [hu, List.map_append] at h
    rcases List.mem_append.mp h with h1 | h1
    · exact Or.inl h1
    · simp only [List.map_cons, List.map_nil, List.mem_singleton] at h1
      exact Or.inr h1

theorem mirrorFold_ids_mono :
    ∀ (L : List Edge) (B : List Button) (x : String), x ∈ B.map Button.id →
      x ∈ (L.foldl mirrorStep B).map Button.id
  | [], _, _, h => h
  | e :: L', B, x, h => by
    rw [List.foldl_cons]
    exact mirrorFold_ids_mono L' (mirrorStep B e) x (mirrorStep_ids_mono B e x h)

theorem mirrorFold_ids_sub :
    ∀ (L : List Edge) (B : List Button) (x : String),
      x ∈ (L.foldl mirrorStep B).map Button.id →
      x ∈ B.map Button.id ∨ ∃ e ∈ L, x = e.buttonId
  | [], _, _, h => Or.inl h
  | e :: L', B, x, h => by
    rw [List.foldl_cons] at h
    rcases mirrorFold_ids_sub L' (mirrorStep B e) x h with h1 | ⟨e', he', hb⟩
    · rcases mirrorStep_ids_sub B e x h1 with h2 | h2
      · exact Or.inl h2
      · exact Or.inr ⟨e, List.mem_cons_self e L', h2⟩
    · exact Or.inr ⟨e', List.mem_cons_of_mem e he', hb⟩

theorem mirrorStep_cons_skip (b : Button) (rest : List Button) (e : Edge)
    (h : e.buttonId = b.id → b.id ∈ rest.map Button.id) :
    mirrorStep (b :: rest) e = b :: mirrorStep rest e := by
  rw [mirrorStep, mirrorStep, updateLastButton]
  cases hu : updateLastButton e.buttonId (mirrorUpd (mirrorTo e)) rest with
  | some rest2 => rfl
  | none =>
    have hnb : ¬ b.id = e.buttonId := by
      intro hb
      obtain ⟨b', hb', hbid⟩ := List.mem_map.mp (h hb.symm)
      exact (updateLastButton_none_iff _ _ rest).mp hu b' hb' (hbid.trans hb)
    dsimp only
    rw [if_neg hnb]
    rfl

theorem mirrorStep_cons_absorb (b : Button) (rest : List Button) (e : Edge)
    (hb : e.buttonId = b.id) (hnot : b.id ∉ rest.map Button.id) :
    mirrorStep (b :: rest) e = mirrorUpd (mirrorTo e) b :: rest := by
  rw [mirrorStep, updateLastButton]
  have hu : updateLastButton e.buttonId (mirrorUpd (mirrorTo e)) rest = none := by
    rw [updateLastButton_none_iff]
    intro x hx hxid
    exact hnot ((hxid.trans hb) ▸ List.mem_map_of_mem Button.id hx)
  rw [hu, if_pos hb.symm]

theorem mirrorFold_cons_skip :
    ∀ (L : List Edge) (b : Button) (rest : List Button),
      b.id ∈ rest.map Button.id →
      L.foldl mirrorStep (b :: rest) = b :: L.foldl mirrorStep rest
  | [], _, _, _ => rfl
  | e :: L', b, rest, h => by
    rw [List.foldl_cons, List.foldl_cons,
      mirrorStep_cons_skip b rest e (fun _ => h)]
    exact mirrorFold_cons_skip L' b (mirrorStep rest e)
      (mirrorStep_ids_mono rest e _ h)

/-- The net effect on a single button of the updates of a run of edges. -/
def updsOf (b : Button) (M : List Edge) : Button :=
  M.foldl (fun bb e => mirrorUpd (mirrorTo e) bb) b

theorem mirrorUpd_mirrorUpd (m m' : Option String) (b : Button) :
    mirrorUpd m (mirrorUpd m' b) = mirrorUpd m b := by
  rw [mirrorUpd, mirrorUpd, mirrorUpd]
  by_cases h : b.text = "" <;> simp [h]

theorem updsOf_cons (b : Button) (e : Edge) (M : List Edge) :
    updsOf b (e :: M) = updsOf (mirrorUpd (mirrorTo e) b) M := rfl

theorem updsOf_shape :
    ∀ (M : List Edge), M ≠ [] → ∃ m, ∀ b, updsOf b M = mirrorUpd m b
  | [], h => absurd rfl h
  | e :: M', _ => by
    by_cases hM : M' = []
    · subst hM
      exact ⟨mirrorTo e, fun b => rfl⟩
    · obtain ⟨m, hm⟩ := updsOf_shape M' hM
      refine ⟨m, fun b => ?_⟩
      rw [updsOf_cons, hm (mirrorUpd (mirrorTo e) b), mirrorUpd_mirrorUpd]

theorem updsOf_id : ∀ (M : List Edge) (b : Button), (updsOf b M).id = b.id
  | [], _ => rfl
  | e :: M', b => by
    rw [updsOf_cons, updsOf_id M' (mirrorUpd (mirrorTo e) b)]
    rfl

theorem mirrorFold_cons_absorb :
    ∀ (L : List Edge) (beta : String) (b : Button) (rest : List Button),
      b.id = beta → beta ∉ rest.map Button.id →
      L.foldl mirrorStep (b :: rest) =
        updsOf b (L.filter (fun e => e.buttonId = beta)) ::
          (L.filter (fun e => ¬ e.buttonId = beta)).foldl mirrorStep rest
  | [], _, _, _, _, _ => rfl
  | e :: L', beta, b, rest, hid, hnot => by
    rw [List.foldl_cons]
    by_cases hbe : e.buttonId = beta
    · rw [mirrorStep_cons_absorb b rest e (hbe.trans hid.symm)
        (hid ▸ hnot)]
      rw [mirrorFold_cons_absorb L' beta (mirrorUpd (mirrorTo e) b) rest
        hid hnot]
      rw [List.filter_cons_of_pos (by simp [hbe]),
        List.filter_cons_of_neg (by simp [hbe])]
      rw [updsOf_cons]
    · rw [mirrorStep_cons_skip b rest e
        (fun hh => absurd (hh.trans hid) hbe)]
      rw [mirrorFold_cons_absorb L' beta b (mirrorStep rest e) hid ?hstep]
      case hstep =>
        intro hmem
        rcases mirrorStep_ids_sub rest e beta hmem with h2 | h2
        · exact hnot h2
        · exact hbe h2.symm
      rw [List.filter_cons_of_neg (by simp [hbe]),
        List.filter_cons_of_pos (by simp [hbe]),
        List.foldl_cons]

theorem anyId_filter_ne :
    ∀ (L : List Edge) (beta x : String), ¬ x = beta →
      L.any (fun e => e.buttonId = x) =
        (L.filter (fun e => ¬ e.buttonId = beta)).any (fun e => e.buttonId = x)
  | [], _, _, _ => rfl
  | e :: L', beta, x, hx => by
    by_cases hbe : e.buttonId = beta
    · rw [List.filter_cons_of_neg (by simp [hbe]), List.any_cons]
      have hf : (decide (e.buttonId = x)) = false :=
        decide_eq_false (fun hh => hx (hh.symm.trans hbe))
      rw [hf, Bool.false_or]
      exact anyId_filter_ne L' beta x hx
    · rw [List.filter_cons_of_pos (by simp [hbe]), List.any_cons, List.any_cons,
        anyId_filter_ne L' beta x hx]

theorem mem_ids_filter (p : Button → Bool) (X : List Button) (x : String)
    (h : x ∈ (X.filter p).map Button.id) : x ∈ X.map Button.id := by
  obtain ⟨b, hb, hid⟩ := List.mem_map.mp h
  exact hid ▸ List.mem_map_of_mem Button.id (List.mem_of_mem_filter hb)

theorem mem_ids_filter_keep (L : List Edge) (X : List Button) (x : String)
    (hx : x ∈ X.map Button.id) (hk : L.any (fun e => e.buttonId = x) = true) :
    x ∈ (X.filter (fun b => L.any (fun e => e.buttonId = b.id))).map
      Button.id := by
  obtain ⟨b, hb, hid⟩ := List.mem_map.mp hx
  refine hid ▸ List.mem_map_of_mem Button.id (List.mem_filter.mpr ⟨hb, ?_⟩)
  rw [hid]
  exact hk

theorem filter_keep_congr (L M : List Edge) (beta : String) (X : List Button)
    (hids : ∀ x ∈ X.map Button.id, ¬ x = beta)
    (hany : ∀ x, ¬ x = beta →
      (L.any (fun e => e.buttonId = x)) = (M.any (fun e => e.buttonId = x))) :
    X.filter (fun b2 => L.any (fun e => e.buttonId = b2.id)) =
      X.filter (fun b2 => M.any (fun e => e.buttonId = b2.id)) :=
  List.filter_congr (fun b2 hb2 =>
    hany b2.id (hids b2.id (List.mem_map_of_mem Button.id hb2)))

/-- The button list produced by one mirroring pass (mirror fold followed by
the backing filter) is a fixpoint of a second pass. -/
theorem mirrorFold_filter_fix :
    ∀ (B : List Button) (L : List Edge),
      (L.foldl mirrorStep ((L.foldl mirrorStep B).filter
          (fun b => L.any (fun e => e.buttonId = b.id)))).filter
        (fun b => L.any (fun e => e.buttonId = b.id)) =
      (L.foldl mirrorStep B).filter (fun b => L.any (fun e => e.buttonId = b.id))
  | b :: rest, L => by
    by_cases hin : b.id ∈ rest.map Button.id
    · rw [mirrorFold_cons_skip L b rest hin]
      rw [List.filter_cons]
      by_cases hkeep : L.any (fun e => e.buttonId = b.id) = true
      · rw [if_pos hkeep]
        have hbin2 : b.id ∈ ((L.foldl mirrorStep rest).filter
            (fun b2 => L.any (fun e => e.buttonId = b2.id))).map Button.id :=
          mem_ids_filter_keep L _ b.id (mirrorFold_ids_mono L rest b.id hin)
            hkeep
        rw [mirrorFold_cons_skip L b _ hbin2]
        rw [List.filter_cons, if_pos hkeep]
        rw [mirrorFold_filter_fix rest L]
      · rw [if_neg hkeep]
        exact mirrorFold_filter_fix rest L
    · rw [mirrorFold_cons_absorb L b.id b rest rfl hin]
      by_cases hkeep : L.any (fun e => e.buttonId = b.id) = true
      case neg =>
        have hLb : L.filter (fun e => e.buttonId = b.id) = [] := by
          rw [List.filter_eq_nil_iff]
          intro e he
          simp only [decide_eq_true_eq]
          intro hh
          exact hkeep (List.any_eq_true.mpr ⟨e, he, decide_eq_true hh⟩)
        have hLne : L.filter (fun e => ¬ e.buttonId = b.id) = L := by
          rw [List.filter_eq_self]
          intro e he
          simp only [decide_eq_true_eq]
          intro hh
          exact hkeep (List.any_eq_true.mpr ⟨e, he, decide_eq_true hh⟩)
        rw [hLb, hLne]
        simp only [updsOf, List.foldl_nil]
        rw [List.filter_cons, if_neg hkeep]
        exact mirrorFold_filter_fix rest L
      case pos =>
        have hLbne : L.filter (fun e => e.buttonId = b.id) ≠ [] := by
          obtain ⟨e, he, hbe⟩ := List.any_eq_true.mp hkeep
          intro hnil
          have hmm : e ∈ L.filter (fun e => e.buttonId = b.id) :=
            List.mem_filter.mpr ⟨he, hbe⟩
          rw [hnil] at hmm
          cases hmm
        obtain ⟨m, hm⟩ := updsOf_shape _ hLbne
        have hkeepstar : L.any (fun e => e.buttonId =
            (updsOf b (L.filter (fun e => e.buttonId = b.id))).id) = true := by
          rw [updsOf_id]
          exact hkeep
        rw [List.filter_cons, if_pos hkeepstar]
        have hidsX : ∀ x ∈ ((L.filter (fun e => ¬ e.buttonId = b.id)).foldl
            mirrorStep rest).map Button.id, ¬ x = b.id := by
          intro x hmem hxb
          subst hxb
          rcases mirrorFold_ids_sub _ rest _ hmem with h1 | ⟨e2, he2, hb2⟩
          · exact hin h1
          · have hp := List.of_mem_filter he2
            rw [decide_eq_true_eq] at hp
            exact hp hb2.symm
        have hnotstar : b.id ∉ (((L.filter (fun e => ¬ e.buttonId = b.id)).foldl
            mirrorStep rest).filter
              (fun b2 => L.any (fun e => e.buttonId = b2.id))).map Button.id :=
          fun hmem => (hidsX b.id (mem_ids_filter _ _ b.id hmem)) rfl
        rw [mirrorFold_cons_absorb L b.id
          (updsOf b (L.filter (fun e => e.buttonId = b.id))) _
          (updsOf_id _ b) hnotstar]
        have hbstarfix : updsOf (updsOf b (L.filter
            (fun e => e.buttonId = b.id))) (L.filter
              (fun e => e.buttonId = b.id)) =
            updsOf b (L.filter (fun e => e.buttonId = b.id)) := by
          rw [hm (updsOf b (L.filter (fun e => e.buttonId = b.id))), hm b,
            mirrorUpd_mirrorUpd]
        rw [hbstarfix]
        rw [List.filter_cons, if_pos hkeepstar]
        have hXc : ((L.filter (fun e => ¬ e.buttonId = b.id)).foldl
              mirrorStep rest).filter
            (fun b2 => L.any (fun e => e.buttonId = b2.id)) =
            ((L.filter (fun e => ¬ e.buttonId = b.id)).foldl
              mirrorStep rest).filter
            (fun b2 => (L.filter (fun e => ¬ e.buttonId = b.id)).any
              (fun e => e.buttonId = b2.id)) :=
          filter_keep_congr L _ b.id _ hidsX
            (fun x hx => anyId_filter_ne L b.id x hx)
        rw [hXc]
        have hidsY : ∀ x ∈ ((L.filter (fun e => ¬ e.buttonId = b.id)).foldl
            mirrorStep (((L.filter (fun e => ¬ e.buttonId = b.id)).foldl
              mirrorStep rest).filter
            (fun b2 => (L.filter (fun e => ¬ e.buttonId = b.id)).any
              (fun e => e.buttonId = b2.id)))).map Button.id, ¬ x = b.id := by
          intro x hmem hxb
          subst hxb
          rcases mirrorFold_ids_sub _ _ _ hmem with h1 | ⟨e2, he2, hb2⟩
          · exact hidsX _ (mem_ids_filter _ _ _ h1) rfl
          · have hp := List.of_mem_filter he2
            rw [decide_eq_true_eq] at hp
            exact hp hb2.symm
        have hYc := filter_keep_congr L
          (L.filter (fun e => ¬ e.buttonId = b.id)) b.id _ hidsY
          (fun x hx => anyId_filter_ne L b.id x hx)
        rw [hYc]
        rw [mirrorFold_filter_fix rest (L.filter (fun e => ¬ e.buttonId = b.id))]
  | [], [] => rfl
  | [], e :: L' => by
    rw [List.foldl_cons, List.foldl_cons]
    have hstep : mirrorStep [] e =
        [{ id := e.buttonId, text := "Choice", toId := mirrorTo e }] := rfl
    rw [hstep]
    rw [mirrorFold_cons_absorb L' e.buttonId
      { id := e.buttonId, text := "Choice", toId := mirrorTo e } [] rfl
      (List.not_mem_nil _)]
    have hkeepstar : (e :: L').any (fun e2 => e2.buttonId =
        (updsOf { id := e.buttonId, text := "Choice", toId := mirrorTo e }
          (L'.filter (fun e2 => e2.buttonId = e.buttonId))).id) = true := by
      rw [updsOf_id]
      exact List.any_cons .. ▸ by simp
    rw [List.filter_cons, if_pos hkeepstar]
    have hidsX : ∀ x ∈ ((L'.filter (fun e2 => ¬ e2.buttonId = e.buttonId)).foldl
        mirrorStep []).map Button.id, ¬ x = e.buttonId := by
      intro x hmem hxb
      subst hxb
      rcases mirrorFold_ids_sub _ [] _ hmem with h1 | ⟨e2, he2, hb2⟩
      · cases h1
      · have hp := List.of_mem_filter he2
        rw [decide_eq_true_eq] at hp
        exact hp hb2.symm
    have hnotstar : e.buttonId ∉
        (((L'.filter (fun e2 => ¬ e2.buttonId = e.buttonId)).foldl
          mirrorStep []).filter
            (fun b2 => (e :: L').any (fun e2 => e2.buttonId = b2.id))).map
          Button.id :=
      fun hmem => (hidsX _ (mem_ids_filter _ _ _ hmem)) rfl
    rw [mirrorStep_cons_absorb _ _ e
      (updsOf_id (L'.filter (fun e2 => e2.buttonId = e.buttonId))
        { id := e.buttonId, text := "Choice", toId := mirrorTo e }).symm
      (by rw [updsOf_id]; exact hnotstar)]
    rw [mirrorFold_cons_absorb L' e.buttonId _ _
      ((mirrorUpd_id _ _).trans (updsOf_id _ _)) hnotstar]
    have hhead : updsOf (mirrorUpd (mirrorTo e)
        (updsOf { id := e.buttonId, text := "Choice", toId := mirrorTo e }
          (L'.filter (fun e2 => e2.buttonId = e.buttonId))))
        (L'.filter (fun e2 => e2.buttonId = e.buttonId)) =
        updsOf { id := e.buttonId, text := "Choice", toId := mirrorTo e }
          (L'.filter (fun e2 => e2.buttonId = e.buttonId)) := by
      by_cases hLb : L'.filter (fun e2 => e2.buttonId = e.buttonId) = []
      · rw [hLb]
        simp only [updsOf, List.foldl_nil]
        rw [mirrorUpd]
        simp
      · obtain ⟨m, hm⟩ := updsOf_shape _ hLb
        rw [hm, mirrorUpd_mirrorUpd, hm, mirrorUpd_mirrorUpd]
    rw [hhead]
    rw [List.filter_cons, if_pos hkeepstar]
    have hanyc : ∀ x, ¬ x = e.buttonId →
        ((e :: L').any (fun e2 => e2.buttonId = x)) =
          ((L'.filter (fun e2 => ¬ e2.buttonId = e.buttonId)).any
            (fun e2 => e2.buttonId = x)) := by
      intro x hx
      rw [List.any_cons]
      have hf : (decide (e.buttonId = x)) = false :=
        decide_eq_false (fun hh => hx hh.symm)
      rw [hf, Bool.false_or]
      exact anyId_filter_ne L' e.buttonId x hx
    have hXc := filter_keep_congr (e :: L')
      (L'.filter (fun e2 => ¬ e2.buttonId = e.buttonId)) e.buttonId _
      hidsX hanyc
    rw [hXc]
    have hidsY : ∀ x ∈ ((L'.filter (fun e2 => ¬ e2.buttonId =
        e.buttonId)).foldl mirrorStep
          (((L'.filter (fun e2 => ¬ e2.buttonId = e.buttonId)).foldl
            mirrorStep []).filter
          (fun b2 => (L'.filter (fun e2 => ¬ e2.buttonId = e.buttonId)).any
            (fun e2 => e2.buttonId = b2.id)))).map Button.id,
        ¬ x = e.buttonId := by
      intro x hmem hxb
      subst hxb
      rcases mirrorFold_ids_sub _ _ _ hmem with h1 | ⟨e2, he2, hb2⟩
      · exact hidsX _ (mem_ids_filter _ _ _ h1) rfl
      · have hp := List.of_mem_filter he2
        rw [decide_eq_true_eq] at hp
        exact hp hb2.symm
    have hYc := filter_keep_congr (e :: L')
      (L'.filter (fun e2 => ¬ e2.buttonId = e.buttonId)) e.buttonId _
      hidsY hanyc
    rw [hYc]
    rw [mirrorFold_filter_fix []
      (L'.filter (fun e2 => ¬ e2.buttonId = e.buttonId))]
termination_by B L => (B.length, L.length)
decreasing_by
  all_goals simp_wf
  all_goals first
    | exact Prod.Lex.left _ _ (by omega)
    | exact Prod.Lex.right _ (Nat.lt_succ_of_le (List.length_filter_le _ _))

/-- A second mirroring pass leaves a mirrored node unchanged. -/
theorem mirrorNode_idem (es : List Edge) (n : Node) :
    mirrorNode es (mirrorNode es n) = mirrorNode es n := by
  obtain ⟨i, x, y, t, ty, co, bs⟩ := n
  simp [mirrorNode, Node.mk.injEq, normalizeNodeTypeStr_idem,
    normalizeHexColorOpt_idem]
  have hpred : (fun b : Button => es.any fun a =>
      decide (a.fromId = i) && decide (a.buttonId = b.id)) =
      (fun b : Button => (es.filter (fun e => e.fromId = i)).any
        (fun e => e.buttonId = b.id)) := by
    funext b
    rw [List.any_filter]
  rw [hpred]
  exact mirrorFold_filter_fix bs _

theorem enforce_edges_fix (g : Graph) :
    sanitizeEdges (enforceGraphConsistency g).nodes
      (enforceGraphConsistency g).edges = (enforceGraphConsistency g).edges := by
  rw [enforce_nodes, enforce_edges]
  rw [sanitizeEdges_congr g.nodes _ _
    (hasNodeId_map_mirror g.nodes (sanitizeEdges g.nodes g.edges))]
  exact sanitizeEdges_idem g.nodes g.edges

theorem enforce_nodes_fix (g : Graph) :
    (enforceGraphConsistency g).nodes.map
      (mirrorNode (sanitizeEdges (enforceGraphConsistency g).nodes
        (enforceGraphConsistency g).edges)) =
      (enforceGraphConsistency g).nodes := by
  rw [enforce_edges_fix, enforce_nodes, enforce_edges, List.map_map]
  exact List.map_congr_left (fun n _ => mirrorNode_idem _ n)

/-! ### Closed forms for the selection folds -/

theorem lookupSel_of_mem_nodup :
    ∀ (s : Selections) (k : String) (v : List String),
      (s.map Prod.fst).Nodup → (k, v) ∈ s → lookupSel s k = some v
  | [], _, _, _, hm => absurd hm (List.not_mem_nil _)
  | e :: rest, k, v, hnd, hm => by
    rw [lookupSel_cons]
    rw [List.map_cons, List.nodup_cons] at hnd
    rcases List.mem_cons.mp hm with h | h
    · rw [← h, if_pos rfl]
    · by_cases hek : e.1 = k
      · exfalso
        apply hnd.1
        rw [hek]
        exact List.mem_map_of_mem Prod.fst h
      · rw [if_neg hek]
        exact lookupSel_of_mem_nodup rest k v hnd.2 h

theorem lookupSel_mem (s : Selections) (k : String) (v : List String)
    (h : lookupSel s k = some v) : (k, v) ∈ s := by
  rw [lookupSel] at h
  cases hf : List.find? (fun e : String × List String => decide (e.1 = k)) s with
  | none =>
    rw [hf] at h
    cases h
  | some e =>
    rw [hf] at h
    cases h
    have hp := List.find?_some hf
    have hk := of_decide_eq_true hp
    have hmem := List.mem_of_find?_eq_some hf
    rw [← hk]
    exact hmem

theorem setSel_append_fresh :
    ∀ (s : Selections) (k : String) (v : List String),
      k ∉ s.map Prod.fst → setSel s k v = s ++ [(k, v)]
  | [], _, _, _ => rfl
  | e :: rest, k, v, h => by
    rw [setSel]
    simp only [List.map_cons, List.mem_cons] at h
    push_neg at h
    rw [if_neg (fun hh => h.1 hh.symm)]
    rw [setSel_append_fresh rest k v h.2]
    rfl

theorem foldl_pushIf (P : String → Prop) [DecidablePred P] :
    ∀ (v acc : List String), (∀ x ∈ v, x ∉ acc) → v.Nodup →
      v.foldl (fun acc2 x => if P x ∧ x ∉ acc2 then acc2 ++ [x] else acc2)
        acc = acc ++ v.filter (fun x => decide (P x))
  | [], acc, _, _ => by simp
  | x :: rest, acc, hdis, hnd => by
    rw [List.foldl_cons]
    rw [List.nodup_cons] at hnd
    by_cases hP : P x
    · rw [if_pos ⟨hP, hdis x (List.mem_cons_self x rest)⟩]
      rw [foldl_pushIf P rest (acc ++ [x]) ?hd hnd.2]
      case hd =>
        intro y hy
        simp only [List.mem_append, List.mem_singleton]
        push_neg
        exact ⟨hdis y (List.mem_cons_of_mem x hy),
          fun hh => hnd.1 (hh ▸ hy)⟩
      simp [List.filter_cons, hP]
    · rw [if_neg (fun hc => hP hc.1)]
      rw [foldl_pushIf P rest acc
        (fun y hy => hdis y (List.mem_cons_of_mem x hy)) hnd.2]
      simp [List.filter_cons, hP]

theorem foldl_pushIf_nodup (P : String → Prop) [DecidablePred P] :
    ∀ (v acc : List String), acc.Nodup →
      (v.foldl (fun acc2 x => if P x ∧ x ∉ acc2 then acc2 ++ [x] else acc2)
        acc).Nodup
  | [], _, h => h
  | x :: rest, acc, h => by
    rw [List.foldl_cons]
    refine foldl_pushIf_nodup P rest _ ?_
    by_cases hc : P x ∧ x ∉ acc
    · rw [if_pos hc]
      simp [List.nodup_append, h, hc.2]
    · rw [if_neg hc]
      exact h

theorem lookupNode_none_of_not (ns : List Node) (k : String)
    (h : hasNodeId ns k = false) : lookupNode ns k = none := by
  cases hl : lookupNode ns k with
  | none => rfl
  | some n =>
    rw [hasNodeId_of_lookupNode ns k n hl] at h
    cases h

theorem lookupNode_eq_of_nodup (ns : List Node) (n : Node)
    (hnd : (ns.map Node.id).Nodup) (hm : n ∈ ns) :
    lookupNode ns n.id = some n := by
  have hhas : hasNodeId ns n.id = true := by
    rw [hasNodeId]
    exact List.any_eq_true.mpr ⟨n, hm, decide_eq_true rfl⟩
  obtain ⟨m, hlm, hmid⟩ := lookupNode_of_hasNodeId ns n.id hhas
  have hmm : m ∈ ns := lookupNode_mem ns n.id m hlm
  have hmn : m = n := List.inj_on_of_nodup_map hnd hmm hm hmid
  rw [hlm, hmn]

theorem normFold_filterMap (nodes : List Node) (edges : List Edge)
    (src : Selections) :
    ∀ (ns : List Node) (acc : Selections), (ns.map Node.id).Nodup →
      (∀ n ∈ ns, n.id ∉ acc.map Prod.fst) →
      ns.foldl (normalizeSelStep nodes edges src) acc =
        acc ++ ns.filterMap (fun n =>
          if normalizeNodeSelection nodes edges src n ≠ []
          then some (n.id, normalizeNodeSelection nodes edges src n)
          else none)
  | [], acc, _, _ => by simp
  | n :: rest, acc, hnd, hacc => by
    rw [List.foldl_cons]
    rw [List.map_cons, List.nodup_cons] at hnd
    by_cases hu : normalizeNodeSelection nodes edges src n = []
    · rw [List.filterMap_cons_none (by rw [if_neg (by simpa using hu)])]
      rw [show normalizeSelStep nodes edges src acc n = acc by
        simp only [normalizeSelStep]
        rw [if_neg (by simpa using hu)]]
      exact normFold_filterMap nodes edges src rest acc hnd.2
        (fun n2 h2 => hacc n2 (List.mem_cons_of_mem n h2))
    · rw [List.filterMap_cons_some (by rw [if_pos (by simpa using hu)])]
      rw [show normalizeSelStep nodes edges src acc n =
          acc ++ [(n.id, normalizeNodeSelection nodes edges src n)] by
        simp only [normalizeSelStep]
        rw [if_pos (by simpa using hu)]
        exact setSel_append_fresh acc n.id _
          (hacc n (List.mem_cons_self n rest))]
      rw [normFold_filterMap nodes edges src rest _ hnd.2 ?hfresh]
      case hfresh =>
        intro n2 h2
        simp only [List.map_append, List.map_cons, List.map_nil,
          List.mem_append, List.mem_singleton]
        push_neg
        exact ⟨fun hh => hacc n2 (List.mem_cons_of_mem n h2) hh,
          fun hh => hnd.1 (hh ▸ List.mem_map_of_mem Node.id h2)⟩
      simp

theorem pruneFold_filterMap (path : List String) (nodes : List Node)
    (edges : List Edge) :
    ∀ (sels acc : Selections), (sels.map Prod.fst).Nodup →
      (∀ kv ∈ sels, kv.1 ∉ acc.map Prod.fst) →
      sels.foldl (pruneStep path nodes edges) acc =
        acc ++ sels.filterMap (fun kv =>
          if kv.1 ∈ path ∧ hasNodeId nodes kv.1 then
            (if pruneEntry path nodes edges kv.2 ≠ []
             then some (kv.1, pruneEntry path nodes edges kv.2) else none)
          else none)
  | [], acc, _, _ => by simp
  | kv :: rest, acc, hnd, hacc => by
    rw [List.foldl_cons]
    rw [List.map_cons, List.nodup_cons] at hnd
    by_cases hc : kv.1 ∈ path ∧ hasNodeId nodes kv.1 = true
    · by_cases hp : pruneEntry path nodes edges kv.2 = []
      · rw [List.filterMap_cons_none
          (by rw [if_pos hc, if_neg (by simpa using hp)])]
        rw [show pruneStep path nodes edges acc kv = acc by
          simp only [pruneStep]
          rw [if_pos hc, if_neg (by simpa using hp)]]
        exact pruneFold_filterMap path nodes edges rest acc hnd.2
          (fun kv2 h2 => hacc kv2 (List.mem_cons_of_mem kv h2))
      · rw [List.filterMap_cons_some
          (by rw [if_pos hc, if_pos (by simpa using hp)])]
        rw [show pruneStep path nodes edges acc kv =
            acc ++ [(kv.1, pruneEntry path nodes edges kv.2)] by
          simp only [pruneStep]
          rw [if_pos hc, if_pos (by simpa using hp)]
          exact setSel_append_fresh acc kv.1 _
            (hacc kv (List.mem_cons_self kv rest))]
        rw [pruneFold_filterMap path nodes edges rest _ hnd.2 ?hfresh]
        case hfresh =>
          intro kv2 h2
          simp only [List.map_append, List.map_cons, List.map_nil,
            List.mem_append, List.mem_singleton]
          push_neg
          exact ⟨fun hh => hacc kv2 (List.mem_cons_of_mem kv h2) hh,
            fun hh => hnd.1 (hh ▸ List.mem_map_of_mem Prod.fst h2)⟩
        simp
    · rw [List.filterMap_cons_none (by rw [if_neg hc])]
      rw [show pruneStep path nodes edges acc kv = acc by
        simp only [pruneStep]
        rw [if_neg hc]]
      exact pruneFold_filterMap path nodes edges rest acc hnd.2
        (fun kv2 h2 => hacc kv2 (List.mem_cons_of_mem kv h2))

/-- The valid outgoing edge ids a node's selection is filtered against in the
selection-map rebuild (the `validEdgeIds` let of src/app.js:966-972). -/
def validEdgeIds (nodes : List Node) (edges : List Edge) (n : Node) :
    List String :=
  ((edges.filter (fun e => e.fromId = n.id)).filter (fun e =>
      match e.toId with
      | some t => t ≠ "" ∧ hasNodeId nodes t
      | none => false)).map (fun e => e.id)

theorem nns_unfold (nodes : List Node) (edges : List Edge)
    (src : Selections) (n : Node) :
    normalizeNodeSelection nodes edges src n =
      if n.type = "xor" ∧ (((lookupSel src n.id).getD []).foldl
          (fun acc eid => if eid ∈ validEdgeIds nodes edges n ∧ eid ∉ acc
            then acc ++ [eid] else acc) []).length > 1
      then (((lookupSel src n.id).getD []).foldl
          (fun acc eid => if eid ∈ validEdgeIds nodes edges n ∧ eid ∉ acc
            then acc ++ [eid] else acc) []).take 1
      else ((lookupSel src n.id).getD []).foldl
          (fun acc eid => if eid ∈ validEdgeIds nodes edges n ∧ eid ∉ acc
            then acc ++ [eid] else acc) [] := rfl

theorem nns_mem_valid (nodes : List Node) (edges : List Edge)
    (src : Selections) (n : Node) (x : String)
    (h : x ∈ normalizeNodeSelection nodes edges src n) :
    x ∈ validEdgeIds nodes edges n := by
  rw [nns_unfold] at h
  have hu : x ∈ ((lookupSel src n.id).getD []).foldl
      (fun acc eid => if eid ∈ validEdgeIds nodes edges n ∧ eid ∉ acc
        then acc ++ [eid] else acc) [] := by
    split at h
    · exact List.take_subset 1 _ h
    · exact h
  rcases foldl_keep_mem (fun eid => eid ∈ validEdgeIds nodes edges n)
      _ [] x hu with h1 | h2
  · cases h1
  · exact h2.2

theorem nns_nodup (nodes : List Node) (edges : List Edge)
    (src : Selections) (n : Node) :
    (normalizeNodeSelection nodes edges src n).Nodup := by
  rw [nns_unfold]
  have hu : (((lookupSel src n.id).getD []).foldl
      (fun acc eid => if eid ∈ validEdgeIds nodes edges n ∧ eid ∉ acc
        then acc ++ [eid] else acc) []).Nodup :=
    foldl_pushIf_nodup (fun eid => eid ∈ validEdgeIds nodes edges n) _ []
      List.nodup_nil
  split
  · exact hu.sublist (List.take_sublist 1 _)
  · exact hu

theorem nns_fix (nodes : List Node) (edges : List Edge)
    (src : Selections) (n : Node) (w : List String)
    (hl : lookupSel src n.id = some w) (hnd : w.Nodup)
    (hval : ∀ x ∈ w, x ∈ validEdgeIds nodes edges n)
    (hxor : n.type = "xor" → w.length ≤ 1) :
    normalizeNodeSelection nodes edges src n = w := by
  rw [nns_unfold]
  simp only [hl, Option.getD_some]
  rw [foldl_pushIf (fun eid => eid ∈ validEdgeIds nodes edges n) w []
    (fun x _ => List.not_mem_nil x) hnd]
  rw [List.nil_append]
  rw [List.filter_eq_self.mpr (fun x hx => decide_eq_true (hval x hx))]
  by_cases ht : n.type = "xor"
  · rw [if_neg (fun hc => by
      have := hxor ht
      omega)]
  · rw [if_neg (fun hc => ht hc.1)]

theorem nns_nil_of_none (nodes : List Node) (edges : List Edge)
    (src : Selections) (n : Node) (hl : lookupSel src n.id = none) :
    normalizeNodeSelection nodes edges src n = [] := by
  rw [nns_unfold]
  simp only [hl, Option.getD_none, List.foldl_nil]
  split <;> rfl

theorem pruneEntry_filter (path : List String) (nodes : List Node)
    (edges : List Edge) (v : List String) (hnd : v.Nodup) :
    pruneEntry path nodes edges v =
      v.filter (fun x => decide (x ∈ path ∧ ¬ hasNodeId nodes x = true ∧
        hasEdgeId edges x = true)) := by
  rw [pruneEntry]
  rw [foldl_pushIf (fun eid => eid ∈ path ∧ ¬ hasNodeId nodes eid = true ∧
      hasEdgeId edges eid = true) v []
    (fun x _ => List.not_mem_nil x) hnd]
  rw [List.nil_append]

theorem pruneEntry_nodup (path : List String) (nodes : List Node)
    (edges : List Edge) (v : List String) :
    (pruneEntry path nodes edges v).Nodup :=
  foldl_pushIf_nodup (fun eid => eid ∈ path ∧ ¬ hasNodeId nodes eid = true ∧
    hasEdgeId edges eid = true) v [] List.nodup_nil

theorem pruneEntry_of_all (path : List String) (nodes : List Node)
    (edges : List Edge) (v : List String) (hnd : v.Nodup)
    (h : ∀ x ∈ v, x ∈ path ∧ ¬ hasNodeId nodes x = true ∧
      hasEdgeId edges x = true) :
    pruneEntry path nodes edges v = v := by
  rw [pruneEntry_filter path nodes edges v hnd]
  exact List.filter_eq_self.mpr (fun x hx => decide_eq_true (h x hx))

/-! ### Walk congruence over visited nodes, and the closure property -/

theorem flatMap_if_filter {alpha : Type} (p : String → Bool)
    (f : String → List alpha) :
    ∀ l : List String,
      (l.flatMap fun x => if p x = true then f x else []) =
        (l.filter p).flatMap f
  | [] => rfl
  | x :: l => by
    rw [List.flatMap_cons, List.filter_cons]
    by_cases hp : p x = true
    · rw [if_pos hp, if_pos hp, List.flatMap_cons, flatMap_if_filter p f l]
    · rw [if_neg hp, if_neg hp, flatMap_if_filter p f l]
      simp

theorem flatMap_congr_mem {alpha beta : Type} (f g : alpha → List beta) :
    ∀ l : List alpha, (∀ a ∈ l, f a = g a) → l.flatMap f = l.flatMap g
  | [], _ => rfl
  | a :: l, h => by
    rw [List.flatMap_cons, List.flatMap_cons,
      h a (List.mem_cons_self a l),
      flatMap_congr_mem f g l (fun x hx => h x (List.mem_cons_of_mem a hx))]

theorem walk_expand_eff (ns : List Node) (es : List Edge) (S : Selections)
    (fuel : Nat) (nid : String) (stack : List String) (node : Node)
    (hn : lookupNode ns nid = some node) (hst : nid ∉ stack) :
    walk ns es S (fuel + 1) nid stack =
      nid :: (effSelList ns es S nid).flatMap (fun eid =>
        eid :: walk ns es S fuel (edgeTarget es eid) (nid :: stack)) := by
  rw [walk_expand ns es S fuel nid stack node hn hst]
  congr 1
  rw [effSelList, hn]
  dsimp only
  exact flatMap_if_filter _ _ _

theorem walk_sub_expand (ns : List Node) (es : List Edge) (S : Selections)
    (fuel : Nat) (nid : String) (stack : List String) (node : Node)
    (hn : lookupNode ns nid = some node) (hst : nid ∉ stack)
    (eid : String) (heid : eid ∈ effSelList ns es S nid) :
    ∀ y ∈ walk ns es S fuel (edgeTarget es eid) (nid :: stack),
      y ∈ walk ns es S (fuel + 1) nid stack := by
  intro y hy
  rw [walk_expand_eff ns es S fuel nid stack node hn hst]
  exact List.mem_cons.mpr (Or.inr (List.mem_flatMap.mpr
    ⟨eid, heid, List.mem_cons_of_mem eid hy⟩))

/-- The walk only reads the selection entries of nodes it records; two
selection maps agreeing on every visited node produce the same walk. -/
theorem walk_congr_visited (ns : List Node) (es : List Edge)
    (S S' : Selections) :
    ∀ (fuel : Nat) (nid : String) (stack : List String),
      (∀ k, k ∈ walk ns es S fuel nid stack →
        effSelList ns es S k = effSelList ns es S' k) →
      walk ns es S fuel nid stack = walk ns es S' fuel nid stack
  | 0, _, _, _ => rfl
  | fuel + 1, nid, stack, h => by
    cases hn : lookupNode ns nid with
    | none =>
      rw [walk_succ, walk_succ, hn]
    | some node =>
      by_cases hst : nid ∈ stack
      · rw [walk_stack_hit ns es S fuel nid stack node hn hst,
          walk_stack_hit ns es S' fuel nid stack node hn hst]
      · rw [walk_expand_eff ns es S fuel nid stack node hn hst,
          walk_expand_eff ns es S' fuel nid stack node hn hst]
        have heff : effSelList ns es S nid = effSelList ns es S' nid :=
          h nid (by
            rw [walk_expand_eff ns es S fuel nid stack node hn hst]
            exact List.mem_cons_self nid _)
        rw [← heff]
        congr 1
        refine flatMap_congr_mem _ _ _ (fun eid heid => ?_)
        congr 1
        refine walk_congr_visited ns es S S' fuel (edgeTarget es eid)
          (nid :: stack) (fun k hk => ?_)
        exact h k (walk_sub_expand ns es S fuel nid stack node hn hst
          eid heid k hk)

theorem lookupEdge_mem (es : List Edge) (k : String) (e : Edge)
    (h : lookupEdge es k = some e) : e ∈ es := by
  rw [lookupEdge] at h
  cases hf : List.find? (fun e : Edge => decide (e.id = k)) es.reverse with
  | none =>
    rw [hf] at h
    cases h
  | some e2 =>
    rw [hf] at h
    cases h
    exact List.mem_reverse.mp (List.mem_of_find?_eq_some hf)

theorem hasEdgeId_of_validEdgeAt (ns : List Node) (es : List Edge)
    (nid x : String) (h : validEdgeAt ns es nid x = true) :
    hasEdgeId es x = true := by
  rw [validEdgeAt] at h
  cases he : lookupEdge es x with
  | none =>
    rw [he] at h
    cases h
  | some e =>
    rw [hasEdgeId]
    exact List.any_eq_true.mpr ⟨e, lookupEdge_mem es x e he,
      decide_eq_true (lookupEdge_id es x e he)⟩

/-- Closure of the walk under effective selections: when no edge id is also a
node id, every recorded node id that is not an ancestor has all its effective
selection entries recorded too. -/
theorem walk_closure (ns : List Node) (es : List Edge) (S : Selections)
    (hdisj : ∀ y, hasNodeId ns y = true → hasEdgeId es y = false) :
    ∀ (fuel : Nat) (nid : String) (stack : List String) (y : String),
      y ∈ walk ns es S fuel nid stack → hasNodeId ns y = true →
      y ∈ stack ∨ ∀ x ∈ effSelList ns es S y, x ∈ walk ns es S fuel nid stack
  | 0, _, _, _, hy, _ => by
    rw [walk] at hy
    cases hy
  | fuel + 1, nid, stack, y, hy, hnode => by
    cases hn : lookupNode ns nid with
    | none =>
      rw [walk_succ, hn] at hy
      cases hy
    | some node =>
      by_cases hst : nid ∈ stack
      · rw [walk_stack_hit ns es S fuel nid stack node hn hst] at hy
        rcases List.mem_singleton.mp hy with rfl
        exact Or.inl hst
      · rw [walk_expand_eff ns es S fuel nid stack node hn hst] at hy
        rcases List.mem_cons.mp hy with rfl | hy2
        · exact Or.inr (fun x hx =>
            effSel_mem_walk ns es S fuel y stack node hn hst x hx)
        · obtain ⟨eid, heid, hitem⟩ := List.mem_flatMap.mp hy2
          rcases List.mem_cons.mp hitem with rfl | hysub
          · exfalso
            have hval := (effSel_unpack ns es S nid node hn y heid).2
            have hedge := hasEdgeId_of_validEdgeAt ns es nid y hval
            rw [hdisj y hnode] at hedge
            cases hedge
          · rcases walk_closure ns es S hdisj fuel (edgeTarget es eid)
                (nid :: stack) y hysub hnode with htop | hclosed
            · rcases List.mem_cons.mp htop with rfl | hstk
              · exact Or.inr (fun x hx =>
                  effSel_mem_walk ns es S fuel y stack node hn hst x hx)
              · exact Or.inl hstk
            · exact Or.inr (fun x hx =>
                walk_sub_expand ns es S fuel nid stack node hn hst eid heid
                  x (hclosed x hx))

/-! ### Assembling the idempotence of the enforcer -/

theorem uistate_ext (u v : UIState)
    (h1 : u.selectedNodeId = v.selectedNodeId)
    (h2 : u.activePath = v.activePath)
    (h3 : u.activeSelections = v.activeSelections) : u = v := by
  cases u
  cases v
  dsimp only at h1 h2 h3
  rw [h1, h2, h3]

theorem graph_ext (G H : Graph)
    (h1 : G.id = H.id) (h2 : G.name = H.name) (h3 : G.version = H.version)
    (h4 : G.createdAt = H.createdAt) (h5 : G.updatedAt = H.updatedAt)
    (h6 : G.nodes = H.nodes) (h7 : G.edges = H.edges)
    (h8 : G.ui = H.ui) : G = H := by
  cases G
  cases H
  dsimp only at h1 h2 h3 h4 h5 h6 h7 h8
  rw [h1, h2, h3, h4, h5, h6, h7, h8]

theorem filter_filter_of_imp_mem {alpha : Type} (p q : alpha → Bool) :
    ∀ l : List alpha, (∀ a ∈ l, q a = true → p a = true) →
      (l.filter p).filter q = l.filter q
  | [], _ => rfl
  | a :: l, h => by
    have hrest := filter_filter_of_imp_mem p q l
      (fun x hx => h x (List.mem_cons_of_mem a hx))
    by_cases hp : p a = true
    · by_cases hq : q a = true <;>
        simp [List.filter_cons, hp, hq, hrest]
    · have hq : ¬ q a = true := fun hqa =>
        hp (h a (List.mem_cons_self a l) hqa)
      simp [List.filter_cons, hp, hq, hrest]

theorem filterMap_eq_self {alpha : Type} (f : alpha → Option alpha) :
    ∀ l : List alpha, (∀ a ∈ l, f a = some a) → l.filterMap f = l
  | [], _ => rfl
  | a :: l, h => by
    rw [List.filterMap_cons_some (h a (List.mem_cons_self a l)),
      filterMap_eq_self f l (fun x hx => h x (List.mem_cons_of_mem a hx))]

theorem filterMap_guard_keys (F : Node → Option (String × List String))
    (hkey : ∀ n kv, F n = some kv → kv.1 = n.id) :
    ∀ ns : List Node,
      List.Sublist ((ns.filterMap F).map Prod.fst) (ns.map Node.id)
  | [] => List.Sublist.refl []
  | n :: ns => by
    cases hf : F n with
    | none =>
      rw [List.filterMap_cons_none hf, List.map_cons]
      exact (filterMap_guard_keys F hkey ns).cons n.id
    | some kv =>
      rw [List.filterMap_cons_some hf, List.map_cons, List.map_cons,
        hkey n kv hf]
      exact (filterMap_guard_keys F hkey ns).cons₂ n.id

theorem sanitizeEdges_nil : ∀ es : List Edge, sanitizeEdges [] es = []
  | [] => rfl
  | e :: es => by
    rw [sanitizeEdges, List.filterMap_cons_none (by rw [sanitizeEdge]; rfl)]
    exact sanitizeEdges_nil es

theorem normFold_empty_src (nodes : List Node) (edges : List Edge) :
    ∀ (ns : List Node) (acc : Selections),
      ns.foldl (normalizeSelStep nodes edges []) acc = acc
  | [], _ => rfl
  | n :: ns, acc => by
    rw [List.foldl_cons]
    rw [show normalizeSelStep nodes edges [] acc n = acc by
      simp only [normalizeSelStep]
      rw [if_neg (by simpa using nns_nil_of_none nodes edges [] n rfl)]]
    exact normFold_empty_src nodes edges ns acc

theorem enforce_selNodeEq (g : Graph) :
    (enforceGraphConsistency g).ui.selectedNodeId =
      (match g.ui.selectedNodeId with
       | some s => if hasNodeId g.nodes s then some s else none
       | none => none) := rfl

theorem enforce_ui_path (g : Graph) :
    (enforceGraphConsistency g).ui.activePath =
      (rebuildActivePath
        (g.nodes.map (mirrorNode (sanitizeEdges g.nodes g.edges)))
        (sanitizeEdges g.nodes g.edges)
        (normalizeSelections
          (g.nodes.map (mirrorNode (sanitizeEdges g.nodes g.edges)))
          (sanitizeEdges g.nodes g.edges)
          (if ¬ g.ui.activeSelections.isEmpty then g.ui.activeSelections
           else deriveSelectionsFromPath (sanitizeEdges g.nodes g.edges)
             g.ui.activePath))).1 := rfl

theorem enforce_ui_sels (g : Graph) :
    (enforceGraphConsistency g).ui.activeSelections =
      (rebuildActivePath
        (g.nodes.map (mirrorNode (sanitizeEdges g.nodes g.edges)))
        (sanitizeEdges g.nodes g.edges)
        (normalizeSelections
          (g.nodes.map (mirrorNode (sanitizeEdges g.nodes g.edges)))
          (sanitizeEdges g.nodes g.edges)
          (if ¬ g.ui.activeSelections.isEmpty then g.ui.activeSelections
           else deriveSelectionsFromPath (sanitizeEdges g.nodes g.edges)
             g.ui.activePath))).2 := rfl

theorem enforce_selNode_fix (g : Graph) :
    (enforceGraphConsistency (enforceGraphConsistency g)).ui.selectedNodeId =
      (enforceGraphConsistency g).ui.selectedNodeId := by
  rw [enforce_selNodeEq (enforceGraphConsistency g), enforce_selNodeEq g]
  cases hs : g.ui.selectedNodeId with
  | none => rfl
  | some s =>
    dsimp only
    by_cases hh : hasNodeId g.nodes s = true
    · rw [if_pos hh]
      dsimp only
      rw [enforce_nodes, hasNodeId_map_mirror, if_pos hh]
    · rw [if_neg hh]

theorem enforce_of_nodes_nil (g : Graph) (h : g.nodes = []) :
    enforceGraphConsistency g =
      { g with
        nodes := [],
        edges := [],
        ui := { selectedNodeId := none,
                activePath := [],
                activeSelections := [] } } := by
  refine graph_ext _ _ rfl rfl rfl rfl rfl ?_ ?_ ?_
  · rw [enforce_nodes, h]
    rfl
  · rw [enforce_edges, h, sanitizeEdges_nil]
  · refine uistate_ext _ _ ?_ ?_ ?_
    · rw [enforce_selNodeEq]
      cases hs : g.ui.selectedNodeId with
      | none => rfl
      | some s =>
        dsimp only
        rw [h]
        rw [if_neg (by simp [hasNodeId])]
    · rw [enforce_ui_path, h]
      rfl
    · rw [enforce_ui_sels, h]
      rfl

theorem nodupKeys_normFold (nodes : List Node) (edges : List Edge)
    (src : Selections) (ns : List Node) (hnd : (ns.map Node.id).Nodup) :
    ((ns.foldl (normalizeSelStep nodes edges src) []).map Prod.fst).Nodup := by
  rw [normFold_filterMap nodes edges src ns [] hnd (by simp),
    List.nil_append]
  refine List.Sublist.nodup (filterMap_guard_keys _ ?_ ns) hnd
  intro n2 kv hf
  split at hf
  · cases hf
    rfl
  · cases hf

theorem lookupSel_normFold (nodes : List Node) (edges : List Edge)
    (src : Selections) (ns : List Node) (hnd : (ns.map Node.id).Nodup)
    (n : Node) (hm : n ∈ ns) :
    lookupSel (ns.foldl (normalizeSelStep nodes edges src) []) n.id =
      if normalizeNodeSelection nodes edges src n ≠ []
      then some (normalizeNodeSelection nodes edges src n) else none := by
  rw [normFold_filterMap nodes edges src ns [] hnd (by simp),
    List.nil_append]
  by_cases hu : normalizeNodeSelection nodes edges src n = []
  · rw [if_neg (by simpa using hu)]
    apply lookupSel_none_of_not_mem_keys
    intro hkey
    obtain ⟨kv, hkv, hk1⟩ := List.mem_map.mp hkey
    obtain ⟨n2, hn2, hf2⟩ := List.mem_filterMap.mp hkv
    by_cases hu2 : normalizeNodeSelection nodes edges src n2 = []
    · rw [if_neg (by simpa using hu2)] at hf2
      cases hf2
    · rw [if_pos (by simpa using hu2)] at hf2
      cases hf2
      have hn2n : n2 = n := List.inj_on_of_nodup_map hnd hn2 hm hk1
      exact hu2 (hn2n ▸ hu)
  · rw [if_pos (by simpa using hu)]
    refine lookupSel_of_mem_nodup _ _ _ ?_ ?_
    · refine List.Sublist.nodup (filterMap_guard_keys _ ?_ ns) hnd
      intro n2 kv hf
      split at hf
      · cases hf
        rfl
      · cases hf
    · exact List.mem_filterMap.mpr ⟨n, hm, by rw [if_pos (by simpa using hu)]⟩

theorem rebuildActivePath_some (ns : List Node) (es : List Edge)
    (sels : Selections) (root : Node) (hh : ns.head? = some root) :
    rebuildActivePath ns es sels =
      (walk ns es sels (ns.length + 1) root.id [],
       sels.foldl (pruneStep (walk ns es sels (ns.length + 1) root.id [])
         ns es) []) := by
  rw [rebuildActivePath, hh]

/-- One full rebuild round (normalize, walk, prune) is a fixpoint of the next
round when node ids are duplicate-free and no edge id is a node id: the
pruned selection map re-normalizes to itself, re-derives the same path, and
re-prunes to itself. -/
theorem pass_fixpoint (NS : List Node) (ES : List Edge) (SRC : Selections)
    (hnd : (NS.map Node.id).Nodup)
    (hdisj : ∀ y, hasNodeId NS y = true → hasEdgeId ES y = false)
    (root : Node) (hh : NS.head? = some root) :
    ∀ SN path1 sels1, SN = normalizeSelections NS ES SRC →
      path1 = walk NS ES SN (NS.length + 1) root.id [] →
      sels1 = SN.foldl (pruneStep path1 NS ES) [] →
      normalizeSelections NS ES sels1 = sels1 ∧
      walk NS ES sels1 (NS.length + 1) root.id [] = path1 ∧
      sels1.foldl (pruneStep path1 NS ES) [] = sels1 := by
  intro SN path1 sels1 hSN hpath hsels
  have hndSN : (SN.map Prod.fst).Nodup := by
    rw [hSN]
    exact nodupKeys_normFold NS ES SRC NS hnd
  have hlookS : ∀ k, lookupSel sels1 k =
      (match lookupSel SN k with
       | some v =>
         if (k ∈ path1 ∧ hasNodeId NS k = true) ∧
             pruneEntry path1 NS ES v ≠ []
         then some (pruneEntry path1 NS ES v) else none
       | none => none) := by
    intro k
    rw [hsels, lookupSel_pruneFold_eq path1 NS ES SN [] k hndSN]
    cases lookupSel SN k with
    | some v =>
      dsimp only
      split
      · rfl
      · rfl
    | none => rfl
  have hprovSN : ∀ k v, lookupSel SN k = some v →
      ∃ n ∈ NS, n.id = k ∧ v = normalizeNodeSelection NS ES SRC n := by
    intro k v hkv
    have hm := lookupSel_mem SN k v hkv
    rw [hSN] at hm
    rcases mem_normFold NS ES SRC NS [] (k, v) hm with h0 | ⟨n, hn, hid, hv⟩
    · cases h0
    · exact ⟨n, hn, hid, hv⟩
  have hclo : ∀ k, k ∈ path1 → hasNodeId NS k = true →
      ∀ x ∈ effSelList NS ES SN k, x ∈ path1 := by
    intro k hk hkn x hx
    rcases walk_closure NS ES SN hdisj (NS.length + 1) root.id [] k
        (by rw [hpath] at hk; exact hk) hkn with h0 | h1
    · cases h0
    · rw [hpath]
      exact h1 x hx
  have hslice : ∀ (S : Selections) (node : Node) (k : String)
      (w : List String), lookupSel S k = some w →
      (node.type = "xor" → w.length ≤ 1) → selSlice node S k = w := by
    intro S node k w hw hlen
    rw [selSlice, hw]
    simp only [Option.getD_some]
    split
    · rename_i ht
      exact List.take_of_length_le (hlen ht)
    · rfl
  have hslicenil : ∀ (S : Selections) (node : Node) (k : String),
      lookupSel S k = none → selSlice node S k = [] := by
    intro S node k hw
    rw [selSlice, hw]
    split <;> rfl
  -- the per-entry implication used everywhere: a traversable entry of a
  -- path-visited node survives pruning
  have himp : ∀ (k : String) (node : Node) (u : List String),
      k ∈ path1 → hasNodeId NS k = true → lookupNode NS k = some node →
      lookupSel SN k = some u → (node.type = "xor" → u.length ≤ 1) →
      ∀ a ∈ u, validEdgeAt NS ES k a = true →
        (decide (a ∈ path1 ∧ ¬ hasNodeId NS a = true ∧
          hasEdgeId ES a = true)) = true := by
    intro k node u hk hkn hnode hSNk hxorlen a ha hv
    have hedge : hasEdgeId ES a = true := hasEdgeId_of_validEdgeAt NS ES k a hv
    have hnoda : hasNodeId NS a = false := by
      cases hna : hasNodeId NS a with
      | false => rfl
      | true =>
        rw [hdisj a hna] at hedge
        cases hedge
    have haeff : a ∈ effSelList NS ES SN k := by
      rw [effSelList, hnode]
      dsimp only
      refine List.mem_filter.mpr ⟨?_, hv⟩
      rw [hslice SN node k u hSNk hxorlen]
      exact ha
    have hapath : a ∈ path1 := hclo k hk hkn a haeff
    refine decide_eq_true ⟨hapath, ?_, hedge⟩
    rw [hnoda]
    simp
  -- per-node data coming out of the first normalization
  have hufacts : ∀ (k : String) (n : Node) (u : List String), n ∈ NS →
      n.id = k → u = normalizeNodeSelection NS ES SRC n →
      u.Nodup ∧ (∀ x ∈ u, x ∈ validEdgeIds NS ES n) ∧
        (n.type = "xor" → u.length ≤ 1) := by
    intro k n u _ _ hu
    subst hu
    exact ⟨nns_nodup NS ES SRC n,
      fun x hx => nns_mem_valid NS ES SRC n x hx,
      fun ht => normalizeNodeSelection_xor_len NS ES SRC n ht⟩
  -- the central pointwise fact: on visited nodes the effective selections
  -- of the normalized map and of its pruning agree
  have heff : ∀ k, k ∈ path1 →
      effSelList NS ES SN k = effSelList NS ES sels1 k := by
    intro k hk
    cases hkn : hasNodeId NS k with
    | false =>
      rw [effSelList, effSelList, lookupNode_none_of_not NS k hkn]
    | true =>
      obtain ⟨node, hnode, hnodeid⟩ := lookupNode_of_hasNodeId NS k hkn
      rw [effSelList, effSelList, hnode]
      dsimp only
      cases hSNk : lookupSel SN k with
      | none =>
        have hs1 : lookupSel sels1 k = none := by
          rw [hlookS k, hSNk]
        rw [hslicenil SN node k hSNk, hslicenil sels1 node k hs1]
      | some u =>
        obtain ⟨n, hn, hid, hu⟩ := hprovSN k u hSNk
        have hnnode : n = node := by
          refine List.inj_on_of_nodup_map hnd hn
            (lookupNode_mem NS k node hnode) ?_
          rw [hid, hnodeid]
        rw [hnnode] at hu hn
        obtain ⟨hundup, huval, huxor⟩ := hufacts k node u hn hnodeid hu
        rw [hslice SN node k u hSNk huxor]
        by_cases hwne : pruneEntry path1 NS ES u ≠ []
        · have hs1 : lookupSel sels1 k =
              some (pruneEntry path1 NS ES u) := by
            rw [hlookS k, hSNk]
            dsimp only
            rw [if_pos ⟨⟨hk, hkn⟩, hwne⟩]
          have hwxor : node.type = "xor" →
              (pruneEntry path1 NS ES u).length ≤ 1 := by
            intro ht
            exact le_trans
              (List.Sublist.length_le (pruneEntry_sublist path1 NS ES u))
              (huxor ht)
          rw [hslice sels1 node k _ hs1 hwxor]
          rw [pruneEntry_filter path1 NS ES u hundup]
          exact (filter_filter_of_imp_mem _ _ u
            (fun a ha hv => himp k node u hk hkn hnode hSNk huxor a ha hv)).symm
        · have hs1 : lookupSel sels1 k = none := by
            rw [hlookS k, hSNk]
            dsimp only
            rw [if_neg (fun hc => hwne hc.2)]
          rw [hslicenil sels1 node k hs1]
          rw [List.filter_nil, List.filter_eq_nil_iff]
          intro a ha hv
          have hp := himp k node u hk hkn hnode hSNk huxor a ha hv
          have hmw : a ∈ pruneEntry path1 NS ES u := by
            rw [pruneEntry_filter path1 NS ES u hundup]
            exact List.mem_filter.mpr ⟨ha, hp⟩
          rw [not_not.mp (fun hc => hwne hc)] at hmw
          cases hmw
  have hwalk2 : walk NS ES sels1 (NS.length + 1) root.id [] = path1 := by
    rw [hpath]
    exact (walk_congr_visited NS ES SN sels1 (NS.length + 1) root.id []
      (fun k hkw => heff k (by rw [hpath]; exact hkw))).symm
  -- part (i): re-normalizing the pruned map gives it back
  have hnorm2 : normalizeSelections NS ES sels1 = sels1 := by
    have hclosed1 : sels1 = NS.filterMap (fun n =>
        (if normalizeNodeSelection NS ES SRC n ≠ []
         then some (n.id, normalizeNodeSelection NS ES SRC n)
         else none).bind (fun kv =>
          if kv.1 ∈ path1 ∧ hasNodeId NS kv.1 then
            (if pruneEntry path1 NS ES kv.2 ≠ []
             then some (kv.1, pruneEntry path1 NS ES kv.2) else none)
          else none)) := by
      rw [hsels, pruneFold_filterMap path1 NS ES SN [] hndSN (by simp),
        List.nil_append, hSN,
        show normalizeSelections NS ES SRC =
          NS.foldl (normalizeSelStep NS ES SRC) [] from rfl,
        normFold_filterMap NS ES SRC NS [] hnd (by simp), List.nil_append,
        List.filterMap_filterMap]
    rw [show normalizeSelections NS ES sels1 =
        NS.foldl (normalizeSelStep NS ES sels1) [] from rfl]
    rw [normFold_filterMap NS ES sels1 NS [] hnd (by simp),
      List.nil_append]
    refine (filterMap_congr_mem _ _ NS (fun n hn => ?_)).trans hclosed1.symm
    have hkn : hasNodeId NS n.id = true := by
      rw [hasNodeId]
      exact List.any_eq_true.mpr ⟨n, hn, decide_eq_true rfl⟩
    have hSNlook : lookupSel SN n.id =
        (if normalizeNodeSelection NS ES SRC n ≠ []
         then some (normalizeNodeSelection NS ES SRC n) else none) := by
      rw [hSN]
      exact lookupSel_normFold NS ES SRC NS hnd n hn
    by_cases hu : normalizeNodeSelection NS ES SRC n = []
    · have hs1 : lookupSel sels1 n.id = none := by
        rw [hlookS n.id, hSNlook, if_neg (by simpa using hu)]
      rw [nns_nil_of_none NS ES sels1 n hs1]
      rw [if_neg (by simp), if_neg (by simpa using hu)]
      rfl
    · obtain ⟨hundup, huval, huxor⟩ :=
        hufacts n.id n (normalizeNodeSelection NS ES SRC n) hn rfl rfl
      by_cases hkp : n.id ∈ path1
      · by_cases hwne :
            pruneEntry path1 NS ES (normalizeNodeSelection NS ES SRC n) ≠ []
        · have hs1 : lookupSel sels1 n.id = some (pruneEntry path1 NS ES
              (normalizeNodeSelection NS ES SRC n)) := by
            rw [hlookS n.id, hSNlook, if_pos (by simpa using hu)]
            dsimp only
            rw [if_pos ⟨⟨hkp, hkn⟩, hwne⟩]
          have hwval : ∀ x ∈ pruneEntry path1 NS ES
              (normalizeNodeSelection NS ES SRC n),
              x ∈ validEdgeIds NS ES n := by
            intro x hx
            exact huval x (pruneEntry_mem path1 NS ES _ x hx).1
          have hwxor : n.type = "xor" → (pruneEntry path1 NS ES
              (normalizeNodeSelection NS ES SRC n)).length ≤ 1 := by
            intro ht
            exact le_trans
              (List.Sublist.length_le (pruneEntry_sublist path1 NS ES _))
              (huxor ht)
          rw [nns_fix NS ES sels1 n _ hs1
            (pruneEntry_nodup path1 NS ES _) hwval hwxor]
          rw [if_pos (by simpa using hwne), if_pos (by simpa using hu),
            Option.some_bind]
          dsimp only
          rw [if_pos ⟨hkp, hkn⟩, if_pos hwne]
        · have hs1 : lookupSel sels1 n.id = none := by
            rw [hlookS n.id, hSNlook, if_pos (by simpa using hu)]
            dsimp only
            rw [if_neg (fun hc => hwne hc.2)]
          rw [nns_nil_of_none NS ES sels1 n hs1]
          rw [if_neg (by simp), if_pos (by simpa using hu),
            Option.some_bind]
          dsimp only
          rw [if_pos ⟨hkp, hkn⟩, if_neg hwne]
      · have hs1 : lookupSel sels1 n.id = none := by
          rw [hlookS n.id, hSNlook, if_pos (by simpa using hu)]
          dsimp only
          rw [if_neg (fun hc => hkp hc.1.1)]
        rw [nns_nil_of_none NS ES sels1 n hs1]
        rw [if_neg (by simp), if_pos (by simpa using hu),
          Option.some_bind]
        dsimp only
        rw [if_neg (fun hc => hkp hc.1)]
  -- part (iii): re-pruning the pruned map gives it back
  have hprune2 : sels1.foldl (pruneStep path1 NS ES) [] = sels1 := by
    have hnds1 : (sels1.map Prod.fst).Nodup := by
      rw [hsels]
      exact nodupKeys_pruneFold path1 NS ES SN [] (by simp)
    rw [pruneFold_filterMap path1 NS ES sels1 [] hnds1 (by simp),
      List.nil_append]
    refine filterMap_eq_self _ sels1 (fun kv hkv => ?_)
    have hkv2 : kv ∈ SN.filterMap (fun kv0 =>
        if kv0.1 ∈ path1 ∧ hasNodeId NS kv0.1 then
          (if pruneEntry path1 NS ES kv0.2 ≠ []
           then some (kv0.1, pruneEntry path1 NS ES kv0.2) else none)
        else none) := by
      rw [← List.nil_append (SN.filterMap _),
        ← pruneFold_filterMap path1 NS ES SN [] hndSN (by simp), ← hsels]
      exact hkv
    obtain ⟨kv0, hkv0, hf0⟩ := List.mem_filterMap.mp hkv2
    by_cases hc1 : kv0.1 ∈ path1 ∧ hasNodeId NS kv0.1 = true
    · rw [if_pos hc1] at hf0
      by_cases hc2 : pruneEntry path1 NS ES kv0.2 ≠ []
      · rw [if_pos hc2] at hf0
        cases hf0
        rw [if_pos hc1]
        have hwfix : pruneEntry path1 NS ES
            (pruneEntry path1 NS ES kv0.2) =
            pruneEntry path1 NS ES kv0.2 := by
          refine pruneEntry_of_all path1 NS ES _
            (pruneEntry_nodup path1 NS ES kv0.2) (fun x hx => ?_)
          exact (pruneEntry_mem path1 NS ES kv0.2 x hx).2
        rw [hwfix]
        rw [if_pos hc2]
      · rw [if_neg hc2] at hf0
        cases hf0
    · rw [if_neg hc1] at hf0
      cases hf0
  exact ⟨hnorm2, hwalk2, hprune2⟩

/-- When pruning empties the selection map, the derived path is the bare
root: any effective selection of a visited node would have survived the
pruning, so the root expands to nothing. -/
theorem path_singleton_of_empty (NS : List Node) (ES : List Edge)
    (SRC : Selections) (hnd : (NS.map Node.id).Nodup)
    (hdisj : ∀ y, hasNodeId NS y = true → hasEdgeId ES y = false)
    (root : Node) (hh : NS.head? = some root) :
    ∀ SN path1 sels1, SN = normalizeSelections NS ES SRC →
      path1 = walk NS ES SN (NS.length + 1) root.id [] →
      sels1 = SN.foldl (pruneStep path1 NS ES) [] →
      sels1 = [] → path1 = [root.id] := by
  intro SN path1 sels1 hSN hpath hsels hnil
  have hrootmem : root ∈ NS := by
    cases NS with
    | nil => cases hh
    | cons a t =>
      cases hh
      exact List.mem_cons_self _ _
  have hndSN : (SN.map Prod.fst).Nodup := by
    rw [hSN]
    exact nodupKeys_normFold NS ES SRC NS hnd
  have hrootlook : lookupNode NS root.id = some root :=
    lookupNode_eq_of_nodup NS root hnd hrootmem
  have hroothas : hasNodeId NS root.id = true :=
    hasNodeId_of_lookupNode NS root.id root hrootlook
  have hexp : path1 = root.id :: (effSelList NS ES SN root.id).flatMap
      (fun eid => eid :: walk NS ES SN NS.length (edgeTarget ES eid)
        (root.id :: [])) := by
    rw [hpath]
    exact walk_expand_eff NS ES SN NS.length root.id [] root hrootlook
      (List.not_mem_nil _)
  have hrootpath : root.id ∈ path1 := by
    rw [hexp]
    exact List.mem_cons_self _ _
  have hallnone : ∀ kv ∈ SN,
      (if kv.1 ∈ path1 ∧ hasNodeId NS kv.1 then
        (if pruneEntry path1 NS ES kv.2 ≠ []
         then some (kv.1, pruneEntry path1 NS ES kv.2) else none)
      else none) = none := by
    have hfm : SN.filterMap (fun kv =>
        if kv.1 ∈ path1 ∧ hasNodeId NS kv.1 then
          (if pruneEntry path1 NS ES kv.2 ≠ []
           then some (kv.1, pruneEntry path1 NS ES kv.2) else none)
        else none) = [] := by
      rw [← List.nil_append (SN.filterMap _),
        ← pruneFold_filterMap path1 NS ES SN [] hndSN (by simp), ← hsels,
        hnil]
    exact fun kv hkv => List.filterMap_eq_nil_iff.mp hfm kv hkv
  have heffnil : effSelList NS ES SN root.id = [] := by
    cases hSNr : lookupSel SN root.id with
    | none =>
      rw [effSelList, hrootlook]
      dsimp only
      rw [selSlice, hSNr]
      split <;> rfl
    | some u =>
      have hmem2 := lookupSel_mem SN root.id u hSNr
      have hprov := hmem2
      rw [hSN] at hprov
      have hundup : u.Nodup := by
        rcases mem_normFold NS ES SRC NS [] (root.id, u) hprov
            with h0 | ⟨n, _, _, hu⟩
        · cases h0
        · have hu2 : u = normalizeNodeSelection NS ES SRC n := hu
          rw [hu2]
          exact nns_nodup NS ES SRC n
      have hnone := hallnone (root.id, u) hmem2
      rw [if_pos ⟨hrootpath, hroothas⟩] at hnone
      have hpe : pruneEntry path1 NS ES u = [] := by
        by_contra hc
        rw [if_pos (by simpa using hc)] at hnone
        cases hnone
      rw [effSelList, hrootlook]
      dsimp only
      rw [List.filter_eq_nil_iff]
      intro a ha hv
      have hau : a ∈ u := by
        rw [selSlice, hSNr] at ha
        simp only [Option.getD_some] at ha
        by_cases ht : root.type = "xor"
        · rw [if_pos ht] at ha
          exact List.take_subset 1 u ha
        · rw [if_neg ht] at ha
          exact ha
      have hedge : hasEdgeId ES a = true :=
        hasEdgeId_of_validEdgeAt NS ES root.id a hv
      have hnoda : hasNodeId NS a = false := by
        cases hna : hasNodeId NS a with
        | false => rfl
        | true =>
          rw [hdisj a hna] at hedge
          cases hedge
      have haeff : a ∈ effSelList NS ES SN root.id := by
        rw [effSelList, hrootlook]
        dsimp only
        exact List.mem_filter.mpr ⟨ha, hv⟩
      have hapath : a ∈ path1 := by
        rcases walk_closure NS ES SN hdisj (NS.length + 1) root.id []
            root.id (by rw [hpath] at hrootpath; exact hrootpath) hroothas
            with h0 | h1
        · cases h0
        · rw [hpath]
          exact h1 a haeff
      have hmw : a ∈ pruneEntry path1 NS ES u := by
        rw [pruneEntry_filter path1 NS ES u hundup]
        refine List.mem_filter.mpr ⟨hau, decide_eq_true ⟨hapath, ?_, hedge⟩⟩
        rw [hnoda]
        simp
      rw [hpe] at hmw
      cases hmw
  rw [hexp, heffnil]
  rfl

theorem walk_empty_sels (NS : List Node) (ES : List Edge) (root : Node)
    (hroot : lookupNode NS root.id = some root) (fuel : Nat) :
    walk NS ES [] (fuel + 1) root.id [] = [root.id] := by
  rw [walk_expand_eff NS ES [] fuel root.id [] root hroot
    (List.not_mem_nil _)]
  have hsl : selSlice root ([] : Selections) root.id = [] := by
    rw [selSlice, lookupSel_nil]
    split <;> rfl
  have heff : effSelList NS ES [] root.id = [] := by
    rw [effSelList, hroot]
    dsimp only
    rw [hsl]
    rfl
  rw [heff]
  rfl

theorem derive_singleton_nonedge (ES : List Edge) (x : String)
    (hx : hasEdgeId ES x = false) :
    deriveSelectionsFromPath ES [x] = [] := by
  rw [deriveSelectionsFromPath, List.foldl_cons, List.foldl_nil]
  dsimp only
  rw [if_neg (by simp [hx])]

/-- The full second rebuild (branch choice between explicit selections and a
path-derived basis, normalization, walk, pruning) reproduces the first
round's path and selection map. -/
theorem second_pass_pair (NS : List Node) (ES : List Edge) (SRC : Selections)
    (hnd : (NS.map Node.id).Nodup)
    (hdisj : ∀ y, hasNodeId NS y = true → hasEdgeId ES y = false)
    (root : Node) (hh : NS.head? = some root) :
    ∀ SN P1 S1, SN = normalizeSelections NS ES SRC →
      P1 = walk NS ES SN (NS.length + 1) root.id [] →
      S1 = SN.foldl (pruneStep P1 NS ES) [] →
      rebuildActivePath NS ES (normalizeSelections NS ES
        (if ¬ S1.isEmpty then S1 else deriveSelectionsFromPath ES P1)) =
      (P1, S1) := by
  intro SN P1 S1 hSN hP hS
  have hrootmem : root ∈ NS := by
    cases NS with
    | nil => cases hh
    | cons a t =>
      cases hh
      exact List.mem_cons_self _ _
  have hrootlook : lookupNode NS root.id = some root :=
    lookupNode_eq_of_nodup NS root hnd hrootmem
  have hroothas : hasNodeId NS root.id = true :=
    hasNodeId_of_lookupNode NS root.id root hrootlook
  by_cases hC : S1 = []
  · have hP1 := path_singleton_of_empty NS ES SRC hnd hdisj root hh
      SN P1 S1 hSN hP hS hC
    rw [hC, hP1]
    rw [if_neg (by simp)]
    rw [derive_singleton_nonedge ES root.id (hdisj root.id hroothas)]
    rw [show normalizeSelections NS ES [] =
      NS.foldl (normalizeSelStep NS ES []) [] from rfl]
    rw [normFold_empty_src NS ES NS []]
    rw [rebuildActivePath_some NS ES [] root hh]
    rw [walk_empty_sels NS ES root hrootlook NS.length]
    rfl
  · obtain ⟨hnorm2, hwalk2, hprune2⟩ :=
      pass_fixpoint NS ES SRC hnd hdisj root hh SN P1 S1 hSN hP hS
    rw [if_pos (fun hx => hC (by simpa using hx))]
    rw [hnorm2]
    rw [rebuildActivePath_some NS ES S1 root hh]
    rw [hwalk2, hprune2]

/-- **C1, amended.**  The Consistency Enforcer is idempotent on every graph
whose node ids are pairwise distinct and whose edge ids avoid the node-id
set: applying `enforceGraphConsistency` twice yields the same graph as
applying it once.  (On a graph where an edge id shadows a node id the second
pass prunes entries the first pass kept — see the counterexample — so the
universal claim fails.) -/
theorem enforce_idempotent (g : Graph)
    (hnd : (g.nodes.map Node.id).Nodup)
    (hdisj : ∀ e ∈ g.edges, hasNodeId g.nodes e.id = false) :
    enforceGraphConsistency (enforceGraphConsistency g) =
      enforceGraphConsistency g := by
  have hNSdisj : ∀ y,
      hasNodeId (g.nodes.map (mirrorNode (sanitizeEdges g.nodes g.edges)))
        y = true →
      hasEdgeId (sanitizeEdges g.nodes g.edges) y = false := by
    intro y hy
    cases hE : hasEdgeId (sanitizeEdges g.nodes g.edges) y with
    | false => rfl
    | true =>
      exfalso
      have h1 := hasEdgeId_sanitize g.nodes g.edges y hE
      rw [hasEdgeId] at h1
      obtain ⟨e, he, hid⟩ := List.any_eq_true.mp h1
      rw [decide_eq_true_eq] at hid
      have h2 := hdisj e he
      rw [hid] at h2
      rw [hasNodeId_map_mirror] at hy
      rw [hy] at h2
      cases h2
  have hndNS : ((g.nodes.map
      (mirrorNode (sanitizeEdges g.nodes g.edges))).map Node.id).Nodup := by
    rw [map_id_mirror]
    exact hnd
  cases hns : g.nodes with
  | nil =>
    have h1 := enforce_of_nodes_nil g hns
    have h2 := enforce_of_nodes_nil (enforceGraphConsistency g)
      (by rw [h1])
    rw [h2, h1]
  | cons n0 rest =>
    have hh : (g.nodes.map
        (mirrorNode (sanitizeEdges g.nodes g.edges))).head? =
        some (mirrorNode (sanitizeEdges g.nodes g.edges) n0) := by
      rw [hns]
      rfl
    have hpair1 := rebuildActivePath_some
      (g.nodes.map (mirrorNode (sanitizeEdges g.nodes g.edges)))
      (sanitizeEdges g.nodes g.edges)
      (normalizeSelections
        (g.nodes.map (mirrorNode (sanitizeEdges g.nodes g.edges)))
        (sanitizeEdges g.nodes g.edges)
        (if ¬ g.ui.activeSelections.isEmpty then g.ui.activeSelections
         else deriveSelectionsFromPath (sanitizeEdges g.nodes g.edges)
           g.ui.activePath))
      (mirrorNode (sanitizeEdges g.nodes g.edges) n0) hh
    have hpair := second_pass_pair
      (g.nodes.map (mirrorNode (sanitizeEdges g.nodes g.edges)))
      (sanitizeEdges g.nodes g.edges)
      (if ¬ g.ui.activeSelections.isEmpty then g.ui.activeSelections
       else deriveSelectionsFromPath (sanitizeEdges g.nodes g.edges)
         g.ui.activePath)
      hndNS hNSdisj (mirrorNode (sanitizeEdges g.nodes g.edges) n0) hh
      _ _ _ rfl rfl rfl
    have hg1path : (enforceGraphConsistency g).ui.activePath =
        walk (g.nodes.map (mirrorNode (sanitizeEdges g.nodes g.edges)))
          (sanitizeEdges g.nodes g.edges)
          (normalizeSelections
            (g.nodes.map (mirrorNode (sanitizeEdges g.nodes g.edges)))
            (sanitizeEdges g.nodes g.edges)
            (if ¬ g.ui.activeSelections.isEmpty then g.ui.activeSelections
             else deriveSelectionsFromPath (sanitizeEdges g.nodes g.edges)
               g.ui.activePath))
          ((g.nodes.map
            (mirrorNode (sanitizeEdges g.nodes g.edges))).length + 1)
          (mirrorNode (sanitizeEdges g.nodes g.edges) n0).id [] := by
      rw [enforce_ui_path, hpair1]
    have hg1sels : (enforceGraphConsistency g).ui.activeSelections =
        (normalizeSelections
          (g.nodes.map (mirrorNode (sanitizeEdges g.nodes g.edges)))
          (sanitizeEdges g.nodes g.edges)
          (if ¬ g.ui.activeSelections.isEmpty then g.ui.activeSelections
           else deriveSelectionsFromPath (sanitizeEdges g.nodes g.edges)
             g.ui.activePath)).foldl
          (pruneStep
            (walk (g.nodes.map (mirrorNode (sanitizeEdges g.nodes g.edges)))
              (sanitizeEdges g.nodes g.edges)
              (normalizeSelections
                (g.nodes.map (mirrorNode (sanitizeEdges g.nodes g.edges)))
                (sanitizeEdges g.nodes g.edges)
                (if ¬ g.ui.activeSelections.isEmpty then
                  g.ui.activeSelections
                 else deriveSelectionsFromPath
                   (sanitizeEdges g.nodes g.edges) g.ui.activePath))
              ((g.nodes.map
                (mirrorNode (sanitizeEdges g.nodes g.edges))).length + 1)
              (mirrorNode (sanitizeEdges g.nodes g.edges) n0).id [])
            (g.nodes.map (mirrorNode (sanitizeEdges g.nodes g.edges)))
            (sanitizeEdges g.nodes g.edges)) [] := by
      rw [enforce_ui_sels, hpair1]
    have hES2 : sanitizeEdges (enforceGraphConsistency g).nodes
        (enforceGraphConsistency g).edges = sanitizeEdges g.nodes g.edges :=
      (enforce_edges_fix g).trans (enforce_edges g)
    have hNS2 : (enforceGraphConsistency g).nodes.map
        (mirrorNode (sanitizeEdges (enforceGraphConsistency g).nodes
          (enforceGraphConsistency g).edges)) =
        g.nodes.map (mirrorNode (sanitizeEdges g.nodes g.edges)) :=
      (enforce_nodes_fix g).trans (enforce_nodes g)
    have hui2 : rebuildActivePath
        ((enforceGraphConsistency g).nodes.map
          (mirrorNode (sanitizeEdges (enforceGraphConsistency g).nodes
            (enforceGraphConsistency g).edges)))
        (sanitizeEdges (enforceGraphConsistency g).nodes
          (enforceGraphConsistency g).edges)
        (normalizeSelections
          ((enforceGraphConsistency g).nodes.map
            (mirrorNode (sanitizeEdges (enforceGraphConsistency g).nodes
              (enforceGraphConsistency g).edges)))
          (sanitizeEdges (enforceGraphConsistency g).nodes
            (enforceGraphConsistency g).edges)
          (if ¬ (enforceGraphConsistency g).ui.activeSelections.isEmpty then
            (enforceGraphConsistency g).ui.activeSelections
           else deriveSelectionsFromPath
             (sanitizeEdges (enforceGraphConsistency g).nodes
               (enforceGraphConsistency g).edges)
             (enforceGraphConsistency g).ui.activePath)) =
        ((enforceGraphConsistency g).ui.activePath,
         (enforceGraphConsistency g).ui.activeSelections) := by
      rw [hNS2, hES2, hg1sels, hg1path]
      exact hpair
    refine graph_ext _ _ rfl rfl rfl rfl rfl ?_ ?_ ?_
    · rw [enforce_nodes]
      exact enforce_nodes_fix g
    · rw [enforce_edges]
      exact enforce_edges_fix g
    · refine uistate_ext _ _ (enforce_selNode_fix g) ?_ ?_
      · rw [enforce_ui_path (enforceGraphConsistency g), hui2]
      · rw [enforce_ui_sels (enforceGraphConsistency g), hui2]

/-- C1 witness graph: pairwise-distinct node ids (`S`, `A`, `B`), edge ids
(`e1`, `e2`) disjoint from them, and a live selection at the root. -/
def wIdemGraph : Graph :=
  { id := "g", name := "g", version := 1, createdAt := "t", updatedAt := "t",
    nodes := [{ id := "S", x := 0, y := 0, text := "S", type := "xor",
                color := none, buttons := [] },
              { id := "A", x := 0, y := 0, text := "A", type := "xor",
                color := none, buttons := [] },
              { id := "B", x := 0, y := 0, text := "B", type := "or",
                color := none, buttons := [] }],
    edges := [{ id := "e1", fromId := "S", toId := some "A", buttonId := "b1",
                pendingX := none, pendingY := none },
              { id := "e2", fromId := "S", toId := some "B", buttonId := "b2",
                pendingX := none, pendingY := none }],
    ui := { selectedNodeId := some "A", activePath := [],
            activeSelections := [("S", ["e2"])] } }

/-- Witness for the amended C1 theorem at `wIdemGraph`. -/
theorem enforce_idempotent_witness :
    ((wIdemGraph.nodes.map Node.id).Nodup ∧
      ∀ e ∈ wIdemGraph.edges, hasNodeId wIdemGraph.nodes e.id = false) ∧
    enforceGraphConsistency (enforceGraphConsistency wIdemGraph) =
      enforceGraphConsistency wIdemGraph :=
  ⟨⟨by decide, by decide⟩,
    enforce_idempotent wIdemGraph (by decide) (by decide)⟩

end KnotenWerk
